import Mathlib

/-!
# Trinity decode pipeline: Packet Queue, Frame Queue, Decoder, Read Loop, Message Queue

Shallow embedding of `library/src/main/cpp/decode/ffmpeg_decode.c`, and of
`library/src/main/cpp/message/message_queue.cc` and `handler.cc`.

Modelling conventions
* C `int` / `int64_t` fields are mathematical integers (`Int`); signed overflow is undefined
  behaviour in C and lies outside the model.  Where the code computes in an unsigned type and
  converts back to `int` (the byte count `size` of a Packet Queue), the result is reduced to 32
  bits (`to_int`).
* The intrusive list `first_pkt … last_pkt` of a `PacketQueue` is a `List` of nodes, head first;
  `last_pkt` is its last element.
* Every queue function is one atomic step (calls of different threads interleave between
  functions, not inside one).  A call that parks in `pthread_cond_wait` is reported by the outcome
  `waits` and leaves the state as it is.
* `sizeof(MyAVPacketList)` and the capacity of the `FrameQueue.queue` array come from the header
  `ffmpeg_decode.h`; they are parameters (`sz`, `cap`).
* `av_malloc` may fail; its result is the parameter `alloc_ok`.
* One iteration of the loop of `read_thread` is a function of the context at its start and of the
  answers of FFmpeg and of the callbacks during it (`ReadEnv`); other threads act between
  iterations.
* C bit operations on `int` are `Int.land`, `Int.lor` and `Int.lnot` (two's complement).
-/

namespace Trinity

/-! ## Packets -/

/-- Values of the pointer `AVPacket.data`. -/
inductive DataPtr where
  /-- `NULL`. -/
  | null
  /-- `(uint8_t*) &flush_pkt`, the address stored in the flush sentinel (`av_decode_start`). -/
  | flush_addr
  /-- A payload buffer owned by the demuxer. -/
  | buf (id : Nat)
  deriving DecidableEq, Repr

/-- The value `AV_NOPTS_VALUE` of FFmpeg. -/
def AV_NOPTS_VALUE : Int := -9223372036854775808

/-- The value of `AVERROR(ENOMEM)`. -/
def AVERROR_ENOMEM : Int := -12

/-- The fields of `AVPacket` the pipeline reads. -/
structure AVPacket where
  data : DataPtr
  size : Int
  stream_index : Int
  pts : Int
  dts : Int
  deriving DecidableEq, Repr

/-- Contents of the static `flush_pkt` after `av_decode_start`:
`av_init_packet(&flush_pkt); flush_pkt.data = (uint8_t*) &flush_pkt;` on zero-initialised storage. -/
def flush_pkt : AVPacket :=
  { data := DataPtr.flush_addr, size := 0, stream_index := 0,
    pts := AV_NOPTS_VALUE, dts := AV_NOPTS_VALUE }

/-- The `AVPacket *` argument of the put functions: either `&flush_pkt` or the address of some
other packet storage with the given contents. -/
inductive PacketRef where
  | flush_ref
  | other (pkt : AVPacket)
  deriving DecidableEq, Repr

/-- Dereference `*packet`. -/
def PacketRef.deref : PacketRef → AVPacket
  | PacketRef.flush_ref => flush_pkt
  | PacketRef.other pkt => pkt

/-- The test `packet == &flush_pkt`. -/
def PacketRef.isFlush : PacketRef → Bool
  | PacketRef.flush_ref => true
  | PacketRef.other _ => false

/-- A list node `MyAVPacketList` (the `next` pointer is the list structure itself). -/
structure MyAVPacketList where
  pkt : AVPacket
  serial : Int
  deriving DecidableEq, Repr

/-- Conversion of an integer value to `int` (32 bits, two's complement): the value modulo `2^32`
in the range from `-2^31` to `2^31 - 1`.  The statements `q->size += pkt1->pkt.size +
sizeof(*pkt1)` and `q->size -= …` compute in `size_t` and convert the result back to `int`. -/
def to_int (x : Int) : Int :=
  (x + 2147483648) % 4294967296 - 2147483648

/-- The struct `PacketQueue` (mutex and condition variable left out); `nb_packets`, `size` and
`serial` are `int` fields, as in ffplay. -/
structure PacketQueue where
  pkts : List MyAVPacketList
  nb_packets : Int
  size : Int
  serial : Int
  abort_request : Bool
  deriving DecidableEq, Repr

/-- State after a successful `packet_queue_init`: `memset` to zero, `abort_request = 0`. -/
def packet_queue_init : PacketQueue :=
  { pkts := [], nb_packets := 0, size := 0, serial := 0, abort_request := false }

/-- Outcome of `packet_queue_get`. -/
inductive GetOutcome where
  /-- The call returned `ret`; when a node was unlinked, `node` holds what was written to `*pkt`
  and (for a non-null `serial` pointer) to `*serial`. -/
  | ret (code : Int) (node : Option MyAVPacketList)
  /-- The call sits in `pthread_cond_wait`. -/
  | waits
  deriving DecidableEq, Repr

/-- `packet_queue_get(q, pkt, block, serial)`. -/
def packet_queue_get (sz : Int) (q : PacketQueue) (block : Bool) : GetOutcome × PacketQueue :=
  if q.abort_request then
    (GetOutcome.ret (-1) none, q)
  else
    match q.pkts with
    | pkt1 :: rest =>
        (GetOutcome.ret 1 (some pkt1),
          { q with pkts := rest,
                   nb_packets := q.nb_packets - 1,
                   size := to_int (q.size - (pkt1.pkt.size + sz)) })
    | [] =>
        if !block then (GetOutcome.ret 0 none, q) else (GetOutcome.waits, q)

/-- `packet_queue_put_private(q, packet)`; `alloc_ok` is whether `av_malloc` succeeds. -/
def packet_queue_put_private (sz : Int) (q : PacketQueue) (packet : PacketRef) (alloc_ok : Bool) :
    Int × PacketQueue :=
  if q.abort_request then
    (-1, q)
  else if !alloc_ok then
    (AVERROR_ENOMEM, q)
  else
    let serial := if packet.isFlush then q.serial + 1 else q.serial
    let pkt1 : MyAVPacketList := { pkt := packet.deref, serial := serial }
    (0, { q with pkts := q.pkts ++ [pkt1],
                 serial := serial,
                 nb_packets := q.nb_packets + 1,
                 size := to_int (q.size + (pkt1.pkt.size + sz)) })

/-- `packet_queue_put(q, pkt)`.  On failure of a packet other than `flush_pkt` the caller's packet
is unreferenced, which does not touch the queue. -/
def packet_queue_put (sz : Int) (q : PacketQueue) (pkt : PacketRef) (alloc_ok : Bool) :
    Int × PacketQueue :=
  packet_queue_put_private sz q pkt alloc_ok

/-- The local packet built by `packet_queue_put_nullpacket`. -/
def null_packet (stream_index : Int) : AVPacket :=
  { data := DataPtr.null, size := 0, stream_index := stream_index,
    pts := AV_NOPTS_VALUE, dts := AV_NOPTS_VALUE }

/-- `packet_queue_put_nullpacket(q, stream_index)`. -/
def packet_queue_put_nullpacket (sz : Int) (q : PacketQueue) (stream_index : Int)
    (alloc_ok : Bool) : Int × PacketQueue :=
  packet_queue_put sz q (PacketRef.other (null_packet stream_index)) alloc_ok

/-- `packet_queue_start(q)`: the result of the inner put is dropped. -/
def packet_queue_start (sz : Int) (q : PacketQueue) (alloc_ok : Bool) : PacketQueue :=
  (packet_queue_put_private sz { q with abort_request := false } PacketRef.flush_ref alloc_ok).2

/-- `packet_queue_abort(q)`. -/
def packet_queue_abort (q : PacketQueue) : PacketQueue :=
  { q with abort_request := true }

/-- `packet_queue_flush(q)`. -/
def packet_queue_flush (q : PacketQueue) : PacketQueue :=
  { q with pkts := [], nb_packets := 0, size := 0 }

/-! ### Operation sequences on one Packet Queue -/

/-- One call on a Packet Queue, with the environment's choices. -/
inductive PQOp where
  | put (pkt : PacketRef) (alloc_ok : Bool)
  | put_nullpacket (stream_index : Int) (alloc_ok : Bool)
  | get (block : Bool)
  | flush
  | start (alloc_ok : Bool)
  | abort
  deriving DecidableEq, Repr

/-- The queue after one call. -/
def pqStep (sz : Int) (q : PacketQueue) : PQOp → PacketQueue
  | PQOp.put pkt a => (packet_queue_put sz q pkt a).2
  | PQOp.put_nullpacket i a => (packet_queue_put_nullpacket sz q i a).2
  | PQOp.get block => (packet_queue_get sz q block).2
  | PQOp.flush => packet_queue_flush q
  | PQOp.start a => packet_queue_start sz q a
  | PQOp.abort => packet_queue_abort q

/-- The queue after a sequence of calls. -/
def pqRun (sz : Int) (q : PacketQueue) (ops : List PQOp) : PacketQueue :=
  ops.foldl (pqStep sz) q

/-- Number of nodes a call links into the list (1 for a put that returns 0). -/
def pqInserted (sz : Int) (q : PacketQueue) : PQOp → Int
  | PQOp.put pkt a => if (packet_queue_put sz q pkt a).1 = 0 then 1 else 0
  | PQOp.put_nullpacket i a => if (packet_queue_put_nullpacket sz q i a).1 = 0 then 1 else 0
  | PQOp.start a =>
      if (packet_queue_put_private sz { q with abort_request := false }
            PacketRef.flush_ref a).1 = 0 then 1 else 0
  | _ => 0

/-- Number of nodes a call hands out (1 for a get that returns 1). -/
def pqDelivered (sz : Int) (q : PacketQueue) : PQOp → Int
  | PQOp.get block =>
      match (packet_queue_get sz q block).1 with
      | GetOutcome.ret 1 _ => 1
      | _ => 0
  | _ => 0

/-- Number of nodes a call drops (all listed nodes for a flush). -/
def pqDropped (q : PacketQueue) : PQOp → Int
  | PQOp.flush => q.pkts.length
  | _ => 0

/-- Bookkeeping along a run: successful puts, successful gets, nodes dropped by flushes. -/
structure PQCount where
  puts : Int
  gets : Int
  dropped : Int
  deriving DecidableEq, Repr

/-- Run a sequence of calls and count insertions, deliveries and drops. -/
def pqRunCount (sz : Int) : PacketQueue → PQCount → List PQOp → PacketQueue × PQCount
  | q, c, [] => (q, c)
  | q, c, op :: ops =>
      pqRunCount sz (pqStep sz q op)
        { puts := c.puts + pqInserted sz q op,
          gets := c.gets + pqDelivered sz q op,
          dropped := c.dropped + pqDropped q op } ops

/-- Sum over the listed nodes of `pkt.size + sizeof(node)`. -/
def nodeBytes (sz : Int) (l : List MyAVPacketList) : Int :=
  (l.map (fun n => n.pkt.size + sz)).sum

/-- Serials reported by the successful gets of a run, oldest first. -/
def pqGetSerials (sz : Int) : PacketQueue → List PQOp → List Int
  | _, [] => []
  | q, op :: ops =>
      (match op with
        | PQOp.get block =>
            (match (packet_queue_get sz q block).1 with
              | GetOutcome.ret 1 (some n) => [n.serial]
              | _ => [])
        | _ => []) ++ pqGetSerials sz (pqStep sz q op) ops

/-- Accounting invariant: the counters agree with the node list, `size` as far as an `int` can
hold the sum. -/
def PQAcct (sz : Int) (q : PacketQueue) : Prop :=
  q.nb_packets = q.pkts.length ∧ q.size = to_int (nodeBytes sz q.pkts)

/-- Serial invariant: node serials do not decrease from head to tail and none exceeds the
queue serial. -/
def PQSerialOk (q : PacketQueue) : Prop :=
  List.Pairwise (fun a b : MyAVPacketList => a.serial ≤ b.serial) q.pkts ∧
    ∀ n ∈ q.pkts, n.serial ≤ q.serial

/-- Whether a call links the flush marker into the list: a put of `&flush_pkt` that returns 0, or
a `packet_queue_start` whose inner put returns 0. -/
def pqFlushInserted (sz : Int) (q : PacketQueue) : PQOp → Bool
  | PQOp.put pkt a => pkt.isFlush && decide ((packet_queue_put sz q pkt a).1 = 0)
  | PQOp.start a =>
      decide ((packet_queue_put_private sz { q with abort_request := false }
            PacketRef.flush_ref a).1 = 0)
  | _ => false

/-- Put the packets of a list one after the other (every `av_malloc` succeeds). -/
def pqPutAll (sz : Int) (q : PacketQueue) (ps : List PacketRef) : PacketQueue :=
  ps.foldl (fun q p => (packet_queue_put sz q p true).2) q

/-- Call `packet_queue_get` `n` times and collect the outcomes, oldest first. -/
def pqGetN (sz : Int) (block : Bool) : PacketQueue → Nat → List GetOutcome × PacketQueue
  | q, 0 => ([], q)
  | q, n + 1 =>
      let r := packet_queue_get sz q block
      let rest := pqGetN sz block r.2 n
      (r.1 :: rest.1, rest.2)

/-! ## Frame Queue -/

/-- A slot `Frame` of the ring: `frame` and `sub` are the payloads attached to the slot
(`none` once unreferenced), `serial` and `pos` are the tags set by the producer. -/
structure Frame where
  frame : Option Nat
  sub : Option Nat
  serial : Int
  pos : Int
  deriving DecidableEq, Repr

/-- A slot right after `av_frame_alloc` on zeroed memory. -/
def Frame.blank : Frame := { frame := none, sub := none, serial := 0, pos := 0 }

/-- `frame_queue_unref_item(vp)`. -/
def frame_queue_unref_item (vp : Frame) : Frame :=
  { vp with frame := none, sub := none }

/-- The struct `FrameQueue`; the back-reference `packet_queue` is passed to the functions that
read it. -/
structure FrameQueue where
  queue : List Frame
  rindex : Int
  windex : Int
  size : Int
  max_size : Int
  keep_last : Int
  rindex_shown : Int
  deriving DecidableEq, Repr

/-- State after a successful `frame_queue_init(f, pktq, max_size, keep_last)`; `cap` is the
length of the array `queue`. -/
def frame_queue_init (cap : Nat) (max_size keep_last : Int) : FrameQueue :=
  { queue := List.replicate cap Frame.blank, rindex := 0, windex := 0, size := 0,
    max_size := max_size, keep_last := keep_last, rindex_shown := 0 }

/-- Apply `g` to `queue[i]` (nothing happens outside the array). -/
def slotModify (g : Frame → Frame) (l : List Frame) (i : Int) : List Frame :=
  if 0 ≤ i then
    match l[i.toNat]? with
    | some x => l.set i.toNat (g x)
    | none => l
  else l

/-- Result of a blocking peek: parked in `pthread_cond_wait`, `NULL`, or `&f->queue[i]`. -/
inductive PeekOutcome where
  | waits
  | null
  | slot (i : Int)
  deriving DecidableEq, Repr

/-- `frame_queue_peek_writable(f)`. -/
def frame_queue_peek_writable (f : FrameQueue) (pktq : PacketQueue) : PeekOutcome :=
  if f.size ≥ f.max_size ∧ pktq.abort_request = false then PeekOutcome.waits
  else if pktq.abort_request then PeekOutcome.null
  else PeekOutcome.slot f.windex

/-- `frame_queue_peek_readable(f)`. -/
def frame_queue_peek_readable (f : FrameQueue) (pktq : PacketQueue) : PeekOutcome :=
  if f.size - f.rindex_shown ≤ 0 ∧ pktq.abort_request = false then PeekOutcome.waits
  else if pktq.abort_request then PeekOutcome.null
  else PeekOutcome.slot (Int.tmod (f.rindex + f.rindex_shown) f.max_size)

/-- `frame_queue_push(f)`. -/
def frame_queue_push (f : FrameQueue) : FrameQueue :=
  { f with windex := if f.windex + 1 = f.max_size then 0 else f.windex + 1,
           size := f.size + 1 }

/-- `frame_queue_peek(f)`, as a slot index. -/
def frame_queue_peek (f : FrameQueue) : Int :=
  Int.tmod (f.rindex + f.rindex_shown) f.max_size

/-- `frame_queue_nb_remaining(f)`. -/
def frame_queue_nb_remaining (f : FrameQueue) : Int :=
  f.size - f.rindex_shown

/-- `frame_queue_peek_last(f)`, as a slot index. -/
def frame_queue_peek_last (f : FrameQueue) : Int :=
  f.rindex

/-- `frame_queue_peek_next(f)`, as a slot index. -/
def frame_queue_peek_next (f : FrameQueue) : Int :=
  Int.tmod (f.rindex + f.rindex_shown + 1) f.max_size

/-- `frame_queue_next(f)`. -/
def frame_queue_next (f : FrameQueue) : FrameQueue :=
  if f.keep_last ≠ 0 ∧ f.rindex_shown = 0 then
    { f with rindex_shown := 1 }
  else
    { f with queue := slotModify frame_queue_unref_item f.queue f.rindex,
             rindex := if f.rindex + 1 = f.max_size then 0 else f.rindex + 1,
             size := f.size - 1 }

/-! ### Producer / consumer protocol on one Frame Queue -/

/-- A Frame Queue with the Packet Queue it refers to and what the two threads hold:
`wslot` is the slot the producer got from `frame_queue_peek_writable` and has not pushed yet,
`rslot` the slot the consumer got from `frame_queue_peek_readable` and has not released yet. -/
structure FQSys where
  f : FrameQueue
  pktq : PacketQueue
  wslot : Option Int
  rslot : Option Int
  deriving DecidableEq, Repr

/-- What the threads around a Frame Queue do. -/
inductive FQEvent where
  /-- The producer calls `frame_queue_peek_writable`. -/
  | peek_writable
  /-- The producer fills the slot it holds. -/
  | write (fr : Frame)
  /-- The producer calls `frame_queue_push`. -/
  | push
  /-- The consumer calls `frame_queue_peek_readable`. -/
  | peek_readable
  /-- The consumer calls `frame_queue_next`. -/
  | next
  /-- Some thread calls a function of the Packet Queue. -/
  | pktq (op : PQOp)
  deriving DecidableEq, Repr

/-- One event; `none` when the event breaks the protocol (push or write without a slot from
`frame_queue_peek_writable`, next without a slot from `frame_queue_peek_readable`). -/
def fqStep (sz : Int) (s : FQSys) : FQEvent → Option FQSys
  | FQEvent.peek_writable =>
      match frame_queue_peek_writable s.f s.pktq with
      | PeekOutcome.slot i => some { s with wslot := some i }
      | _ => some s
  | FQEvent.write fr =>
      match s.wslot with
      | some i => some { s with f := { s.f with queue := slotModify (fun _ => fr) s.f.queue i } }
      | none => none
  | FQEvent.push =>
      match s.wslot with
      | some _ => some { s with f := frame_queue_push s.f, wslot := none }
      | none => none
  | FQEvent.peek_readable =>
      match frame_queue_peek_readable s.f s.pktq with
      | PeekOutcome.slot i => some { s with rslot := some i }
      | _ => some s
  | FQEvent.next =>
      match s.rslot with
      | some _ => some { s with f := frame_queue_next s.f, rslot := none }
      | none => none
  | FQEvent.pktq op => some { s with pktq := pqStep sz s.pktq op }

/-- A sequence of events; `none` as soon as one breaks the protocol. -/
def fqRun (sz : Int) : FQSys → List FQEvent → Option FQSys
  | s, [] => some s
  | s, e :: es =>
      match fqStep sz s e with
      | some t => fqRun sz t es
      | none => none

/-- The system right after `frame_queue_init` and `packet_queue_init`. -/
def fqStart (cap : Nat) (max_size keep_last : Int) : FQSys :=
  { f := frame_queue_init cap max_size keep_last, pktq := packet_queue_init,
    wslot := none, rslot := none }

/-- Invariant of the protocol, in linear form. -/
def FQInv (N : Int) (s : FQSys) : Prop :=
  s.f.max_size = N ∧
  (s.f.rindex_shown = 0 ∨ s.f.rindex_shown = 1) ∧
  s.f.rindex_shown ≤ s.f.size ∧ s.f.size ≤ N ∧
  0 ≤ s.f.rindex ∧ s.f.rindex < N ∧
  0 ≤ s.f.windex ∧ s.f.windex < N ∧
  ((s.f.rindex + s.f.size < N ∧ s.f.windex = s.f.rindex + s.f.size) ∨
   (N ≤ s.f.rindex + s.f.size ∧ s.f.windex = s.f.rindex + s.f.size - N)) ∧
  (∀ i, s.wslot = some i → i = s.f.windex ∧ s.f.size < N) ∧
  (s.rslot.isSome = true → 0 < s.f.size - s.f.rindex_shown)

/-- Example run: the producer fills a keep-last queue of three slots, then the consumer asks
for a readable slot. -/
def fillThree : List FQEvent :=
  [FQEvent.peek_writable, FQEvent.push, FQEvent.peek_writable, FQEvent.push,
   FQEvent.peek_writable, FQEvent.push, FQEvent.peek_readable]

/-- Example state: the keep-last queue of three slots (array of 16) after `fillThree`. -/
def fqFull3 : FQSys :=
  { f := { queue := List.replicate 16 Frame.blank, rindex := 0, windex := 0, size := 3,
           max_size := 3, keep_last := 1, rindex_shown := 0 },
    pktq := packet_queue_init, wslot := none, rslot := some 0 }

/-- Example state: a keep-last queue of three slots holding two frames, the older one on hold. -/
def fqHeld3 : FQSys :=
  { f := { queue := List.replicate 16 Frame.blank, rindex := 2, windex := 1, size := 2,
           max_size := 3, keep_last := 1, rindex_shown := 1 },
    pktq := packet_queue_init, wslot := none, rslot := none }

/-- Example run leading to `fqHeld3`. -/
def fillAndShow : List FQEvent :=
  fillThree ++ [FQEvent.next, FQEvent.peek_readable, FQEvent.next, FQEvent.peek_writable,
    FQEvent.push, FQEvent.peek_readable, FQEvent.next]

/-- Example run before a seek: start the queue, put a null packet, get twice. -/
def opsBeforeSeek : List PQOp :=
  [PQOp.start true, PQOp.put (PacketRef.other (null_packet 0)) true, PQOp.get true,
   PQOp.get true]

/-- Example run after a seek: put a null packet, get twice. -/
def opsAfterSeek : List PQOp :=
  [PQOp.put (PacketRef.other (null_packet 1)) true, PQOp.get true, PQOp.get true]

/-! ### Slot contents and the order of frames -/

/-- Content of `queue[i]` (a blank slot outside the array). -/
def slotAt (l : List Frame) (i : Int) : Frame :=
  if 0 ≤ i then l.getD i.toNat Frame.blank else Frame.blank

/-- The index `a` reduced once by `N`: the value of `a % N` for `0 ≤ a < 2 * N`. -/
def wrapIdx (a N : Int) : Int :=
  if a < N then a else a - N

/-- A run of the protocol with two logs: `pushed` holds, per `frame_queue_push`, the content of
the slot the producer commits; `read` holds, per `frame_queue_next`, the content of the slot the
consumer got from `frame_queue_peek_readable` and releases. -/
structure FQTrace where
  sys : FQSys
  pushed : List Frame
  read : List Frame
  deriving DecidableEq, Repr

/-- One event with logging. -/
def fqTraceStep (sz : Int) (t : FQTrace) (e : FQEvent) : Option FQTrace :=
  match fqStep sz t.sys e with
  | none => none
  | some s =>
      some { sys := s,
             pushed :=
               (match e, t.sys.wslot with
                | FQEvent.push, some i => t.pushed ++ [slotAt t.sys.f.queue i]
                | _, _ => t.pushed),
             read :=
               (match e, t.sys.rslot with
                | FQEvent.next, some i => t.read ++ [slotAt t.sys.f.queue i]
                | _, _ => t.read) }

/-- A sequence of events with logging. -/
def fqTraceRun (sz : Int) : FQTrace → List FQEvent → Option FQTrace
  | t, [] => some t
  | t, e :: es =>
      match fqTraceStep sz t e with
      | some u => fqTraceRun sz u es
      | none => none

/-- The logged system right after initialisation. -/
def fqTraceStart (cap : Nat) (max_size keep_last : Int) : FQTrace :=
  { sys := fqStart cap max_size keep_last, pushed := [], read := [] }

/-- The frames pushed and not yet read: the slots `rindex + rindex_shown + j`, reduced modulo
`max_size`, for `j < size - rindex_shown`. -/
def unreadFrames (f : FrameQueue) : List Frame :=
  (List.range (f.size - f.rindex_shown).toNat).map
    (fun (j : Nat) =>
      slotAt f.queue (wrapIdx (f.rindex + f.rindex_shown + (j : Int)) f.max_size))

/-- Invariant relating the logs to the ring. -/
def FQTraceInv (N : Int) (t : FQTrace) : Prop :=
  FQInv N t.sys ∧
  (∀ i, t.sys.rslot = some i → i = wrapIdx (t.sys.f.rindex + t.sys.f.rindex_shown) N) ∧
  t.pushed = t.read ++ unreadFrames t.sys.f

/-- A decoded frame as the producer stores it: payload `n`, serial `n`. -/
def mkFrame (n : Nat) : Frame :=
  { frame := some n, sub := none, serial := (n : Int), pos := 0 }

/-- Example run on a keep-last queue of two slots: three frames are produced, two are consumed,
with the third written into the slot the first one left. -/
def threeFrames : List FQEvent :=
  [FQEvent.peek_writable, FQEvent.write (mkFrame 1), FQEvent.push,
   FQEvent.peek_writable, FQEvent.write (mkFrame 2), FQEvent.push,
   FQEvent.peek_readable, FQEvent.next,
   FQEvent.peek_readable, FQEvent.next,
   FQEvent.peek_writable, FQEvent.write (mkFrame 3), FQEvent.push,
   FQEvent.peek_readable, FQEvent.next]

/-- The logged state at the end of `threeFrames` on a keep-last queue of two slots (array of
16). -/
def threeFramesEnd : FQTrace :=
  (fqTraceRun 104 (fqTraceStart 16 2 1) threeFrames).getD (fqTraceStart 16 2 1)

/-! ## Decoder

`decoder_decode_frame` is embedded as a small-step machine.  A call sits at one of three program
points: `top` (start of an iteration of the outer loop, line 439), `fetch` (start of an iteration
of the inner loop, line 446, about to call `packet_queue_get`) and `decode` (the `switch` of line
464, about to call the decode engine).  One step runs the call up to the next program point or to
its `return`.  Between two steps other threads may call functions of the Packet Queue.  The decode
engine, `av_rescale_q` and the floating-point time conversion belong to FFmpeg: the answer of the
engine comes with each step, the two functions are parameters. -/

/-- The struct `AVRational`. -/
structure AVRational where
  num : Int
  den : Int
  deriving DecidableEq, Repr

/-- The values of `enum AVMediaType` the `switch` distinguishes. -/
inductive AVMediaType where
  | video
  | audio
  | subtitle
  | other
  deriving DecidableEq, Repr

/-- The fields of `AVStream` the pipeline reads. -/
structure AVStream where
  time_base : AVRational
  disposition : Nat
  start_time : Int
  deriving DecidableEq, Repr

/-- The flag `AV_DISPOSITION_ATTACHED_PIC` of FFmpeg. -/
def AV_DISPOSITION_ATTACHED_PIC : Nat := 0x0400

/-- The fields of `AVCodecContext` the decoder reads; `pkt_timebase` is
`av_codec_get_pkt_timebase(codec_context)`. -/
structure AVCodecContext where
  codec_type : AVMediaType
  time_base : AVRational
  pkt_timebase : AVRational
  deriving DecidableEq, Repr

/-- The fields of `AVFrame` the decoder and the audio thread read. -/
structure AVFrame where
  pts : Int
  pkt_pts : Int
  pkt_dts : Int
  sample_rate : Int
  nb_samples : Int
  format : Int
  channels : Int
  channel_layout : Int
  deriving DecidableEq, Repr

/-- The struct `Decoder`; the pointer `queue` is passed alongside. -/
structure Decoder where
  pkt : AVPacket
  pkt_temp : AVPacket
  codec_context : AVCodecContext
  pkt_serial : Int
  finished : Int
  packet_pending : Bool
  start_pts : Int
  start_pts_tb : AVRational
  next_pts : Int
  next_pts_tb : AVRational
  deriving DecidableEq, Repr

/-- An `AVPacket` of zero bytes, as `memset` leaves it. -/
def zero_packet : AVPacket :=
  { data := DataPtr.null, size := 0, stream_index := 0, pts := 0, dts := 0 }

/-- `decoder_init(d, avctx, queue, empty_queue_cond)`. -/
def decoder_init (avctx : AVCodecContext) : Decoder :=
  { pkt := zero_packet, pkt_temp := zero_packet, codec_context := avctx, pkt_serial := 0,
    finished := 0, packet_pending := false, start_pts := AV_NOPTS_VALUE,
    start_pts_tb := { num := 0, den := 0 }, next_pts := 0,
    next_pts_tb := { num := 0, den := 0 } }

/-- The fields of `MediaDecode` read by `decoder_decode_frame` and by the queue-full test of
`read_thread`.  `audio_stream` and `video_stream` are the `AVStream *` pointers (`none` is
`NULL`). -/
structure MediaDecode where
  audio_packet_queue : PacketQueue
  video_packet_queue : PacketQueue
  subtitle_packet_queue : PacketQueue
  audio_stream : Option AVStream
  video_stream : Option AVStream
  audio_stream_index : Int
  video_stream_index : Int
  subtitle_stream_index : Int
  start_time : Int
  end_time : Int
  precision_seek : Bool
  finish : Bool
  deriving DecidableEq, Repr

/-- The functions of FFmpeg the decoder computes timestamps with: `av_rescale_q(a, bq, cq)` and
the expression `(int64_t) (pts * av_q2d(time_base) * 1000)`. -/
structure TimeLib where
  av_rescale_q : Int → AVRational → AVRational → Int
  packet_time_ms : Int → AVRational → Int

/-- `av_rescale_q` of libavutil on integers without overflow: `a * bq / cq` rounded to the
nearest integer, halves away from zero, and `INT64_MIN` when the factors are out of range. -/
def av_rescale_q (a : Int) (bq cq : AVRational) : Int :=
  let b := bq.num * cq.den
  let c := cq.num * bq.den
  if c ≤ 0 ∨ b < 0 then AV_NOPTS_VALUE
  else if 0 ≤ a then (a * b + c / 2) / c
  else -(((-a) * b + c / 2) / c)

/-- A stand-in for FFmpeg in examples: `av_rescale_q` as above, the time conversion in exact
arithmetic, truncated. -/
def libav : TimeLib :=
  { av_rescale_q := av_rescale_q,
    packet_time_ms := fun pts tb => Int.tdiv (pts * tb.num * 1000) tb.den }

/-- What one call of the decode engine (`avcodec_decode_video2`, `avcodec_decode_audio4`,
`avcodec_decode_subtitle2`) gives back: its return value, `got_frame` and the frame. -/
structure DecodeOut where
  ret : Int
  got_frame : Bool
  frame : AVFrame
  deriving DecidableEq, Repr

/-- A call into the decode engine, as logged: `avcodec_flush_buffers`, or a decode call with the
packet handed over (`d->pkt_temp`), `d->pkt_serial` and `d->queue->serial` at that moment. -/
inductive EngineCall where
  | flush
  | decode (pkt : AVPacket) (pkt_serial : Int) (queue_serial : Int)
  deriving DecidableEq, Repr

/-- Program points of a call of `decoder_decode_frame`; `fault` is a dereference of a null
stream pointer or the use of a packet `packet_queue_get` did not write. -/
inductive DecPc where
  | top
  | fetch
  | decode
  | fault
  | done (ret : Int)
  deriving DecidableEq, Repr

/-- A call of `decoder_decode_frame(media_decode, d, frame, sub)` in progress: program point,
the locals `got_frame` and `time`, `*d`, `*d->queue`, the fields of `*media_decode`, `*frame`, and
the log of engine calls. -/
structure DecCall where
  pc : DecPc
  got_frame : Bool
  time : Int
  d : Decoder
  q : PacketQueue
  md : MediaDecode
  frame : AVFrame
  calls : List EngineCall
  deriving DecidableEq, Repr

/-- Entry of `decoder_decode_frame`: `got_frame = 0`, `time = 0`. -/
def decoder_call (d : Decoder) (q : PacketQueue) (md : MediaDecode) (frame : AVFrame) : DecCall :=
  { pc := DecPc.top, got_frame := false, time := 0, d := d, q := q, md := md, frame := frame,
    calls := [] }

/-- Pointer arithmetic `data += n` on a packet payload. -/
def DataPtr.add : DataPtr → Int → DataPtr
  | DataPtr.buf a, n => DataPtr.buf (a + n.toNat)
  | p, _ => p

/-- Lines 478 to 489: the presentation timestamp of a decoded audio frame and the prediction
for the next one. -/
def decode_audio_pts (lib : TimeLib) (d : Decoder) (frame : AVFrame) : AVFrame × Decoder :=
  let tb : AVRational := { num := 1, den := frame.sample_rate }
  let frame1 : AVFrame :=
    if frame.pts ≠ AV_NOPTS_VALUE then
      { frame with pts := lib.av_rescale_q frame.pts d.codec_context.time_base tb }
    else if frame.pkt_pts ≠ AV_NOPTS_VALUE then
      { frame with pts := lib.av_rescale_q frame.pkt_pts d.codec_context.pkt_timebase tb }
    else if d.next_pts ≠ AV_NOPTS_VALUE then
      { frame with pts := lib.av_rescale_q d.next_pts d.next_pts_tb tb }
    else frame
  let d1 : Decoder :=
    if frame1.pts ≠ AV_NOPTS_VALUE then
      { d with next_pts := frame1.pts + frame1.nb_samples, next_pts_tb := tb }
    else d
  (frame1, d1)

/-- Lines 464 to 498: the `switch` on the codec type.  Gives `ret` and the call with
`got_frame`, `time`, `*frame`, the prediction and `media_decode->finish` updated. -/
def decode_switch (lib : TimeLib) (c : DecCall) (o : DecodeOut) : Int × DecCall :=
  let entry := EngineCall.decode c.d.pkt_temp c.d.pkt_serial c.q.serial
  match c.d.codec_context.codec_type with
  | AVMediaType.video =>
      let c1 := { c with got_frame := o.got_frame, frame := o.frame, calls := c.calls ++ [entry] }
      if o.got_frame then
        match c.md.video_stream with
        | some st =>
            let time := lib.packet_time_ms c.d.pkt_temp.pts st.time_base
            (o.ret, { c1 with frame := { o.frame with pts := o.frame.pkt_dts },
                              time := time,
                              md := { c.md with finish := decide (time > c.md.end_time) } })
        | none => (o.ret, { c1 with frame := { o.frame with pts := o.frame.pkt_dts },
                                    pc := DecPc.fault })
      else (o.ret, c1)
  | AVMediaType.audio =>
      let c1 := { c with got_frame := o.got_frame, frame := o.frame, calls := c.calls ++ [entry] }
      if o.got_frame then
        let r := decode_audio_pts lib c.d o.frame
        match c.md.audio_stream with
        | some st =>
            (o.ret, { c1 with frame := r.1, d := r.2,
                              time := lib.packet_time_ms c.d.pkt_temp.pts st.time_base })
        | none => (o.ret, { c1 with frame := r.1, d := r.2, pc := DecPc.fault })
      else (o.ret, c1)
  | AVMediaType.subtitle =>
      (o.ret, { c with got_frame := o.got_frame, calls := c.calls ++ [entry] })
  | AVMediaType.other => (-1, c)

/-- Lines 499 to 518: bookkeeping of the pending packet after the engine call. -/
def decode_post (ret : Int) (got_frame : Bool) (d : Decoder) : Decoder :=
  if ret < 0 then
    { d with packet_pending := false }
  else
    let t1 : AVPacket := { d.pkt_temp with dts := AV_NOPTS_VALUE, pts := AV_NOPTS_VALUE }
    if t1.data ≠ DataPtr.null then
      let ret1 := if d.codec_context.codec_type ≠ AVMediaType.audio then t1.size else ret
      let t2 : AVPacket := { t1 with data := t1.data.add ret1, size := t1.size - ret1 }
      { d with pkt_temp := t2,
               packet_pending := if t2.size ≤ 0 then false else d.packet_pending }
    else if !got_frame then
      { d with pkt_temp := t1, packet_pending := false, finished := d.pkt_serial }
    else
      { d with pkt_temp := t1 }

/-- Line 520: the condition of the outer `do … while`. -/
def decode_continue (got_frame : Bool) (d : Decoder) (time : Int) (md : MediaDecode) : Bool :=
  (!got_frame && decide (d.finished = 0)) ||
    (decide (time < md.start_time) && md.precision_seek)

/-- One step of a call of `decoder_decode_frame`; `o` is what the decode engine answers if this
step calls it. -/
def decStep (lib : TimeLib) (sz : Int) (c : DecCall) (o : DecodeOut) : DecCall :=
  match c.pc with
  | DecPc.top =>
      if c.q.abort_request then { c with pc := DecPc.done (-1) }
      else if !c.d.packet_pending || decide (c.q.serial ≠ c.d.pkt_serial) then
        { c with pc := DecPc.fetch }
      else { c with pc := DecPc.decode }
  | DecPc.fetch =>
      match packet_queue_get sz c.q true with
      | (GetOutcome.waits, _) => c
      | (GetOutcome.ret code node, q1) =>
          if code < 0 then { c with pc := DecPc.done (-1), q := q1 }
          else
            match node with
            | none => { c with pc := DecPc.fault, q := q1 }
            | some n =>
                let d1 : Decoder := { c.d with pkt_serial := n.serial }
                let is_flush := decide (n.pkt.data = flush_pkt.data)
                let d2 : Decoder :=
                  if is_flush then
                    { d1 with finished := 0, next_pts := d1.start_pts,
                              next_pts_tb := d1.start_pts_tb }
                  else d1
                let calls := if is_flush then c.calls ++ [EngineCall.flush] else c.calls
                if is_flush || decide (q1.serial ≠ d2.pkt_serial) then
                  { c with pc := DecPc.fetch, q := q1, d := d2, calls := calls }
                else
                  { c with pc := DecPc.decode, q := q1, calls := calls,
                           d := { d2 with pkt := n.pkt, pkt_temp := n.pkt,
                                          packet_pending := true } }
  | DecPc.decode =>
      let r := decode_switch lib c o
      if r.2.pc = DecPc.fault then r.2
      else
        let c2 := { r.2 with d := decode_post r.1 r.2.got_frame r.2.d }
        if decode_continue c2.got_frame c2.d c2.time c2.md then { c2 with pc := DecPc.top }
        else { c2 with pc := DecPc.done (if c2.got_frame then 1 else 0) }
  | DecPc.fault => c
  | DecPc.done _ => c

/-- What happens around a call of `decoder_decode_frame`: the call makes a step, or another
thread calls a function of the Packet Queue. -/
inductive DecEvent where
  | step (o : DecodeOut)
  | env (op : PQOp)
  deriving DecidableEq, Repr

/-- One event. -/
def decEvent (lib : TimeLib) (sz : Int) (c : DecCall) : DecEvent → DecCall
  | DecEvent.step o => decStep lib sz c o
  | DecEvent.env op => { c with q := pqStep sz c.q op }

/-- A sequence of events. -/
def decRun (lib : TimeLib) (sz : Int) (c : DecCall) (evs : List DecEvent) : DecCall :=
  evs.foldl (decEvent lib sz) c

/-- Calls of the Packet Queue that cannot change its serial: everything but a put of
`&flush_pkt` and `packet_queue_start`. -/
def PQOp.keepsSerial : PQOp → Bool
  | PQOp.put pkt _ => !pkt.isFlush
  | PQOp.start _ => false
  | _ => true

/-- Events during which no other thread opens a new epoch. -/
def DecEvent.keepsSerial : DecEvent → Bool
  | DecEvent.step _ => true
  | DecEvent.env op => op.keepsSerial

/-- A logged engine call is in order: a flush, or a decode of a packet that is not the flush
sentinel and has the serial the queue has at that moment. -/
def EngineCall.fresh : EngineCall → Prop
  | EngineCall.flush => True
  | EngineCall.decode pkt pkt_serial queue_serial =>
      pkt.data ≠ flush_pkt.data ∧ pkt_serial = queue_serial

/-- Invariant of a call: a pending packet is not the sentinel, the engine is reached only with
a pending packet of the current serial, and every logged call is in order. -/
def DecInv (c : DecCall) : Prop :=
  (c.d.packet_pending = true → c.d.pkt_temp.data ≠ flush_pkt.data) ∧
  (c.pc = DecPc.decode → c.d.packet_pending = true ∧ c.d.pkt_serial = c.q.serial) ∧
  ∀ e ∈ c.calls, e.fresh

/-- Example audio decoder: codec time base 1/44100, packet time base 1/1000, predicting pts
88200 in time base 1/44100. -/
def audioDecoder : Decoder :=
  { decoder_init { codec_type := AVMediaType.audio, time_base := { num := 1, den := 44100 },
                   pkt_timebase := { num := 1, den := 1000 } } with
    next_pts := 88200, next_pts_tb := { num := 1, den := 44100 }, pkt_serial := 1,
    packet_pending := true,
    pkt_temp := { data := DataPtr.buf 64, size := 32, stream_index := 1, pts := 0, dts := 0 } }

/-- Example media context: an audio and a video stream, no subtitles, no precision seek. -/
def plainMedia : MediaDecode :=
  { audio_packet_queue := packet_queue_init, video_packet_queue := packet_queue_init,
    subtitle_packet_queue := packet_queue_init,
    audio_stream := some { time_base := { num := 1, den := 1000 }, disposition := 0,
                           start_time := 0 },
    video_stream := some { time_base := { num := 1, den := 1000 }, disposition := 0,
                           start_time := 0 },
    audio_stream_index := 1, video_stream_index := 0, subtitle_stream_index := -1,
    start_time := 0, end_time := 100000, precision_seek := false, finish := false }

/-- Example frame: 1024 samples at 44100 Hz, no timestamp of its own or of its packet. -/
def untimedFrame : AVFrame :=
  { pts := AV_NOPTS_VALUE, pkt_pts := AV_NOPTS_VALUE, pkt_dts := AV_NOPTS_VALUE,
    sample_rate := 44100, nb_samples := 1024, format := 8, channels := 2, channel_layout := 3 }

/-- Example call: the audio decoder about to decode its pending packet. -/
def audioCall : DecCall :=
  { decoder_call audioDecoder (packet_queue_start 104 packet_queue_init true) plainMedia
      untimedFrame with pc := DecPc.decode }

/-- Whether a step observes the abort of the Packet Queue: `abort_request` is set at the top of
an iteration, or `packet_queue_get` returns a negative value. -/
def decAbortSeen (sz : Int) (c : DecCall) : Bool :=
  match c.pc with
  | DecPc.top => c.q.abort_request
  | DecPc.fetch =>
      (match (packet_queue_get sz c.q true).1 with
       | GetOutcome.ret code _ => decide (code < 0)
       | GetOutcome.waits => false)
  | _ => false

/-- Example video decoder, fresh from `decoder_init`. -/
def videoDecoder : Decoder :=
  decoder_init { codec_type := AVMediaType.video, time_base := { num := 1, den := 25 },
                 pkt_timebase := { num := 1, den := 1000 } }

/-- Example data packet of 100 bytes for stream 0 with the given pts. -/
def dataPacket (pts : Int) : AVPacket :=
  { data := DataPtr.buf 4096, size := 100, stream_index := 0, pts := pts, dts := pts }

/-- Example frame the engine returns for a video packet. -/
def videoFrame : AVFrame :=
  { pts := AV_NOPTS_VALUE, pkt_pts := 40, pkt_dts := 40, sample_rate := 0, nb_samples := 0,
    format := 0, channels := 0, channel_layout := 0 }

/-- Example queue after a seek: a packet of the old epoch is still queued behind the first
flush marker, then the marker of the new epoch and a packet of the new epoch. -/
def staleQueue : PacketQueue :=
  pqRun 104 packet_queue_init
    [PQOp.start true, PQOp.put (PacketRef.other (dataPacket 0)) true,
     PQOp.put PacketRef.flush_ref true, PQOp.put (PacketRef.other (dataPacket 40)) true]

/-- Example queue at the end of the stream: the flush marker of `packet_queue_start` and the
null packet of the Read Loop. -/
def eosQueue : PacketQueue :=
  pqRun 104 packet_queue_init [PQOp.start true, PQOp.put_nullpacket 0 true]

/-- Example media context with a precision seek to 5000 ms. -/
def seekMedia : MediaDecode :=
  { plainMedia with start_time := 5000, precision_seek := true }

/-- Engine answer: success, nothing consumed, no frame. -/
def noFrame : DecodeOut := { ret := 0, got_frame := false, frame := videoFrame }

/-- Engine answer: success with a frame. -/
def oneFrame : DecodeOut := { ret := 100, got_frame := true, frame := videoFrame }

/-- Example run: the video decoder takes the flush marker and the null packet, and the engine
reports the end of the stream. -/
def eosSteps : List DecEvent :=
  [DecEvent.step noFrame, DecEvent.step noFrame, DecEvent.step noFrame, DecEvent.step noFrame]

/-- Example continuation: the call goes back to the queue, a data packet of the same epoch
arrives, and the engine is called again. -/
def eosMore : List DecEvent :=
  [DecEvent.step noFrame, DecEvent.step noFrame,
   DecEvent.env (PQOp.put (PacketRef.other (dataPacket 80)) true),
   DecEvent.step noFrame, DecEvent.step oneFrame]

/-- Example run on `staleQueue`: six steps of the call. -/
def staleSteps : List DecEvent :=
  List.replicate 6 (DecEvent.step oneFrame)

/-- Example call: the video decoder about to decode a null packet of serial 1, under a precision
seek whose target no frame of this call has reached. -/
def eosCall : DecCall :=
  decRun libav 104 (decoder_call videoDecoder eosQueue seekMedia videoFrame)
    [DecEvent.step noFrame, DecEvent.step noFrame, DecEvent.step noFrame]

/-- Example call: the same without precision seek. -/
def eosPlainCall : DecCall :=
  decRun libav 104 (decoder_call videoDecoder eosQueue plainMedia videoFrame)
    [DecEvent.step noFrame, DecEvent.step noFrame, DecEvent.step noFrame]

/-- Engine answer: a decode error. -/
def badPacket : DecodeOut := { ret := -1094995529, got_frame := false, frame := videoFrame }

/-- Example call: the video decoder about to decode the data packet of `staleQueue`. -/
def dataCall : DecCall :=
  decRun libav 104 (decoder_call videoDecoder staleQueue plainMedia videoFrame)
    (List.replicate 5 (DecEvent.step oneFrame))

/-! ## Read Loop: the queue-full test -/

/-- The macro `MIN_FRAMES`. -/
def MIN_FRAMES : Int := 25

/-- The macro `MAX_QUEUE_SIZE`. -/
def MAX_QUEUE_SIZE : Int := 15 * 1024 * 1024

/-- The comparison `p < 0` of an `AVStream *` with zero, as written for `audio_stream` and
`video_stream` in line 1251 and 1252: no pointer compares below the null pointer. -/
def stream_ptr_lt_zero (_p : Option AVStream) : Bool := false

/-- What the test of lines 1250 to 1254 of `read_thread` leads to: `idle` is the branch that
waits and restarts the loop with `continue` (no packet is read), `proceed` goes on towards
`av_read_frame`, `null_deref` is the read of `video_stream->disposition` through a null
pointer. -/
inductive QueueGate where
  | idle
  | proceed
  | null_deref
  deriving DecidableEq, Repr

/-- The condition of lines 1250 to 1254, with the short-circuit order of `||` and `&&`. -/
def read_thread_gate (md : MediaDecode) : QueueGate :=
  if md.audio_packet_queue.size + md.video_packet_queue.size + md.subtitle_packet_queue.size
      > MAX_QUEUE_SIZE then QueueGate.idle
  else if ¬ (md.audio_packet_queue.nb_packets > MIN_FRAMES ∨
             stream_ptr_lt_zero md.audio_stream = true ∨
             md.audio_packet_queue.abort_request = true) then QueueGate.proceed
  else
    let subtitle_ok : Bool :=
      decide (md.subtitle_packet_queue.nb_packets > MIN_FRAMES ∨
              md.subtitle_stream_index < 0 ∨
              md.subtitle_packet_queue.abort_request = true)
    if md.video_packet_queue.nb_packets > MIN_FRAMES ∨
       stream_ptr_lt_zero md.video_stream = true ∨
       md.video_packet_queue.abort_request = true then
      (if subtitle_ok then QueueGate.idle else QueueGate.proceed)
    else
      match md.video_stream with
      | none => QueueGate.null_deref
      | some st =>
          if st.disposition &&& AV_DISPOSITION_ATTACHED_PIC ≠ 0 then
            (if subtitle_ok then QueueGate.idle else QueueGate.proceed)
          else QueueGate.proceed

/-- Example video packet of one MiB. -/
def bigPacket : AVPacket :=
  { data := DataPtr.buf 8192, size := 1024 * 1024, stream_index := 0, pts := 0, dts := 0 }

/-- Example media context: sixteen packets of one MiB wait in the video queue, the audio queue
holds its flush marker only; both streams are open and not aborted. -/
def heavyMedia : MediaDecode :=
  { plainMedia with
    audio_packet_queue := packet_queue_start 104 packet_queue_init true,
    video_packet_queue :=
      pqPutAll 104 (packet_queue_start 104 packet_queue_init true)
        (List.replicate 16 (PacketRef.other bigPacket)) }

/-! ## Message Queue

Shallow embedding of `library/src/main/cpp/message/message_queue.cc` and `handler.cc`.  The list
`first_ … last_` of `MessageNode`s is a `List` of the queued messages, oldest first.  A `Message`
is owned by the queue it is handed to.  Pointers to handlers and payloads are addresses (`none`
is `NULL`).  Whether `new MessageNode()` yields a node is the parameter `node_ok`. -/

/-- The fields of the class `Message`. -/
structure Message where
  handler_ : Option Nat
  what : Int
  arg1 : Int
  arg2 : Int
  obj : Option Nat
  deriving DecidableEq, Repr

/-- The constructor `Message::Message(int what, int arg1, int arg2)`. -/
def Message.ofArgs (what arg1 arg2 : Int) : Message :=
  { handler_ := none, what := what, arg1 := arg1, arg2 := arg2, obj := none }

/-- The fields of the class `MessageQueue` (mutex, condition variable and name left out). -/
structure MessageQueue where
  msgs : List Message
  packet_size_ : Int
  abort_request_ : Bool
  deriving DecidableEq, Repr

/-- `MessageQueue::Init()`. -/
def MessageQueue.Init : MessageQueue :=
  { msgs := [], packet_size_ := 0, abort_request_ := false }

/-- `MessageQueue::Size()`. -/
def MessageQueue.Size (q : MessageQueue) : Int :=
  q.packet_size_

/-- `MessageQueue::Flush()`. -/
def MessageQueue.Flush (q : MessageQueue) : MessageQueue :=
  { q with msgs := [], packet_size_ := 0 }

/-- `MessageQueue::EnqueueMessage(msg)`: the return value and the queue afterwards. -/
def MessageQueue.EnqueueMessage (q : MessageQueue) (msg : Message) (node_ok : Bool) :
    Int × MessageQueue :=
  if q.abort_request_ then
    (-1, q)
  else if !node_ok then
    (-1, q)
  else
    (0, { q with msgs := q.msgs ++ [msg], packet_size_ := q.packet_size_ + 1 })

/-- Outcome of `MessageQueue::DequeueMessage`. -/
inductive DequeueOutcome where
  /-- The call returned `code`; `msg` is what it wrote to `*msg`, if anything. -/
  | ret (code : Int) (msg : Option Message)
  /-- The call sits in `pthread_cond_wait`. -/
  | waits
  deriving DecidableEq, Repr

/-- `MessageQueue::DequeueMessage(msg, block)`. -/
def MessageQueue.DequeueMessage (q : MessageQueue) (block : Bool) :
    DequeueOutcome × MessageQueue :=
  if q.abort_request_ then
    (DequeueOutcome.ret (-1) none, q)
  else
    match q.msgs with
    | m :: rest =>
        (DequeueOutcome.ret 1 (some m),
          { q with msgs := rest, packet_size_ := q.packet_size_ - 1 })
    | [] =>
        if !block then (DequeueOutcome.ret 0 none, q) else (DequeueOutcome.waits, q)

/-- `MessageQueue::Abort()`. -/
def MessageQueue.Abort (q : MessageQueue) : MessageQueue :=
  { q with abort_request_ := true }

/-- `Handler::PostMessage(msg)` of the handler at address `this` whose `mQueue` is `mQueue`. -/
def Handler.PostMessage (this : Nat) (mQueue : MessageQueue) (msg : Message) (node_ok : Bool) :
    Int × MessageQueue :=
  mQueue.EnqueueMessage { msg with handler_ := some this } node_ok

/-- `Handler::GetQueueSize()`. -/
def Handler.GetQueueSize (mQueue : MessageQueue) : Int :=
  mQueue.Size

/-- A message on its way into a queue: handed to `EnqueueMessage` directly, or posted through the
handler at the given address. -/
inductive MQPost where
  | enqueue (msg : Message)
  | post (this : Nat) (msg : Message)
  deriving DecidableEq, Repr

/-- The message as the queue stores it. -/
def MQPost.stored : MQPost → Message
  | MQPost.enqueue msg => msg
  | MQPost.post this msg => { msg with handler_ := some this }

/-- Hand one message to the queue (the node is allocated). -/
def mqPost (q : MessageQueue) : MQPost → MessageQueue
  | MQPost.enqueue msg => (q.EnqueueMessage msg true).2
  | MQPost.post this msg => (Handler.PostMessage this q msg true).2

/-- Hand the messages of a list to the queue, one after the other. -/
def mqPostAll (q : MessageQueue) (ps : List MQPost) : MessageQueue :=
  ps.foldl mqPost q

/-- Call `DequeueMessage` `n` times and collect the outcomes, oldest first. -/
def mqDequeueN (block : Bool) : MessageQueue → Nat → List DequeueOutcome × MessageQueue
  | q, 0 => ([], q)
  | q, n + 1 =>
      let r := q.DequeueMessage block
      let rest := mqDequeueN block r.2 n
      (r.1 :: rest.1, rest.2)

/-! ## Read Loop: one iteration of `read_thread`

The body of the `while` loop of `read_thread` (lines 1197 to 1324) is embedded as a function of the
context at the start of the iteration and of what the environment answers during it: the results
of the calls into FFmpeg, of `av_malloc` at each put, and of the callbacks.  The calls out of the
loop are logged in program order.  The callbacks are foreign code; they give a return value and
nothing else. -/

/-- The value of `AVERROR_EOF`. -/
def AVERROR_EOF : Int := -541478725

/-- The flag `AVSEEK_FLAG_BYTE` of FFmpeg. -/
def AVSEEK_FLAG_BYTE : Int := 2

/-- The macro `AV_TIME_BASE`. -/
def AV_TIME_BASE : Int := 1000000

/-- The limit `INT64_MIN`. -/
def INT64_MIN : Int := -9223372036854775808

/-- The limit `INT64_MAX`. -/
def INT64_MAX : Int := 9223372036854775807

/-- The context `MediaDecode` as `read_thread` and `stream_seek` see it: `md` holds the fields
shared with `decoder_decode_frame`, the rest are the flags of the loop, the two decoders and the
video Frame Queue.  `seek_event` says whether that pointer is set; `state_event` is `none` for a
null pointer and otherwise says whether its `on_complete_event` is set. -/
structure ReadState where
  md : MediaDecode
  abort_request : Int
  paused : Int
  last_paused : Int
  read_pause_return : Int
  seek_req : Int
  seek_pos : Int
  seek_rel : Int
  seek_flags : Int
  queue_attachments_req : Int
  eof : Int
  audio_decode : Decoder
  video_decode : Decoder
  video_frame_queue : FrameQueue
  seek_event : Bool
  state_event : Option Bool
  deriving DecidableEq, Repr

/-- The places of the loop body that put a packet on a queue. -/
inductive PutSite where
  | seek_audio
  | seek_video
  | seek_subtitle
  | attached_pic
  | attached_null
  | eof_video
  | eof_audio
  | eof_subtitle
  | packet
  deriving DecidableEq, Repr

/-- What the environment answers during one iteration: `sizeof(MyAVPacketList)`, whether
`av_malloc` succeeds at each put, the results of `av_read_pause`, `avformat_seek_file` and
`av_copy_packet` with the packet the latter leaves in `copy`, the pointer `video_stream` read as an
`int`, what `on_complete_event` returns to the completion check and to the end-time check, the
result of `av_read_frame` with the packet read, `avio_feof(ic->pb)`, `ic->pb && ic->pb->error`, and
the outcome of the floating-point comparison of line 1312. -/
structure ReadEnv where
  sz : Int
  alloc_ok : PutSite → Bool
  av_read_pause : Int
  avformat_seek_file : Int
  av_copy_packet : Int
  copy : AVPacket
  video_stream_int : Int
  complete_ret : Int
  finish_ret : Int
  av_read_frame : Int
  pkt : AVPacket
  avio_feof : Bool
  pb_error : Bool
  range_cmp : Bool

/-- Calls out of the loop body, as logged. -/
inductive ReadEvent where
  | av_read_pause
  | av_read_play
  | avformat_seek_file (min_ts ts max_ts flags : Int)
  | on_seek_event (flags : Int)
  | read_thread_failed
  | on_complete_event
  | av_read_frame
  | packet_queue_put (stream : AVMediaType)
  | av_packet_unref
  deriving DecidableEq, Repr

/-- How an iteration ends: at the end of the body or at a `continue`, at a `return`, at the
`break`, or in the read of `video_stream->disposition` through a null pointer. -/
inductive LoopExit where
  | next
  | returned
  | broke
  | fault
  deriving DecidableEq, Repr

/-- Result of a stretch of the body that may call `complete_state`: the value of `exit`. -/
structure CheckResult where
  exit : Int
  events : List ReadEvent
  state : ReadState

/-- Result of an iteration, or of its last stretch. -/
structure ReadResult where
  exit : LoopExit
  events : List ReadEvent
  state : ReadState

/-- `stream_seek(media_decode, pos, rel, seek_by_bytes)`. -/
def stream_seek (s : ReadState) (pos rel seek_by_bytes : Int) : ReadState :=
  if s.seek_req = 0 then
    let flags := Int.land s.seek_flags (Int.lnot AVSEEK_FLAG_BYTE)
    { s with seek_pos := pos,
             seek_rel := rel,
             seek_flags := if seek_by_bytes ≠ 0 then Int.lor flags AVSEEK_FLAG_BYTE else flags,
             seek_req := 1 }
  else s

/-- `av_seek(decode, time)`. -/
def av_seek (s : ReadState) (time : Int) : ReadState :=
  stream_seek s time 0 0

/-- Lines 1197 to 1204: follow a change of `paused`. -/
def pause_step (env : ReadEnv) (s : ReadState) : List ReadEvent × ReadState :=
  if s.paused ≠ s.last_paused then
    if s.paused ≠ 0 then
      ([ReadEvent.av_read_pause],
        { s with last_paused := s.paused, read_pause_return := env.av_read_pause })
    else ([ReadEvent.av_read_play], { s with last_paused := s.paused })
  else ([], s)

/-- Lines 1217 to 1220 (and the two copies below them) for one stream: flush the queue and put
`&flush_pkt`, if the stream is there. -/
def seek_flush (sz : Int) (q : PacketQueue) (stream_index : Int) (alloc_ok : Bool) :
    PacketQueue :=
  if stream_index ≥ 0 then
    (packet_queue_put sz (packet_queue_flush q) PacketRef.flush_ref alloc_ok).2
  else q

/-- Lines 1205 to 1236: apply a pending seek. -/
def seek_step (env : ReadEnv) (s : ReadState) : List ReadEvent × ReadState :=
  if s.seek_req ≠ 0 then
    let seek_target := s.seek_pos * (AV_TIME_BASE / 1000)
    let seek_min := if s.seek_rel > 0 then seek_target - s.seek_rel + 2 else INT64_MIN
    let seek_max := if s.seek_rel < 0 then seek_target - s.seek_rel - 2 else INT64_MAX
    let call := ReadEvent.avformat_seek_file seek_min seek_target seek_max
      (Int.land 0 (Int.lnot AVSEEK_FLAG_BYTE))
    let md1 : MediaDecode :=
      if env.avformat_seek_file < 0 then s.md
      else
        { s.md with
          audio_packet_queue :=
            seek_flush env.sz s.md.audio_packet_queue s.md.audio_stream_index
              (env.alloc_ok PutSite.seek_audio),
          video_packet_queue :=
            seek_flush env.sz s.md.video_packet_queue s.md.video_stream_index
              (env.alloc_ok PutSite.seek_video),
          subtitle_packet_queue :=
            seek_flush env.sz s.md.subtitle_packet_queue s.md.subtitle_stream_index
              (env.alloc_ok PutSite.seek_subtitle) }
    (call :: (if s.seek_event then [ReadEvent.on_seek_event s.seek_flags] else []),
      { s with md := md1, seek_req := 0, queue_attachments_req := 1, eof := 0 })
  else ([], s)

/-- Lines 1237 to 1247: queue the attached picture.  After a failed `av_copy_packet` the code
calls `read_thread_failed` and goes on. -/
def attach_step (env : ReadEnv) (s : ReadState) : List ReadEvent × ReadState :=
  if s.queue_attachments_req ≠ 0 then
    match s.md.video_stream with
    | some st =>
        if st.disposition &&& AV_DISPOSITION_ATTACHED_PIC ≠ 0 then
          let q1 := (packet_queue_put env.sz s.md.video_packet_queue (PacketRef.other env.copy)
            (env.alloc_ok PutSite.attached_pic)).2
          let q2 := (packet_queue_put_nullpacket env.sz q1 env.video_stream_int
            (env.alloc_ok PutSite.attached_null)).2
          (if env.av_copy_packet < 0 then [ReadEvent.read_thread_failed] else [],
            { s with md := { s.md with video_packet_queue := q2 }, queue_attachments_req := 0 })
        else ([], { s with queue_attachments_req := 0 })
    | none => ([], { s with queue_attachments_req := 0 })
  else ([], s)

/-- `complete_state(media_decode)`; `answer` is what the callback returns. -/
def complete_state (s : ReadState) (answer : Int) : List ReadEvent × Int :=
  match s.state_event with
  | some true => ([ReadEvent.on_complete_event], answer)
  | _ => ([], 0)

/-- Lines 1262 to 1274: the completion check. -/
def completion_step (env : ReadEnv) (s : ReadState) : CheckResult :=
  if s.paused = 0 ∧
      (s.md.video_stream = none ∨
        (s.video_decode.finished = s.md.video_packet_queue.serial ∧
          frame_queue_nb_remaining s.video_frame_queue = 0)) then
    let s1 : ReadState :=
      { s with paused := 0,
               audio_decode := { s.audio_decode with finished := 0 },
               video_decode := { s.video_decode with finished := 0 } }
    { exit := (complete_state s1 env.complete_ret).2,
      events := (complete_state s1 env.complete_ret).1,
      state := s1 }
  else { exit := 0, events := [], state := s }

/-- Lines 1277 to 1285: the end-time check. -/
def finish_step (env : ReadEnv) (s : ReadState) : CheckResult :=
  if s.md.finish then
    let s1 : ReadState := { s with md := { s.md with finish := false } }
    { exit := (complete_state s1 env.finish_ret).2,
      events := (complete_state s1 env.finish_ret).1,
      state := s1 }
  else { exit := 0, events := [], state := s }

/-- Lines 1289 to 1297 for one stream: put a null packet, if the stream is there. -/
def eof_put (sz : Int) (q : PacketQueue) (stream_index : Int) (alloc_ok : Bool) : PacketQueue :=
  if stream_index ≥ 0 then (packet_queue_put_nullpacket sz q stream_index alloc_ok).2 else q

/-- Lines 1288 to 1299: what a failed `av_read_frame` does to the context. -/
def eof_step (env : ReadEnv) (s : ReadState) : ReadState :=
  if (env.av_read_frame = AVERROR_EOF ∨ env.avio_feof = true) ∧ s.eof = 0 then
    { s with
      md := { s.md with
        video_packet_queue :=
          eof_put env.sz s.md.video_packet_queue s.md.video_stream_index
            (env.alloc_ok PutSite.eof_video),
        audio_packet_queue :=
          eof_put env.sz s.md.audio_packet_queue s.md.audio_stream_index
            (env.alloc_ok PutSite.eof_audio),
        subtitle_packet_queue :=
          eof_put env.sz s.md.subtitle_packet_queue s.md.subtitle_stream_index
            (env.alloc_ok PutSite.eof_subtitle) },
      eof := 1 }
  else s

/-- Lines 1311 and 1312: `duration` is the constant `AV_NOPTS_VALUE`, and `||` evaluates the
floating-point comparison only if its left side is false. -/
def pkt_in_play_range (env : ReadEnv) : Bool :=
  let duration := AV_NOPTS_VALUE
  decide (duration = AV_NOPTS_VALUE) || env.range_cmp

/-- Where lines 1313 to 1321 send a packet. -/
inductive Route where
  | audio
  | video
  | subtitle
  | discard
  | null_deref
  deriving DecidableEq, Repr

/-- The conditions of lines 1313 to 1321, in their order. -/
def packet_route (md : MediaDecode) (pkt : AVPacket) (in_play_range : Bool) : Route :=
  if pkt.stream_index = md.audio_stream_index ∧ in_play_range = true then Route.audio
  else
    let last : Route :=
      if pkt.stream_index = md.subtitle_stream_index ∧ in_play_range = true then Route.subtitle
      else Route.discard
    if pkt.stream_index = md.video_stream_index ∧ in_play_range = true then
      match md.video_stream with
      | none => Route.null_deref
      | some st =>
          if st.disposition &&& AV_DISPOSITION_ATTACHED_PIC ≠ 0 then last else Route.video
    else last

/-- Lines 1313 to 1321: put the packet on the queue it is sent to, or drop it. -/
def route_step (env : ReadEnv) (s : ReadState) : ReadResult :=
  let ref := PacketRef.other env.pkt
  let ok := env.alloc_ok PutSite.packet
  match packet_route s.md env.pkt (pkt_in_play_range env) with
  | Route.audio =>
      { exit := LoopExit.next,
        events := [ReadEvent.packet_queue_put AVMediaType.audio],
        state := { s with md := { s.md with
          audio_packet_queue := (packet_queue_put env.sz s.md.audio_packet_queue ref ok).2 } } }
  | Route.video =>
      { exit := LoopExit.next,
        events := [ReadEvent.packet_queue_put AVMediaType.video],
        state := { s with md := { s.md with
          video_packet_queue := (packet_queue_put env.sz s.md.video_packet_queue ref ok).2 } } }
  | Route.subtitle =>
      { exit := LoopExit.next,
        events := [ReadEvent.packet_queue_put AVMediaType.subtitle],
        state := { s with md := { s.md with
          subtitle_packet_queue :=
            (packet_queue_put env.sz s.md.subtitle_packet_queue ref ok).2 } } }
  | Route.discard =>
      { exit := LoopExit.next, events := [ReadEvent.av_packet_unref], state := s }
  | Route.null_deref => { exit := LoopExit.fault, events := [], state := s }

/-- Lines 1286 to 1322: read a packet and queue it. -/
def read_step (env : ReadEnv) (s : ReadState) : ReadResult :=
  if env.av_read_frame < 0 then
    { exit := if env.pb_error then LoopExit.broke else LoopExit.next,
      events := [ReadEvent.av_read_frame],
      state := eof_step env s }
  else
    let r := route_step env { s with eof := 0 }
    { r with events := ReadEvent.av_read_frame :: r.events }

/-- Lines 1237 to 1322: the body after the seek. -/
def read_thread_rest (env : ReadEnv) (s : ReadState) : ReadResult :=
  let a := attach_step env s
  match read_thread_gate a.2.md with
  | QueueGate.null_deref => { exit := LoopExit.fault, events := a.1, state := a.2 }
  | QueueGate.idle => { exit := LoopExit.next, events := a.1, state := a.2 }
  | QueueGate.proceed =>
      let c := completion_step env a.2
      if c.exit ≠ 0 then
        { exit := LoopExit.returned, events := a.1 ++ c.events, state := c.state }
      else
        let f := finish_step env c.state
        if f.exit ≠ 0 then
          { exit := LoopExit.returned, events := a.1 ++ c.events ++ f.events, state := f.state }
        else
          let r := read_step env f.state
          { r with events := a.1 ++ c.events ++ f.events ++ r.events }

/-- One iteration of the loop of `read_thread`, lines 1197 to 1322. -/
def read_thread_body (env : ReadEnv) (s : ReadState) : ReadResult :=
  let p := pause_step env s
  let k := seek_step env p.2
  let r := read_thread_rest env k.2
  { r with events := p.1 ++ k.1 ++ r.events }

/-- Example environment: every call succeeds, the callbacks return 0, and `av_read_frame` reads a
data packet of stream 0. -/
def quietEnv : ReadEnv :=
  { sz := 104, alloc_ok := fun _ => true, av_read_pause := 0, avformat_seek_file := 0,
    av_copy_packet := 0, copy := zero_packet, video_stream_int := 0, complete_ret := 0,
    finish_ret := 0, av_read_frame := 0, pkt := dataPacket 40, avio_feof := false,
    pb_error := false, range_cmp := false }

/-- Example context: the audio and the video stream of `plainMedia` are open, both queues hold
the flush marker of `packet_queue_start` and one data packet, the loop is neither paused nor
asked to seek, and both callbacks are registered. -/
def playing : ReadState :=
  { md := { plainMedia with
      audio_packet_queue :=
        pqPutAll 104 (packet_queue_start 104 packet_queue_init true)
          [PacketRef.other { dataPacket 0 with stream_index := 1 }],
      video_packet_queue :=
        pqPutAll 104 (packet_queue_start 104 packet_queue_init true)
          [PacketRef.other (dataPacket 0)] },
    abort_request := 0, paused := 0, last_paused := 0, read_pause_return := 0,
    seek_req := 0, seek_pos := 0, seek_rel := 0, seek_flags := 0,
    queue_attachments_req := 0, eof := 0,
    audio_decode := { audioDecoder with packet_pending := false },
    video_decode := { videoDecoder with pkt_serial := 1 },
    video_frame_queue := frame_queue_init 3 3 1,
    seek_event := true, state_event := some true }

/-! ## Audio thread: the declared source of the filter graph -/

/-- The fields of `AudioParams` the audio thread compares and sets. -/
structure AudioParams where
  freq : Int
  channels : Int
  channel_layout : Int
  fmt : Int
  deriving DecidableEq, Repr

/-- The functions of libavutil used on sample formats and channel layouts. -/
structure SampleLib where
  av_get_packed_sample_fmt : Int → Int
  av_get_channel_layout_nb_channels : Int → Int

/-- Number of one bits among the lowest `k` bits of `n`. -/
def popcount : Nat → Nat → Nat
  | 0, _ => 0
  | k + 1, n => n % 2 + popcount k (n / 2)

/-- A stand-in for libavutil in examples: the sample formats `U8, S16, S32, FLT, DBL` are 0 to 4,
their planar forms 5 to 9, `S64` is 10 and `S64P` is 11; a channel layout is a mask of 64 bits
with one bit per channel. -/
def sampleFmts : SampleLib :=
  { av_get_packed_sample_fmt := fun fmt =>
      if fmt < 0 ∨ 12 ≤ fmt then -1
      else if 5 ≤ fmt ∧ fmt ≤ 9 then fmt - 5
      else if fmt = 11 then 10
      else fmt,
    av_get_channel_layout_nb_channels := fun layout => (popcount 64 layout.toNat : Nat) }

/-- `get_valid_channel_layout(channel_layout, channels)`. -/
def get_valid_channel_layout (lib : SampleLib) (channel_layout channels : Int) : Int :=
  if channel_layout ≠ 0 ∧ lib.av_get_channel_layout_nb_channels channel_layout = channels then
    channel_layout
  else 0

/-- `cmp_audio_fmts(fmt1, channel_count1, fmt2, channel_count2)`. -/
def cmp_audio_fmts (lib : SampleLib) (fmt1 channel_count1 fmt2 channel_count2 : Int) : Int :=
  if channel_count1 = 1 ∧ channel_count2 = 1 then
    (if lib.av_get_packed_sample_fmt fmt1 ≠ lib.av_get_packed_sample_fmt fmt2 then 1 else 0)
  else
    (if channel_count1 ≠ channel_count2 ∨ fmt1 ≠ fmt2 then 1 else 0)

/-- What lines 571 to 591 of `audio_thread` leave behind for one decoded frame: the local
`reconfigure`, `media_decode->audio_filter_src`, the local `last_serial`, and whether
`configure_audio_filters` was called. -/
structure AudioSrcStep where
  reconfigure : Int
  audio_filter_src : AudioParams
  last_serial : Int
  configured : Bool
  deriving DecidableEq, Repr

/-- Lines 571 to 591 of `audio_thread` for a decoded frame; `pkt_serial` is
`audio_decode.pkt_serial`. -/
def audio_thread_reconfigure (lib : SampleLib) (audio_filter_src : AudioParams)
    (last_serial : Int) (frame : AVFrame) (pkt_serial : Int) : AudioSrcStep :=
  let dec_channel_layout := get_valid_channel_layout lib frame.channel_layout frame.channels
  let reconfigure :=
    cmp_audio_fmts lib audio_filter_src.fmt audio_filter_src.channels frame.format frame.channels
  if reconfigure ≠ 0 then
    { reconfigure := reconfigure,
      audio_filter_src :=
        { fmt := frame.format, channel_layout := dec_channel_layout,
          channels := frame.channels, freq := frame.sample_rate },
      last_serial := pkt_serial,
      configured := true }
  else
    { reconfigure := reconfigure, audio_filter_src := audio_filter_src,
      last_serial := last_serial, configured := false }

/-- Example declared source: stereo 44100 Hz in format `FLTP`. -/
def stereoSrc : AudioParams :=
  { freq := 44100, channels := 2, channel_layout := 3, fmt := 8 }

/-- Example declared source: mono 44100 Hz in format `S16`. -/
def monoSrc : AudioParams :=
  { freq := 44100, channels := 1, channel_layout := 4, fmt := 1 }

/-! ### Effects on one queue, and example contexts -/

/-- The queue `q1` is `q` with exactly one node more, at the tail: `pkt` under the serial of
`q`; `nb_packets` is one more and `size` has grown by the bytes of the node (as an `int`). -/
def PQAppended (sz : Int) (q q1 : PacketQueue) (pkt : AVPacket) : Prop :=
  q1 = { q with pkts := q.pkts ++ [{ pkt := pkt, serial := q.serial }],
                nb_packets := q.nb_packets + 1,
                size := to_int (q.size + (pkt.size + sz)) }

/-- Effect of putting a packet other than `flush_pkt` on `q`: an aborted queue and a failed
`av_malloc` leave `q` as it is, otherwise the packet is appended. -/
def PutEffect (sz : Int) (pkt : AVPacket) (alloc_ok : Bool) (q q1 : PacketQueue) : Prop :=
  if q.abort_request = true ∨ alloc_ok = false then q1 = q else PQAppended sz q q1 pkt

/-- Effect of a reported end of stream on the queue of one stream: nothing for an absent stream,
otherwise the put of one null packet. -/
def EofEffect (sz stream_index : Int) (alloc_ok : Bool) (q q1 : PacketQueue) : Prop :=
  if stream_index < 0 then q1 = q else PutEffect sz (null_packet stream_index) alloc_ok q q1

/-- Effect of the seek step on the queue of one stream: nothing after a failed
`avformat_seek_file` and for an absent stream; otherwise the queue is flushed, and unless it is
aborted or `av_malloc` fails it then holds the flush marker alone, under the next serial. -/
def SeekEffect (sz seek_ret stream_index : Int) (alloc_ok : Bool) (q q1 : PacketQueue) : Prop :=
  if seek_ret < 0 ∨ stream_index < 0 then q1 = q
  else if q.abort_request = true ∨ alloc_ok = false then q1 = packet_queue_flush q
  else q1 = { pkts := [{ pkt := flush_pkt, serial := q.serial + 1 }], nb_packets := 1,
              size := to_int (flush_pkt.size + sz), serial := q.serial + 1,
              abort_request := false }

/-- Example environment: `avformat_seek_file` fails. -/
def failedSeekEnv : ReadEnv :=
  { quietEnv with avformat_seek_file := -1 }

/-- Example environment: `av_read_frame` reports the end of the stream. -/
def eofEnv : ReadEnv :=
  { quietEnv with av_read_frame := AVERROR_EOF }

/-- Example context: `playing` with a seek to 5000 ms requested. -/
def seekPending : ReadState :=
  av_seek playing 5000

/-- Example queue: started, and both the flush marker and the null packet taken out again. -/
def drainedQueue : PacketQueue :=
  (pqGetN 104 true eosQueue 2).2

/-- Example context: the video decoder has finished in epoch 1 and no video frame is left,
while the audio queue still holds a data packet and the audio decoder has not finished. -/
def audioBusy : ReadState :=
  { playing with
    md := { playing.md with video_packet_queue := drainedQueue },
    video_decode := { videoDecoder with pkt_serial := 1, finished := 1 } }

/-- Example context at the end of playback: both queues are drained, both decoders have finished
in epoch 1, no video frame is left, the end of the stream has been seen. -/
def endOfPlay : ReadState :=
  { playing with
    md := { playing.md with audio_packet_queue := drainedQueue,
                            video_packet_queue := drainedQueue },
    eof := 1,
    audio_decode := { audioDecoder with packet_pending := false, finished := 1 },
    video_decode := { videoDecoder with pkt_serial := 1, finished := 1 } }

/-- Example context: `endOfPlay` where the last video frame lay beyond `end_time`, so that the
video decoder has set `finish`. -/
def endOfPlayLate : ReadState :=
  { endOfPlay with md := { endOfPlay.md with finish := true } }

/-- Example context: what the iteration on `endOfPlay` leaves behind, and then `finish` set by
the video decoder. -/
def afterCompletion : ReadState :=
  { (read_thread_body eofEnv endOfPlay).state with
    md := { (read_thread_body eofEnv endOfPlay).state.md with finish := true } }

/-- Example call: the video decoder about to decode a packet of 40 ms with `end_time` at
30 ms. -/
def lateCall : DecCall :=
  { dataCall with md := { plainMedia with end_time := 30 } }

/-! ## Threads parked on the condition variables

A thread that a blocking call has parked in `pthread_cond_wait` stays there until the condition
variable wakes it; it then holds the mutex again and goes through the loop of its call once more,
which is the call evaluated on the state at that moment.  `pthread_cond_signal` unblocks at least
one of the threads blocked on the condition variable, if there are any; which threads wake up
(a thread may also wake up without a signal) is the choice of the threads library and comes as
the list `woken` of thread numbers. -/

/-- The two condition variables: `q->cond` of a Packet Queue and `f->cond` of the Frame Queue
that refers to it. -/
inductive CondVar where
  | q_cond
  | f_cond
  deriving DecidableEq, Repr

/-- The calls that park a thread: `packet_queue_get` with `block` set, and the two blocking
peeks. -/
inductive BlockingCall where
  | packet_queue_get
  | frame_queue_peek_writable
  | frame_queue_peek_readable
  deriving DecidableEq, Repr

/-- The condition variable a call waits on (lines 209, 58 and 70). -/
def BlockingCall.cond : BlockingCall → CondVar
  | BlockingCall.packet_queue_get => CondVar.q_cond
  | BlockingCall.frame_queue_peek_writable => CondVar.f_cond
  | BlockingCall.frame_queue_peek_readable => CondVar.f_cond

/-- What a blocking call gave back: the return value of `packet_queue_get` with the node it
took, `NULL` from a peek, or the slot `&f->queue[i]`. -/
inductive CallResult where
  | get (code : Int) (node : Option MyAVPacketList)
  | peek_null
  | peek_slot (i : Int)
  deriving DecidableEq, Repr

/-- What a call gives back when it sees `abort_request`. -/
def BlockingCall.abort_result : BlockingCall → CallResult
  | BlockingCall.packet_queue_get => CallResult.get (-1) none
  | BlockingCall.frame_queue_peek_writable => CallResult.peek_null
  | BlockingCall.frame_queue_peek_readable => CallResult.peek_null

/-- A thread: parked inside a call, or back from it. -/
inductive Thread where
  | parked (c : BlockingCall)
  | returned (c : BlockingCall) (r : CallResult)
  deriving DecidableEq, Repr

/-- A Packet Queue, the Frame Queue that refers to it, and the threads using them. -/
structure WaitSys where
  q : PacketQueue
  f : FrameQueue
  threads : List Thread
  deriving DecidableEq, Repr

/-- A woken thread goes through the loop of its call once more: the thread afterwards and the
Packet Queue afterwards. -/
def resume (sz : Int) (q : PacketQueue) (f : FrameQueue) : Thread → Thread × PacketQueue
  | Thread.parked BlockingCall.packet_queue_get =>
      match packet_queue_get sz q true with
      | (GetOutcome.waits, _) => (Thread.parked BlockingCall.packet_queue_get, q)
      | (GetOutcome.ret code node, q1) =>
          (Thread.returned BlockingCall.packet_queue_get (CallResult.get code node), q1)
  | Thread.parked BlockingCall.frame_queue_peek_writable =>
      match frame_queue_peek_writable f q with
      | PeekOutcome.waits => (Thread.parked BlockingCall.frame_queue_peek_writable, q)
      | PeekOutcome.null =>
          (Thread.returned BlockingCall.frame_queue_peek_writable CallResult.peek_null, q)
      | PeekOutcome.slot i =>
          (Thread.returned BlockingCall.frame_queue_peek_writable (CallResult.peek_slot i), q)
  | Thread.parked BlockingCall.frame_queue_peek_readable =>
      match frame_queue_peek_readable f q with
      | PeekOutcome.waits => (Thread.parked BlockingCall.frame_queue_peek_readable, q)
      | PeekOutcome.null =>
          (Thread.returned BlockingCall.frame_queue_peek_readable CallResult.peek_null, q)
      | PeekOutcome.slot i =>
          (Thread.returned BlockingCall.frame_queue_peek_readable (CallResult.peek_slot i), q)
  | Thread.returned c r => (Thread.returned c r, q)

/-- Thread number `i` wakes up. -/
def wake (sz : Int) (s : WaitSys) (i : Nat) : WaitSys :=
  match s.threads[i]? with
  | some t =>
      { s with threads := s.threads.set i (resume sz s.q s.f t).1, q := (resume sz s.q s.f t).2 }
  | none => s

/-- The threads of a list wake up, one after the other. -/
def wakeAll (sz : Int) (s : WaitSys) (woken : List Nat) : WaitSys :=
  woken.foldl (wake sz) s

/-- Whether a thread is parked on the condition variable. -/
def Thread.parkedOn (cv : CondVar) : Thread → Bool
  | Thread.parked c => decide (c.cond = cv)
  | Thread.returned _ _ => false

/-- Whether a thread is parked at all. -/
def Thread.isParked : Thread → Bool
  | Thread.parked _ => true
  | Thread.returned _ _ => false

/-- Whether `woken` is a possible effect of one `pthread_cond_signal` on the condition variable:
if a thread is parked on it, at least one such thread is among the woken. -/
def signalLegal (cv : CondVar) (threads : List Thread) (woken : List Nat) : Bool :=
  !(threads.any (Thread.parkedOn cv)) ||
    woken.any (fun i =>
      match threads[i]? with
      | some t => t.parkedOn cv
      | none => false)

/-- `packet_queue_abort(q)` with the threads its `pthread_cond_signal(&q->cond)` wakes. -/
def packet_queue_abort_wake (sz : Int) (s : WaitSys) (woken : List Nat) : WaitSys :=
  wakeAll sz { s with q := packet_queue_abort s.q } woken

/-- `frame_queue_signal(f)` with the threads its `pthread_cond_signal(&f->cond)` wakes. -/
def frame_queue_signal_wake (sz : Int) (s : WaitSys) (woken : List Nat) : WaitSys :=
  wakeAll sz s woken

/-- Lines 530 and 531 of `decoder_abort(d, fq)`: `packet_queue_abort(d->queue)`, then
`frame_queue_signal(fq)`. -/
def decoder_abort_wake (sz : Int) (s : WaitSys) (woken1 woken2 : List Nat) : WaitSys :=
  frame_queue_signal_wake sz (packet_queue_abort_wake sz s woken1) woken2

/-- A thread after it has seen the abort: a parked call has returned its abort result. -/
def Thread.aborted : Thread → Thread
  | Thread.parked c => Thread.returned c c.abort_result
  | Thread.returned c r => Thread.returned c r

/-- Example: two threads are parked in `packet_queue_get` on an empty queue. -/
def twoGetters : WaitSys :=
  { q := drainedQueue, f := frame_queue_init 3 3 1,
    threads := [Thread.parked BlockingCall.packet_queue_get,
                Thread.parked BlockingCall.packet_queue_get] }

/-- Example: the decoder thread is parked in `packet_queue_get` on an empty queue, the renderer
in `frame_queue_peek_readable` on the empty Frame Queue. -/
def decoderAndRenderer : WaitSys :=
  { q := drainedQueue, f := frame_queue_init 3 3 1,
    threads := [Thread.parked BlockingCall.packet_queue_get,
                Thread.parked BlockingCall.frame_queue_peek_readable] }

/-- Example packet of `2^30` bytes. -/
def hugePacket : AVPacket :=
  { data := DataPtr.buf 1, size := 1073741824, stream_index := 0, pts := 0, dts := 0 }

/-- Example run: two puts of `hugePacket`. -/
def twoHugePuts : List PQOp :=
  [PQOp.put (PacketRef.other hugePacket) true, PQOp.put (PacketRef.other hugePacket) true]

/-! ## Theorems: Packet Queue -/

theorem to_int_add (a b : Int) : to_int (to_int a + b) = to_int (a + b) := by
  unfold to_int
  omega

theorem to_int_sub (a b : Int) : to_int (to_int a - b) = to_int (a - b) := by
  unfold to_int
  omega

theorem to_int_range (a : Int) : -2147483648 ≤ to_int a ∧ to_int a ≤ 2147483647 := by
  unfold to_int
  omega

theorem to_int_id (a : Int) (h1 : -2147483648 ≤ a) (h2 : a ≤ 2147483647) : to_int a = a := by
  unfold to_int
  omega

theorem nodeBytes_cons (sz : Int) (n : MyAVPacketList) (l : List MyAVPacketList) :
    nodeBytes sz (n :: l) = (n.pkt.size + sz) + nodeBytes sz l := by
  simp [nodeBytes]

theorem nodeBytes_append (sz : Int) (n : MyAVPacketList) (l : List MyAVPacketList) :
    nodeBytes sz (l ++ [n]) = nodeBytes sz l + (n.pkt.size + sz) := by
  simp [nodeBytes]

theorem pqAcct_init (sz : Int) : PQAcct sz packet_queue_init := by
  unfold PQAcct packet_queue_init nodeBytes
  exact ⟨rfl, rfl⟩

theorem pqAcct_put_private (sz : Int) (q : PacketQueue) (p : PacketRef) (a : Bool)
    (h : PQAcct sz q) : PQAcct sz (packet_queue_put_private sz q p a).2 := by
  obtain ⟨h1, h2⟩ := h
  unfold packet_queue_put_private
  split
  · exact ⟨h1, h2⟩
  · split
    · exact ⟨h1, h2⟩
    · constructor
      · simp [h1]
      · dsimp only
        rw [nodeBytes_append, h2, to_int_add]

theorem pqAcct_get (sz : Int) (q : PacketQueue) (b : Bool)
    (h : PQAcct sz q) : PQAcct sz (packet_queue_get sz q b).2 := by
  obtain ⟨h1, h2⟩ := h
  unfold packet_queue_get
  split
  · exact ⟨h1, h2⟩
  · split
    · rename_i pkt1 rest heq
      constructor
      · simp [h1, heq]
      · dsimp only
        rw [heq, nodeBytes_cons] at h2
        rw [h2, to_int_sub]
        congr 1
        omega
    · split <;> exact ⟨h1, h2⟩

theorem pqAcct_step (sz : Int) (q : PacketQueue) (op : PQOp)
    (h : PQAcct sz q) : PQAcct sz (pqStep sz q op) := by
  cases op with
  | put p a => exact pqAcct_put_private sz q p a h
  | put_nullpacket i a => exact pqAcct_put_private sz q _ a h
  | get b => exact pqAcct_get sz q b h
  | flush =>
      unfold pqStep packet_queue_flush PQAcct nodeBytes
      exact ⟨rfl, rfl⟩
  | start a => exact pqAcct_put_private sz _ _ a h
  | abort => exact h

theorem pqAcct_run (sz : Int) (ops : List PQOp) (q : PacketQueue)
    (h : PQAcct sz q) : PQAcct sz (pqRun sz q ops) := by
  induction ops generalizing q with
  | nil => exact h
  | cons op ops ih => exact ih _ (pqAcct_step sz q op h)

theorem pqRunCount_fst (sz : Int) (ops : List PQOp) (q : PacketQueue) (c : PQCount) :
    (pqRunCount sz q c ops).1 = pqRun sz q ops := by
  induction ops generalizing q c with
  | nil => rfl
  | cons op ops ih => simp [pqRunCount, pqRun, List.foldl_cons, ih]

theorem pqStep_balance (sz : Int) (q : PacketQueue) (op : PQOp) (h : PQAcct sz q) :
    (pqStep sz q op).nb_packets
      = q.nb_packets + pqInserted sz q op - pqDelivered sz q op - pqDropped q op := by
  obtain ⟨h1, _⟩ := h
  cases op with
  | put p a =>
      simp only [pqStep, pqInserted, pqDelivered, pqDropped, packet_queue_put,
        packet_queue_put_private]
      split
      · simp
      · split <;> simp [AVERROR_ENOMEM]
  | put_nullpacket i a =>
      simp only [pqStep, pqInserted, pqDelivered, pqDropped, packet_queue_put_nullpacket,
        packet_queue_put, packet_queue_put_private]
      split
      · simp
      · split <;> simp [AVERROR_ENOMEM]
  | get b =>
      simp only [pqStep, pqInserted, pqDelivered, pqDropped, packet_queue_get]
      split
      · simp
      · split
        · simp
        · split <;> simp
  | flush => simp [pqStep, pqInserted, pqDelivered, pqDropped, packet_queue_flush, h1]
  | start a =>
      simp only [pqStep, pqInserted, pqDelivered, pqDropped, packet_queue_start,
        packet_queue_put_private]
      cases a <;> simp [AVERROR_ENOMEM]
  | abort => simp [pqStep, pqInserted, pqDelivered, pqDropped, packet_queue_abort]

theorem pqRunCount_balance (sz : Int) (ops : List PQOp) (q : PacketQueue) (c : PQCount)
    (hA : PQAcct sz q) (h : q.nb_packets = c.puts - c.gets - c.dropped) :
    (pqRunCount sz q c ops).1.nb_packets
      = (pqRunCount sz q c ops).2.puts - (pqRunCount sz q c ops).2.gets
          - (pqRunCount sz q c ops).2.dropped := by
  induction ops generalizing q c with
  | nil => exact h
  | cons op ops ih =>
      simp only [pqRunCount]
      apply ih _ _ (pqAcct_step sz q op hA)
      rw [pqStep_balance sz q op hA]
      simp only
      omega

/-- C1, as stated, fails.  After two puts of a packet of `2^30` bytes on a fresh queue the two
listed nodes amount to 2147483856 bytes, which no `int` holds: `size` is -2147483440. -/
theorem accounting_counterexample :
    (pqRun 104 packet_queue_init twoHugePuts).nb_packets = 2 ∧
    nodeBytes 104 (pqRun 104 packet_queue_init twoHugePuts).pkts = 2147483856 ∧
    (pqRun 104 packet_queue_init twoHugePuts).size = -2147483440 ∧
    (pqRun 104 packet_queue_init twoHugePuts).size
      ≠ nodeBytes 104 (pqRun 104 packet_queue_init twoHugePuts).pkts := by
  decide

/-- C1, amended.  Packet Queue accounting: after any sequence of put, put_nullpacket, get, flush,
start and abort calls on a freshly initialised queue, `nb_packets` is the number of listed nodes
(hence not negative), it equals successful puts (the insert made by `packet_queue_start`
included) minus successful gets minus the nodes dropped by flushes, and `size` is the sum over
the listed nodes of `pkt.size + sizeof(node)` converted to `int`: the sum modulo `2^32`, and so
the sum itself whenever it lies between `-2^31` and `2^31 - 1`. -/
theorem packet_queue_accounting (sz : Int) (ops : List PQOp) :
    (pqRunCount sz packet_queue_init { puts := 0, gets := 0, dropped := 0 } ops).1
        = pqRun sz packet_queue_init ops ∧
    (pqRun sz packet_queue_init ops).nb_packets = (pqRun sz packet_queue_init ops).pkts.length ∧
    0 ≤ (pqRun sz packet_queue_init ops).nb_packets ∧
    (pqRun sz packet_queue_init ops).nb_packets
        = (pqRunCount sz packet_queue_init { puts := 0, gets := 0, dropped := 0 } ops).2.puts
          - (pqRunCount sz packet_queue_init { puts := 0, gets := 0, dropped := 0 } ops).2.gets
          - (pqRunCount sz packet_queue_init { puts := 0, gets := 0, dropped := 0 } ops).2.dropped ∧
    (pqRun sz packet_queue_init ops).size
        = to_int (nodeBytes sz (pqRun sz packet_queue_init ops).pkts) ∧
    (-2147483648 ≤ nodeBytes sz (pqRun sz packet_queue_init ops).pkts →
      nodeBytes sz (pqRun sz packet_queue_init ops).pkts ≤ 2147483647 →
      (pqRun sz packet_queue_init ops).size
        = nodeBytes sz (pqRun sz packet_queue_init ops).pkts) := by
  have hA := pqAcct_run sz ops packet_queue_init (pqAcct_init sz)
  have hB := pqRunCount_balance sz ops packet_queue_init { puts := 0, gets := 0, dropped := 0 }
    (pqAcct_init sz) (by simp [packet_queue_init])
  rw [pqRunCount_fst] at hB
  refine ⟨pqRunCount_fst sz ops _ _, hA.1, ?_, hB, hA.2, ?_⟩
  · rw [hA.1]
    exact Int.ofNat_nonneg _
  · intro h1 h2
    rw [hA.2]
    exact to_int_id _ h1 h2

/-- Witness for C1 amended: after a start, two puts of a packet of 100 bytes and a get, the two
listed nodes amount to 408 bytes, which fit an `int`, and `size` is that sum. -/
theorem packet_queue_accounting_witness :
    nodeBytes 104 (pqRun 104 packet_queue_init
      [PQOp.start true, PQOp.put (PacketRef.other (dataPacket 0)) true,
       PQOp.put (PacketRef.other (dataPacket 40)) true, PQOp.get true]).pkts = 408 ∧
    (pqRun 104 packet_queue_init
      [PQOp.start true, PQOp.put (PacketRef.other (dataPacket 0)) true,
       PQOp.put (PacketRef.other (dataPacket 40)) true, PQOp.get true]).size
      = nodeBytes 104 (pqRun 104 packet_queue_init
          [PQOp.start true, PQOp.put (PacketRef.other (dataPacket 0)) true,
           PQOp.put (PacketRef.other (dataPacket 40)) true, PQOp.get true]).pkts :=
  ⟨by decide,
   (packet_queue_accounting 104
      [PQOp.start true, PQOp.put (PacketRef.other (dataPacket 0)) true,
       PQOp.put (PacketRef.other (dataPacket 40)) true, PQOp.get true]).2.2.2.2.2
    (by decide) (by decide)⟩

/-! ### Serials -/

theorem put_private_serial_le (sz : Int) (q : PacketQueue) (p : PacketRef) (a : Bool) :
    q.serial ≤ (packet_queue_put_private sz q p a).2.serial := by
  unfold packet_queue_put_private
  split
  · exact le_refl _
  · split
    · exact le_refl _
    · cases p <;> simp [PacketRef.isFlush]

theorem put_private_serialOk (sz : Int) (q : PacketQueue) (p : PacketRef) (a : Bool)
    (h : PQSerialOk q) : PQSerialOk (packet_queue_put_private sz q p a).2 := by
  obtain ⟨h1, h2⟩ := h
  unfold packet_queue_put_private
  split
  · exact ⟨h1, h2⟩
  · split
    · exact ⟨h1, h2⟩
    · have hle : q.serial ≤ (if p.isFlush = true then q.serial + 1 else q.serial) := by
        split <;> omega
      constructor
      · simp only [List.pairwise_append, List.pairwise_singleton, List.mem_singleton]
        refine ⟨h1, trivial, ?_⟩
        intro x hx y hy
        subst hy
        exact le_trans (h2 x hx) hle
      · intro n hn
        simp only [List.mem_append, List.mem_singleton] at hn
        rcases hn with hn | hn
        · exact le_trans (h2 n hn) hle
        · subst hn
          exact le_refl _

theorem get_serialOk (sz : Int) (q : PacketQueue) (b : Bool)
    (h : PQSerialOk q) : PQSerialOk (packet_queue_get sz q b).2 := by
  obtain ⟨h1, h2⟩ := h
  unfold packet_queue_get
  split
  · exact ⟨h1, h2⟩
  · split
    · rename_i pkt1 rest heq
      rw [heq] at h1 h2
      exact ⟨(List.pairwise_cons.mp h1).2, fun n hn => h2 n (List.mem_cons_of_mem _ hn)⟩
    · split <;> exact ⟨h1, h2⟩

theorem get_serial_eq (sz : Int) (q : PacketQueue) (b : Bool) :
    (packet_queue_get sz q b).2.serial = q.serial := by
  unfold packet_queue_get
  split
  · rfl
  · split
    · rfl
    · split <;> rfl

theorem pqStep_serial_le (sz : Int) (q : PacketQueue) (op : PQOp) :
    q.serial ≤ (pqStep sz q op).serial := by
  cases op with
  | put p a => exact put_private_serial_le sz q p a
  | put_nullpacket i a => exact put_private_serial_le sz q _ a
  | get b => exact le_of_eq (get_serial_eq sz q b).symm
  | flush => exact le_refl _
  | start a => exact put_private_serial_le sz { q with abort_request := false } _ a
  | abort => exact le_refl _

theorem pqStep_serialOk (sz : Int) (q : PacketQueue) (op : PQOp)
    (h : PQSerialOk q) : PQSerialOk (pqStep sz q op) := by
  cases op with
  | put p a => exact put_private_serialOk sz q p a h
  | put_nullpacket i a => exact put_private_serialOk sz q _ a h
  | get b => exact get_serialOk sz q b h
  | flush => exact ⟨List.Pairwise.nil, fun n hn => absurd hn (List.not_mem_nil n)⟩
  | start a => exact put_private_serialOk sz { q with abort_request := false } _ a h
  | abort => exact h

theorem pqRun_serialOk (sz : Int) (ops : List PQOp) (q : PacketQueue)
    (h : PQSerialOk q) : PQSerialOk (pqRun sz q ops) := by
  induction ops generalizing q with
  | nil => exact h
  | cons op ops ih => exact ih _ (pqStep_serialOk sz q op h)

theorem pqRun_serial_le (sz : Int) (ops : List PQOp) (q : PacketQueue) :
    q.serial ≤ (pqRun sz q ops).serial := by
  induction ops generalizing q with
  | nil => exact le_refl _
  | cons op ops ih => exact le_trans (pqStep_serial_le sz q op) (ih _)

theorem pqSerialOk_init : PQSerialOk packet_queue_init :=
  ⟨List.Pairwise.nil, fun n hn => absurd hn (List.not_mem_nil n)⟩

theorem get_ret_one_mem (sz : Int) (q : PacketQueue) (b : Bool) (n : MyAVPacketList)
    (h : (packet_queue_get sz q b).1 = GetOutcome.ret 1 (some n)) : n ∈ q.pkts := by
  unfold packet_queue_get at h
  split at h
  · simp at h
  · split at h
    · rename_i pkt1 rest heq
      simp only [GetOutcome.ret.injEq, Option.some.injEq, true_and] at h
      subst h
      rw [heq]
      exact List.mem_cons_self _ _
    · split at h <;> simp at h

theorem get_reported_mem (sz : Int) (q : PacketQueue) (b : Bool) (s : Int)
    (hs : s ∈ (match (packet_queue_get sz q b).1 with
              | GetOutcome.ret 1 (some n) => [n.serial]
              | _ => [])) :
    ∃ n ∈ q.pkts, n.serial = s := by
  split at hs
  · rename_i n heq
    simp only [List.mem_singleton] at hs
    exact ⟨n, get_ret_one_mem sz q b n heq, hs.symm⟩
  · simp at hs

/-- Every serial a run reports is at most the serial of the queue at the end of the run. -/
theorem getSerials_le (sz : Int) (ops : List PQOp) (q : PacketQueue) (h : PQSerialOk q) :
    ∀ s ∈ pqGetSerials sz q ops, s ≤ (pqRun sz q ops).serial := by
  induction ops generalizing q with
  | nil => intro s hs; simp [pqGetSerials] at hs
  | cons op ops ih =>
      intro s hs
      simp only [pqGetSerials, List.mem_append] at hs
      rcases hs with hs | hs
      · have hstep : s ≤ q.serial := by
          cases op with
          | get b =>
              obtain ⟨n, hmem, hser⟩ := get_reported_mem sz q b s hs
              rw [← hser]
              exact h.2 n hmem
          | put p a => simp at hs
          | put_nullpacket i a => simp at hs
          | flush => simp at hs
          | start a => simp at hs
          | abort => simp at hs
        exact le_trans hstep (pqRun_serial_le sz (op :: ops) q)
      · exact ih _ (pqStep_serialOk sz q op h) s hs

/-- Lower bound on the listed serials and on the queue serial. -/
theorem getSerials_ge (sz : Int) (m : Int) (ops : List PQOp) (q : PacketQueue)
    (hq : m ≤ q.serial) (hn : ∀ n ∈ q.pkts, m ≤ n.serial) :
    ∀ s ∈ pqGetSerials sz q ops, m ≤ s := by
  induction ops generalizing q with
  | nil => intro s hs; simp [pqGetSerials] at hs
  | cons op ops ih =>
      have hput : ∀ (q0 : PacketQueue) (p : PacketRef) (a : Bool), m ≤ q0.serial →
          (∀ n ∈ q0.pkts, m ≤ n.serial) →
          ∀ n ∈ (packet_queue_put_private sz q0 p a).2.pkts, m ≤ n.serial := by
        intro q0 p a h0 h1 n
        unfold packet_queue_put_private
        split
        · exact h1 n
        · split
          · exact h1 n
          · intro hmem
            simp only [List.mem_append, List.mem_singleton] at hmem
            rcases hmem with hmem | hmem
            · exact h1 n hmem
            · subst hmem
              simp only
              split <;> omega
      intro s hs
      simp only [pqGetSerials, List.mem_append] at hs
      rcases hs with hs | hs
      · cases op with
        | get b =>
            obtain ⟨n, hmem, hser⟩ := get_reported_mem sz q b s hs
            rw [← hser]
            exact hn n hmem
        | put p a => simp at hs
        | put_nullpacket i a => simp at hs
        | flush => simp at hs
        | start a => simp at hs
        | abort => simp at hs
      · refine ih (pqStep sz q op) (le_trans hq (pqStep_serial_le sz q op)) ?_ s hs
        cases op with
        | put p a => exact hput q p a hq hn
        | put_nullpacket i a => exact hput q _ a hq hn
        | get b =>
            intro n hmem
            simp only [pqStep, packet_queue_get] at hmem
            split at hmem
            · exact hn n hmem
            · split at hmem
              · rename_i pkt1 rest heq
                exact hn n (by rw [heq]; exact List.mem_cons_of_mem _ hmem)
              · split at hmem <;> exact hn n hmem
        | flush => intro n hmem; simp [pqStep, packet_queue_flush] at hmem
        | start a => exact hput { q with abort_request := false } _ a hq hn
        | abort => exact hn

/-- C2. Epoch separation: when a run from `packet_queue_init` is followed by
`packet_queue_flush` and then a put of the flush marker that returns 0, every serial reported by a
successful get of any later run is strictly greater than every serial reported by a successful get
before the flush. -/
theorem epoch_separation (sz : Int) (ops1 ops2 : List PQOp) (alloc_ok : Bool)
    (hput : (packet_queue_put sz (packet_queue_flush (pqRun sz packet_queue_init ops1))
              PacketRef.flush_ref alloc_ok).1 = 0)
    (s1 s2 : Int)
    (h1 : s1 ∈ pqGetSerials sz packet_queue_init ops1)
    (h2 : s2 ∈ pqGetSerials sz
            (packet_queue_put sz (packet_queue_flush (pqRun sz packet_queue_init ops1))
              PacketRef.flush_ref alloc_ok).2 ops2) :
    s1 < s2 := by
  have hle := getSerials_le sz ops1 packet_queue_init pqSerialOk_init s1 h1
  have hge : (pqRun sz packet_queue_init ops1).serial + 1 ≤ s2 := by
    refine getSerials_ge sz _ ops2 _ ?_ ?_ s2 h2
    · revert hput
      simp only [packet_queue_put, packet_queue_put_private, packet_queue_flush]
      split
      · simp
      · split
        · simp [AVERROR_ENOMEM]
        · simp [PacketRef.isFlush]
    · revert hput
      simp only [packet_queue_put, packet_queue_put_private, packet_queue_flush]
      split
      · simp
      · split
        · simp [AVERROR_ENOMEM]
        · simp [PacketRef.isFlush]
  omega

/-- Witness for C2: the gets before the seek report serial 1, those after it serial 2. -/
theorem epoch_separation_witness :
    pqGetSerials 104 packet_queue_init opsBeforeSeek = [1, 1] ∧
    pqGetSerials 104
      (packet_queue_put 104 (packet_queue_flush (pqRun 104 packet_queue_init opsBeforeSeek))
        PacketRef.flush_ref true).2 opsAfterSeek = [2, 2] ∧
    (1 : Int) < 2 :=
  ⟨by decide, by decide,
    epoch_separation 104 opsBeforeSeek opsAfterSeek true (by decide) 1 2 (by decide)
      (by decide)⟩

theorem put_private_serial_eq (sz : Int) (q : PacketQueue) (p : PacketRef) (a : Bool) :
    (packet_queue_put_private sz q p a).2.serial
      = q.serial + (if (p.isFlush && decide ((packet_queue_put_private sz q p a).1 = 0)) = true
          then 1 else 0) := by
  unfold packet_queue_put_private
  split
  · simp
  · split
    · simp [AVERROR_ENOMEM]
    · cases p <;> simp [PacketRef.isFlush]

theorem pqStep_serial_eq (sz : Int) (q : PacketQueue) (op : PQOp) :
    (pqStep sz q op).serial
      = q.serial + (if pqFlushInserted sz q op = true then 1 else 0) := by
  cases op with
  | put p a => exact put_private_serial_eq sz q p a
  | put_nullpacket i a =>
      have h := put_private_serial_eq sz q (PacketRef.other (null_packet i)) a
      simpa [PacketRef.isFlush, pqFlushInserted, pqStep, packet_queue_put_nullpacket,
        packet_queue_put] using h
  | get b => simp [pqStep, pqFlushInserted, get_serial_eq]
  | flush => simp [pqStep, pqFlushInserted, packet_queue_flush]
  | start a =>
      have h := put_private_serial_eq sz { q with abort_request := false } PacketRef.flush_ref a
      simpa [PacketRef.isFlush, pqFlushInserted, pqStep, packet_queue_start] using h
  | abort => simp [pqStep, pqFlushInserted, packet_queue_abort]

theorem put_private_pkts (sz : Int) (q : PacketQueue) (p : PacketRef) (a : Bool) :
    (packet_queue_put_private sz q p a).2.pkts
      = if (packet_queue_put_private sz q p a).1 = 0
          then q.pkts ++ [{ pkt := p.deref, serial := (packet_queue_put_private sz q p a).2.serial }]
          else q.pkts := by
  unfold packet_queue_put_private
  split
  · simp
  · split
    · simp [AVERROR_ENOMEM]
    · simp

/-- C3. Serial evolution: no call decreases `serial`; a call changes `serial` exactly when it
links the flush marker into the list (a put of `&flush_pkt` or a `packet_queue_start` whose insert
succeeds), and then by +1; a successful insert appends a node stamped with the serial the queue has
right after the insert; and in every state reachable from `packet_queue_init` the node serials do
not decrease from head to tail and none exceeds the queue serial. -/
theorem serial_evolution (sz : Int) (q : PacketQueue) (op : PQOp) (p : PacketRef) (a : Bool)
    (ops : List PQOp) :
    q.serial ≤ (pqStep sz q op).serial ∧
    (pqStep sz q op).serial = q.serial + (if pqFlushInserted sz q op = true then 1 else 0) ∧
    (packet_queue_put_private sz q p a).2.pkts
      = (if (packet_queue_put_private sz q p a).1 = 0
          then q.pkts ++ [{ pkt := p.deref, serial := (packet_queue_put_private sz q p a).2.serial }]
          else q.pkts) ∧
    List.Pairwise (fun x y : MyAVPacketList => x.serial ≤ y.serial)
      (pqRun sz packet_queue_init ops).pkts ∧
    (∀ n ∈ (pqRun sz packet_queue_init ops).pkts,
      n.serial ≤ (pqRun sz packet_queue_init ops).serial) :=
  ⟨pqStep_serial_le sz q op, pqStep_serial_eq sz q op, put_private_pkts sz q p a,
    (pqRun_serialOk sz ops packet_queue_init pqSerialOk_init).1,
    (pqRun_serialOk sz ops packet_queue_init pqSerialOk_init).2⟩

/-- C4. Abort rejection: while `abort_request` is set, `packet_queue_put` (any packet, the flush
marker included) and `packet_queue_get` (blocking or not, queue empty or not) return -1 and leave
the node list, `nb_packets`, `size` and `serial` as they are. -/
theorem abort_rejects (sz : Int) (q : PacketQueue) (h : q.abort_request = true)
    (p : PacketRef) (alloc_ok block : Bool) :
    packet_queue_put sz q p alloc_ok = (-1, q) ∧
    packet_queue_get sz q block = (GetOutcome.ret (-1) none, q) := by
  simp [packet_queue_put, packet_queue_put_private, packet_queue_get, h]

/-- Witness for C4: an aborted queue that still holds a node. -/
theorem abort_rejects_witness :
    packet_queue_put 104
        { pkts := [{ pkt := null_packet 0, serial := 1 }], nb_packets := 1, size := 104,
          serial := 1, abort_request := true } PacketRef.flush_ref true
      = (-1, { pkts := [{ pkt := null_packet 0, serial := 1 }], nb_packets := 1, size := 104,
               serial := 1, abort_request := true }) ∧
    packet_queue_get 104
        { pkts := [{ pkt := null_packet 0, serial := 1 }], nb_packets := 1, size := 104,
          serial := 1, abort_request := true } true
      = (GetOutcome.ret (-1) none,
          { pkts := [{ pkt := null_packet 0, serial := 1 }], nb_packets := 1, size := 104,
            serial := 1, abort_request := true }) :=
  abort_rejects 104 _ rfl PacketRef.flush_ref true true

/-! ### FIFO order -/

theorem put_abort_eq (sz : Int) (q : PacketQueue) (p : PacketRef) (a : Bool) :
    (packet_queue_put sz q p a).2.abort_request = q.abort_request := by
  unfold packet_queue_put packet_queue_put_private
  split
  · rfl
  · split <;> rfl

theorem put_ok_pkts (sz : Int) (q : PacketQueue) (p : PacketRef) (h : q.abort_request = false) :
    (packet_queue_put sz q p true).2.pkts
      = q.pkts ++ [{ pkt := p.deref, serial := (packet_queue_put sz q p true).2.serial }] := by
  simp [packet_queue_put, packet_queue_put_private, h]

theorem pqPutAll_pkts (sz : Int) (ps : List PacketRef) (q : PacketQueue)
    (h : q.abort_request = false) :
    (pqPutAll sz q ps).pkts
      = q.pkts ++ List.zipWith
          (fun p k => ({ pkt := p.deref,
                         serial := (pqPutAll sz q (ps.take (k + 1))).serial } : MyAVPacketList))
          ps (List.range ps.length) := by
  induction ps generalizing q with
  | nil => simp [pqPutAll]
  | cons p ps ih =>
      have h1 : (packet_queue_put sz q p true).2.abort_request = false := by
        rw [put_abort_eq]; exact h
      have hstep : ∀ l : List PacketRef,
          pqPutAll sz q (p :: l) = pqPutAll sz (packet_queue_put sz q p true).2 l := by
        intro l; rfl
      rw [hstep, ih _ h1, put_ok_pkts sz q p h, List.length_cons, List.range_succ_eq_map,
        List.zipWith_cons_cons, List.zipWith_map_right, List.append_assoc]
      simp only [List.take_succ_cons, hstep, List.take_zero, List.singleton_append,
        zero_add]
      rfl

theorem pqGetN_all (sz : Int) (block : Bool) (l : List MyAVPacketList) (q : PacketQueue)
    (h : q.abort_request = false) (hl : q.pkts = l) :
    (pqGetN sz block q l.length).1 = l.map (fun n => GetOutcome.ret 1 (some n)) ∧
    (pqGetN sz block q l.length).2.pkts = [] := by
  induction l generalizing q with
  | nil => simp [pqGetN, hl]
  | cons n rest ih =>
      have hg : packet_queue_get sz q block
          = (GetOutcome.ret 1 (some n),
              { q with pkts := rest, nb_packets := q.nb_packets - 1,
                       size := to_int (q.size - (n.pkt.size + sz)) }) := by
        simp [packet_queue_get, h, hl]
      have := ih { q with pkts := rest, nb_packets := q.nb_packets - 1,
                          size := to_int (q.size - (n.pkt.size + sz)) } h rfl
      simp only [List.length_cons, pqGetN, hg, List.map_cons]
      exact ⟨by rw [this.1], this.2⟩

/-- C5. FIFO delivery on a queue that is not aborted: a non-blocking get on an empty queue returns
0 and changes nothing; a get on a non-empty queue returns 1 with the packet and serial of the
oldest node and unlinks exactly that node; and after any sequence of successful puts on an empty
queue, as many gets return, in put order, each packet together with the serial the queue had right
after that packet was put, leaving the list empty. -/
theorem fifo_delivery (sz : Int) (q : PacketQueue) (h : q.abort_request = false)
    (block : Bool) (ps : List PacketRef) :
    (q.pkts = [] → packet_queue_get sz q false = (GetOutcome.ret 0 none, q)) ∧
    (∀ n rest, q.pkts = n :: rest →
      packet_queue_get sz q block
        = (GetOutcome.ret 1 (some n),
            { q with pkts := rest, nb_packets := q.nb_packets - 1,
                     size := to_int (q.size - (n.pkt.size + sz)) })) ∧
    (q.pkts = [] →
      (pqGetN sz block (pqPutAll sz q ps) ps.length).1
        = List.zipWith
            (fun p k => GetOutcome.ret 1
              (some { pkt := p.deref, serial := (pqPutAll sz q (ps.take (k + 1))).serial }))
            ps (List.range ps.length) ∧
      (pqGetN sz block (pqPutAll sz q ps) ps.length).2.pkts = []) := by
  refine ⟨?_, ?_, ?_⟩
  · intro he
    simp [packet_queue_get, h, he]
  · intro n rest he
    simp [packet_queue_get, h, he]
  · intro he
    have hp := pqPutAll_pkts sz ps q h
    rw [he, List.nil_append] at hp
    have hab : (pqPutAll sz q ps).abort_request = false := by
      clear hp he
      induction ps generalizing q with
      | nil => exact h
      | cons p ps ih => exact ih (packet_queue_put sz q p true).2 (by rw [put_abort_eq]; exact h)
    have hlen : ps.length = (pqPutAll sz q ps).pkts.length := by
      rw [hp]; simp
    have hg := pqGetN_all sz block _ (pqPutAll sz q ps) hab rfl
    rw [← hlen] at hg
    refine ⟨?_, hg.2⟩
    rw [hg.1, hp, List.map_zipWith]

/-- Witness for C5: a data packet, the flush marker and a null packet put on a started queue. -/
theorem fifo_delivery_witness :
    (pqGetN 104 true
        (pqPutAll 104 (packet_queue_flush (packet_queue_start 104 packet_queue_init true))
          [PacketRef.other { data := DataPtr.buf 7, size := 10, stream_index := 0, pts := 0,
                             dts := 0 },
           PacketRef.flush_ref, PacketRef.other (null_packet 0)]) 3).1
      = [GetOutcome.ret 1 (some { pkt := { data := DataPtr.buf 7, size := 10, stream_index := 0,
                                           pts := 0, dts := 0 }, serial := 1 }),
         GetOutcome.ret 1 (some { pkt := flush_pkt, serial := 2 }),
         GetOutcome.ret 1 (some { pkt := null_packet 0, serial := 2 })] :=
  ((fifo_delivery 104 (packet_queue_flush (packet_queue_start 104 packet_queue_init true)) rfl true
      [PacketRef.other { data := DataPtr.buf 7, size := 10, stream_index := 0, pts := 0,
                         dts := 0 },
       PacketRef.flush_ref, PacketRef.other (null_packet 0)]).2.2 rfl).1.trans (by decide)

/-- C6. `packet_queue_flush` drops every queued node: afterwards the list is empty, `nb_packets`
and `size` are 0, `serial` and `abort_request` are as before; a following non-blocking get returns
0 on a queue that is not aborted (and -1 on an aborted one) and changes nothing. -/
theorem flush_drops_all (sz : Int) (q : PacketQueue) :
    packet_queue_flush q
      = { pkts := [], nb_packets := 0, size := 0, serial := q.serial,
          abort_request := q.abort_request } ∧
    packet_queue_get sz (packet_queue_flush q) false
      = (GetOutcome.ret (if q.abort_request = true then -1 else 0) none, packet_queue_flush q) := by
  constructor
  · rfl
  · cases hq : q.abort_request <;> simp [packet_queue_get, packet_queue_flush, hq]

/-! ## Theorems: Frame Queue -/

theorem tmod_wrap (a N : Int) (h0 : 0 ≤ a) (h1 : a < 2 * N) :
    Int.tmod a N = if a < N then a else a - N := by
  have hN : 0 ≤ N := by omega
  rw [Int.tmod_eq_emod h0 hN]
  split
  · rename_i h
    exact Int.emod_eq_of_lt h0 h
  · rename_i h
    have h2 : a = (a - N) + N := by omega
    have h3 : (a - N + N) % N = (a - N) % N := Int.add_emod_self
    rw [h2, h3, Int.emod_eq_of_lt (by omega) (by omega)]
    omega

theorem fqInv_start (cap : Nat) (N keep : Int) (hN : 1 ≤ N) : FQInv N (fqStart cap N keep) := by
  unfold FQInv
  dsimp only [fqStart, frame_queue_init]
  refine ⟨rfl, Or.inl rfl, by omega, by omega, by omega, by omega, by omega, by omega,
    Or.inl ⟨by omega, by omega⟩, ?_, ?_⟩
  · intro i hi; simp at hi
  · intro hi; simp at hi

theorem fqInv_step (sz N : Int) (s t : FQSys) (e : FQEvent)
    (h : FQInv N s) (hst : fqStep sz s e = some t) : FQInv N t := by
  obtain ⟨hm, hsh, h1, h2, h3, h4, h5, h6, h7, hw, hr⟩ := h
  cases e with
  | peek_writable =>
      simp only [fqStep] at hst
      split at hst
      · rename_i i hpw
        simp only [Option.some.injEq] at hst
        subst hst
        refine ⟨hm, hsh, h1, h2, h3, h4, h5, h6, h7, ?_, hr⟩
        intro j hj
        simp only [Option.some.injEq] at hj
        subst hj
        unfold frame_queue_peek_writable at hpw
        split at hpw
        · simp at hpw
        · split at hpw
          · simp at hpw
          · rename_i hc ha
            simp only [PeekOutcome.slot.injEq] at hpw
            simp only [Bool.not_eq_true] at ha
            refine ⟨hpw.symm, ?_⟩
            by_contra hge
            dsimp only at hge
            exact hc ⟨by omega, ha⟩
      · simp only [Option.some.injEq] at hst
        subst hst
        exact ⟨hm, hsh, h1, h2, h3, h4, h5, h6, h7, hw, hr⟩
  | write fr =>
      simp only [fqStep] at hst
      split at hst
      · simp only [Option.some.injEq] at hst
        subst hst
        exact ⟨hm, hsh, h1, h2, h3, h4, h5, h6, h7, hw, hr⟩
      · simp at hst
  | push =>
      simp only [fqStep] at hst
      split at hst
      · rename_i i hi
        simp only [Option.some.injEq] at hst
        subst hst
        have hlt := (hw i hi).2
        simp only [FQInv, frame_queue_push]
        refine ⟨hm, hsh, by omega, by omega, h3, h4, ?_, ?_, ?_, ?_, ?_⟩
        · split <;> omega
        · split <;> omega
        · split <;> omega
        · intro j hj; simp at hj
        · intro hj; have := hr hj; omega
      · simp at hst
  | peek_readable =>
      simp only [fqStep] at hst
      split at hst
      · rename_i i hpr
        simp only [Option.some.injEq] at hst
        subst hst
        refine ⟨hm, hsh, h1, h2, h3, h4, h5, h6, h7, hw, ?_⟩
        intro _
        unfold frame_queue_peek_readable at hpr
        split at hpr
        · simp at hpr
        · split at hpr
          · simp at hpr
          · rename_i hc ha
            simp only [Bool.not_eq_true] at ha
            by_contra hge
            dsimp only at hge
            exact hc ⟨by omega, ha⟩
      · simp only [Option.some.injEq] at hst
        subst hst
        exact ⟨hm, hsh, h1, h2, h3, h4, h5, h6, h7, hw, hr⟩
  | next =>
      simp only [fqStep] at hst
      split at hst
      · rename_i i hi
        simp only [Option.some.injEq] at hst
        subst hst
        have hpos := hr (by rw [hi]; rfl)
        simp only [FQInv, frame_queue_next]
        split
        · rename_i hk
          refine ⟨hm, Or.inr rfl, by simp only; omega, h2, h3, h4, h5, h6, h7, hw, ?_⟩
          intro hj; simp at hj
        · refine ⟨hm, hsh, by simp only; omega, by simp only; omega, ?_, ?_, h5, h6, ?_, ?_, ?_⟩
          · simp only; split <;> omega
          · simp only; split <;> omega
          · simp only; split <;> omega
          · intro j hj
            have := hw j hj
            simp only
            exact ⟨this.1, by omega⟩
          · intro hj; simp at hj
      · simp at hst
  | pktq op =>
      simp only [fqStep, Option.some.injEq] at hst
      subst hst
      exact ⟨hm, hsh, h1, h2, h3, h4, h5, h6, h7, hw, hr⟩

theorem fqInv_run (sz N : Int) (evs : List FQEvent) (s t : FQSys)
    (h : FQInv N s) (hst : fqRun sz s evs = some t) : FQInv N t := by
  induction evs generalizing s with
  | nil =>
      simp only [fqRun, Option.some.injEq] at hst
      subst hst
      exact h
  | cons e es ih =>
      simp only [fqRun] at hst
      split at hst
      · rename_i u hu
        exact ih u (fqInv_step sz N s u e h hu) hst
      · simp at hst

/-- C7. Frame Queue occupancy bound: on a queue initialised with `max_size = N ≥ 1`, in every state
reached while the producer pushes only after `frame_queue_peek_writable` gave it a slot and the
consumer calls `frame_queue_next` only after `frame_queue_peek_readable` gave it a slot,
`0 ≤ rindex_shown ≤ size ≤ N`, so at most `N` slots are occupied and
`frame_queue_nb_remaining` is not negative. -/
theorem frame_queue_occupancy (sz : Int) (cap : Nat) (N keep : Int) (hN : 1 ≤ N)
    (evs : List FQEvent) (s : FQSys)
    (hrun : fqRun sz (fqStart cap N keep) evs = some s) :
    s.f.max_size = N ∧ 0 ≤ s.f.rindex_shown ∧ s.f.rindex_shown ≤ s.f.size ∧ s.f.size ≤ N ∧
    0 ≤ frame_queue_nb_remaining s.f := by
  obtain ⟨hm, hsh, h1, h2, _⟩ := fqInv_run sz N evs _ s (fqInv_start cap N keep hN) hrun
  refine ⟨hm, ?_, h1, h2, ?_⟩
  · rcases hsh with h | h <;> omega
  · unfold frame_queue_nb_remaining
    omega

/-- Witness for C7: the full keep-last queue of three slots. -/
theorem frame_queue_occupancy_witness :
    fqFull3.f.max_size = 3 ∧ 0 ≤ fqFull3.f.rindex_shown ∧
    fqFull3.f.rindex_shown ≤ fqFull3.f.size ∧ fqFull3.f.size ≤ 3 ∧
    0 ≤ frame_queue_nb_remaining fqFull3.f :=
  frame_queue_occupancy 104 16 3 1 (by decide) fillThree fqFull3 (by decide)

/-- C8, as stated, fails: on the full keep-last queue `fqFull3`, reached under the protocol and
not aborted, `frame_queue_peek_writable` blocks, and after one `frame_queue_next` it still
blocks. -/
theorem writer_unblock_counterexample :
    fqRun 104 (fqStart 16 3 1) fillThree = some fqFull3 ∧
    fqFull3.pktq.abort_request = false ∧
    fqFull3.rslot = some 0 ∧
    frame_queue_peek_writable fqFull3.f fqFull3.pktq = PeekOutcome.waits ∧
    frame_queue_peek_writable (frame_queue_next fqFull3.f) fqFull3.pktq = PeekOutcome.waits := by
  decide

/-- C8, amended. On a queue that is not aborted and holds at most `max_size = N` frames,
`frame_queue_peek_writable` blocks exactly when `size = N`.  From a state in which it blocks, one
`frame_queue_next` call unblocks it when `keep_last` is off or the hold flag `rindex_shown` is
already set; when `keep_last` is on and `rindex_shown` is 0 that call only sets the hold flag, the
writer still blocks, and the `frame_queue_next` call after it unblocks the writer. -/
theorem writer_blocking (f : FrameQueue) (pktq : PacketQueue)
    (ha : pktq.abort_request = false) (hs : f.size ≤ f.max_size) :
    (frame_queue_peek_writable f pktq = PeekOutcome.waits ↔ f.size = f.max_size) ∧
    (frame_queue_peek_writable f pktq = PeekOutcome.waits →
      (f.keep_last = 0 ∨ f.rindex_shown ≠ 0) →
      frame_queue_peek_writable (frame_queue_next f) pktq
        = PeekOutcome.slot (frame_queue_next f).windex) ∧
    (frame_queue_peek_writable f pktq = PeekOutcome.waits →
      f.keep_last ≠ 0 → f.rindex_shown = 0 →
      frame_queue_peek_writable (frame_queue_next f) pktq = PeekOutcome.waits ∧
      frame_queue_peek_writable (frame_queue_next (frame_queue_next f)) pktq
        = PeekOutcome.slot (frame_queue_next (frame_queue_next f)).windex) := by
  have hiff : ∀ g : FrameQueue,
      (frame_queue_peek_writable g pktq = PeekOutcome.waits ↔ g.max_size ≤ g.size) := by
    intro g
    unfold frame_queue_peek_writable
    simp only [ha, and_true, ge_iff_le]
    split
    · rename_i h; simp [h]
    · rename_i h; simp [h]
  have hslot : ∀ g : FrameQueue, g.size < g.max_size →
      frame_queue_peek_writable g pktq = PeekOutcome.slot g.windex := by
    intro g hg
    unfold frame_queue_peek_writable
    simp only [ha, and_true, ge_iff_le]
    rw [if_neg (by omega)]
    simp
  refine ⟨?_, ?_, ?_⟩
  · rw [hiff]; omega
  · intro hb hk
    rw [hiff] at hb
    apply hslot
    unfold frame_queue_next
    rw [if_neg (by intro hc; rcases hk with hk | hk; exact hc.1 hk; exact hk hc.2)]
    simp only
    omega
  · intro hb hk h0
    rw [hiff] at hb
    have hn : frame_queue_next f = { f with rindex_shown := 1 } := by
      unfold frame_queue_next
      rw [if_pos ⟨hk, h0⟩]
    constructor
    · rw [hiff, hn]
      exact hb
    · apply hslot
      rw [hn]
      unfold frame_queue_next
      simp only
      rw [if_neg (by simp)]
      simp only
      omega

/-- Witness for C8 amended: the full keep-last queue of three slots. -/
theorem writer_blocking_witness :
    frame_queue_peek_writable (frame_queue_next fqFull3.f) fqFull3.pktq = PeekOutcome.waits ∧
    frame_queue_peek_writable (frame_queue_next (frame_queue_next fqFull3.f)) fqFull3.pktq
      = PeekOutcome.slot (frame_queue_next (frame_queue_next fqFull3.f)).windex :=
  (writer_blocking fqFull3.f fqFull3.pktq rfl (by decide)).2.2 (by decide) (by decide) rfl

/-- C9. `frame_queue_next` with keep-last: when `keep_last` is set and the hold flag
`rindex_shown` is 0 the call only sets `rindex_shown` to 1 (size, rindex, windex and the slots stay
as they are); in every other case it advances `rindex` by one modulo `max_size` and decrements
`size` by 1, leaving `rindex_shown` and `windex` as they are.  So on a keep-last queue with the
hold flag clear the first call keeps `size` and the second decrements it. -/
theorem frame_queue_next_keep_last (f : FrameQueue)
    (hr : 0 ≤ f.rindex ∧ f.rindex < f.max_size) :
    (f.keep_last ≠ 0 ∧ f.rindex_shown = 0 →
      frame_queue_next f = { f with rindex_shown := 1 }) ∧
    (¬ (f.keep_last ≠ 0 ∧ f.rindex_shown = 0) →
      (frame_queue_next f).rindex = Int.tmod (f.rindex + 1) f.max_size ∧
      (frame_queue_next f).size = f.size - 1 ∧
      (frame_queue_next f).rindex_shown = f.rindex_shown ∧
      (frame_queue_next f).windex = f.windex ∧
      (frame_queue_next f).max_size = f.max_size ∧
      (frame_queue_next f).keep_last = f.keep_last) ∧
    (f.keep_last ≠ 0 → f.rindex_shown = 0 →
      (frame_queue_next f).size = f.size ∧
      (frame_queue_next (frame_queue_next f)).size = f.size - 1) := by
  refine ⟨?_, ?_, ?_⟩
  · intro hc
    unfold frame_queue_next
    rw [if_pos hc]
  · intro hc
    unfold frame_queue_next
    rw [if_neg hc]
    refine ⟨?_, rfl, rfl, rfl, rfl, rfl⟩
    simp only
    rw [tmod_wrap (f.rindex + 1) f.max_size (by omega) (by omega)]
    split <;> split <;> omega
  · intro hk h0
    have hn : frame_queue_next f = { f with rindex_shown := 1 } := by
      unfold frame_queue_next
      rw [if_pos ⟨hk, h0⟩]
    rw [hn]
    refine ⟨rfl, ?_⟩
    unfold frame_queue_next
    simp

/-- Witness for C9: on the full keep-last queue the first call keeps `size`, the second drops it
to 2. -/
theorem frame_queue_next_keep_last_witness :
    (frame_queue_next fqFull3.f).size = fqFull3.f.size ∧
    (frame_queue_next (frame_queue_next fqFull3.f)).size = fqFull3.f.size - 1 :=
  (frame_queue_next_keep_last fqFull3.f (by decide)).2.2 (by decide) rfl

/-- C10. No overwrite before release: in every state reached under the protocol on a queue with
`max_size = N ≥ 1`, `rindex` and `windex` lie in `[0, N)` and `windex = (rindex + size) mod N`;
whenever `frame_queue_peek_writable` returns a slot, and for as long as the producer holds it, that
slot is `windex` and differs from every occupied slot `(rindex + k) mod N`, `0 ≤ k < size`, the
held last-shown slot `rindex` included. -/
theorem no_overwrite_before_release (sz : Int) (cap : Nat) (N keep : Int) (hN : 1 ≤ N)
    (evs : List FQEvent) (s : FQSys)
    (hrun : fqRun sz (fqStart cap N keep) evs = some s) :
    0 ≤ s.f.rindex ∧ s.f.rindex < s.f.max_size ∧
    0 ≤ s.f.windex ∧ s.f.windex < s.f.max_size ∧
    s.f.windex = Int.tmod (s.f.rindex + s.f.size) s.f.max_size ∧
    (∀ i, frame_queue_peek_writable s.f s.pktq = PeekOutcome.slot i →
      s.f.size < s.f.max_size ∧ i = s.f.windex ∧
      ∀ k, 0 ≤ k → k < s.f.size → i ≠ Int.tmod (s.f.rindex + k) s.f.max_size) ∧
    (∀ i, s.wslot = some i →
      i = s.f.windex ∧
      ∀ k, 0 ≤ k → k < s.f.size → i ≠ Int.tmod (s.f.rindex + k) s.f.max_size) := by
  obtain ⟨hm, hsh, h1, h2, h3, h4, h5, h6, h7, hw, _⟩ :=
    fqInv_run sz N evs _ s (fqInv_start cap N keep hN) hrun
  have h0 : 0 ≤ s.f.size := by rcases hsh with h | h <;> omega
  have hfree : s.f.size < N →
      ∀ k, 0 ≤ k → k < s.f.size → s.f.windex ≠ Int.tmod (s.f.rindex + k) N := by
    intro hlt k hk0 hk
    rw [tmod_wrap (s.f.rindex + k) N (by omega) (by omega)]
    split <;> omega
  rw [hm]
  refine ⟨h3, h4, h5, h6, ?_, ?_, ?_⟩
  · rw [tmod_wrap (s.f.rindex + s.f.size) N (by omega) (by omega)]
    split <;> omega
  · intro i hi
    unfold frame_queue_peek_writable at hi
    split at hi
    · simp at hi
    · split at hi
      · simp at hi
      · rename_i hc ha
        simp only [PeekOutcome.slot.injEq] at hi
        simp only [Bool.not_eq_true] at ha
        have hlt : s.f.size < N := by
          by_contra hge
          exact hc ⟨by omega, ha⟩
        rw [← hi]
        exact ⟨hlt, rfl, hfree hlt⟩
  · intro i hi
    obtain ⟨hiw, hlt⟩ := hw i hi
    rw [hiw]
    exact ⟨rfl, hfree hlt⟩

/-- Witness for C10: two frames queued, the older on hold in slot 2, the free slot is 1. -/
theorem no_overwrite_before_release_witness :
    fqHeld3.f.windex = Int.tmod (fqHeld3.f.rindex + fqHeld3.f.size) fqHeld3.f.max_size ∧
    (∀ i, frame_queue_peek_writable fqHeld3.f fqHeld3.pktq = PeekOutcome.slot i →
      fqHeld3.f.size < fqHeld3.f.max_size ∧ i = fqHeld3.f.windex ∧
      ∀ k, 0 ≤ k → k < fqHeld3.f.size →
        i ≠ Int.tmod (fqHeld3.f.rindex + k) fqHeld3.f.max_size) :=
  ⟨(no_overwrite_before_release 104 16 3 1 (by decide) fillAndShow fqHeld3 (by decide)).2.2.2.2.1,
   (no_overwrite_before_release 104 16 3 1 (by decide) fillAndShow fqHeld3 (by decide)).2.2.2.2.2.1⟩

/-! ### Peeks -/

theorem slotAt_slotModify_ne (g : Frame → Frame) (l : List Frame) (i k : Int) (h : k ≠ i) :
    slotAt (slotModify g l i) k = slotAt l k := by
  unfold slotAt slotModify
  by_cases hk : 0 ≤ k
  · rw [if_pos hk, if_pos hk]
    by_cases hi : 0 ≤ i
    · rw [if_pos hi]
      split
      · rw [List.getD_eq_getElem?_getD, List.getD_eq_getElem?_getD,
          List.getElem?_set_ne (by omega)]
      · rfl
    · rw [if_neg hi]
  · rw [if_neg hk, if_neg hk]

theorem slotAt_slotModify_self (g : Frame → Frame) (l : List Frame) (i : Int)
    (h0 : 0 ≤ i) (h1 : i < l.length) :
    slotAt (slotModify g l i) i = g (slotAt l i) := by
  have hlt : i.toNat < l.length := by omega
  unfold slotAt slotModify
  rw [if_pos h0, if_pos h0, List.getElem?_eq_getElem hlt]
  simp only [List.getD_eq_getElem?_getD]
  rw [List.getElem?_set_self hlt, List.getElem?_eq_getElem hlt, if_pos h0]
  rfl

theorem length_slotModify (g : Frame → Frame) (l : List Frame) (i : Int) :
    (slotModify g l i).length = l.length := by
  unfold slotModify
  split
  · split
    · exact List.length_set _ _ _
    · rfl
  · rfl

theorem tmod_step (a b N : Int) (ha : 0 ≤ a) (hb : 0 ≤ b) :
    Int.tmod ((if a + 1 = N then 0 else a + 1) + b) N = Int.tmod (a + b + 1) N := by
  split
  · rename_i h
    rw [Int.tmod_eq_emod (by omega) (by omega), Int.tmod_eq_emod (by omega) (by omega)]
    have : a + b + 1 = N + b := by omega
    rw [this, Int.add_emod_self_left, zero_add]
  · congr 1
    omega

/-- C12. Keep-last hold: on a queue with `keep_last` set, in range (`0 ≤ rindex < max_size`,
`rindex_shown` 0 or 1, `size ≤ max_size`) and with an undisplayed frame
(`size - rindex_shown > 0`), after `frame_queue_next` the slot of `frame_queue_peek_last` is the
slot `frame_queue_peek` gave before the call, and the content of that slot is as before (it was
not unreferenced).  In either mode the slot of `frame_queue_peek` after the call is the slot
`frame_queue_peek_next` gave before it. -/
theorem keep_last_hold (f : FrameQueue)
    (hr : 0 ≤ f.rindex ∧ f.rindex < f.max_size)
    (hsh : f.rindex_shown = 0 ∨ f.rindex_shown = 1)
    (hsz : f.size ≤ f.max_size) :
    (f.keep_last ≠ 0 → 0 < f.size - f.rindex_shown →
      frame_queue_peek_last (frame_queue_next f) = frame_queue_peek f ∧
      slotAt (frame_queue_next f).queue (frame_queue_peek f)
        = slotAt f.queue (frame_queue_peek f)) ∧
    frame_queue_peek (frame_queue_next f) = frame_queue_peek_next f := by
  obtain ⟨hr0, hr1⟩ := hr
  have hpk : frame_queue_peek f = wrapIdx (f.rindex + f.rindex_shown) f.max_size := by
    unfold frame_queue_peek wrapIdx
    exact tmod_wrap _ _ (by rcases hsh with h | h <;> omega) (by rcases hsh with h | h <;> omega)
  constructor
  · intro hk hpos
    rw [hpk]
    unfold frame_queue_next
    split
    · rename_i hc
      refine ⟨?_, rfl⟩
      simp only [frame_queue_peek_last, wrapIdx, hc.2]
      split <;> omega
    · rename_i hc
      have h1 : f.rindex_shown = 1 := by
        rcases hsh with h | h
        · exact absurd ⟨hk, h⟩ hc
        · exact h
      constructor
      · simp only [frame_queue_peek_last, wrapIdx, h1]
        split <;> split <;> omega
      · simp only [h1]
        apply slotAt_slotModify_ne
        unfold wrapIdx
        split <;> omega
  · unfold frame_queue_next
    split
    · rename_i hc
      simp only [frame_queue_peek, frame_queue_peek_next, hc.2, add_zero]
    · simp only [frame_queue_peek, frame_queue_peek_next]
      exact tmod_step f.rindex f.rindex_shown f.max_size hr0
        (by rcases hsh with h | h <;> omega)

/-- Witness for C12: two frames queued, the older on hold; the call releases slot 2 and holds
slot 0, which keeps its content. -/
theorem keep_last_hold_witness :
    frame_queue_peek_last (frame_queue_next fqHeld3.f) = frame_queue_peek fqHeld3.f ∧
    slotAt (frame_queue_next fqHeld3.f).queue (frame_queue_peek fqHeld3.f)
      = slotAt fqHeld3.f.queue (frame_queue_peek fqHeld3.f) :=
  (keep_last_hold fqHeld3.f (by decide) (by decide) (by decide)).1 (by decide) (by decide)

/-- C13. Abort seen through the back-reference: while the Packet Queue's `abort_request` is set,
`frame_queue_peek_writable` and `frame_queue_peek_readable` return null and do not block, whatever
`size` is; while it is clear, a call that does not block returns the slot `windex`, respectively
the slot `(rindex + rindex_shown) % max_size`; and neither call changes a field of the Frame Queue
or of the Packet Queue. -/
theorem abort_seen_by_frame_queue (sz : Int) (s : FQSys) :
    (s.pktq.abort_request = true →
      frame_queue_peek_writable s.f s.pktq = PeekOutcome.null ∧
      frame_queue_peek_readable s.f s.pktq = PeekOutcome.null) ∧
    (s.pktq.abort_request = false →
      (frame_queue_peek_writable s.f s.pktq ≠ PeekOutcome.waits →
        frame_queue_peek_writable s.f s.pktq = PeekOutcome.slot s.f.windex) ∧
      (frame_queue_peek_readable s.f s.pktq ≠ PeekOutcome.waits →
        frame_queue_peek_readable s.f s.pktq
          = PeekOutcome.slot (Int.tmod (s.f.rindex + s.f.rindex_shown) s.f.max_size))) ∧
    (∀ t, fqStep sz s FQEvent.peek_writable = some t → t.f = s.f ∧ t.pktq = s.pktq) ∧
    (∀ t, fqStep sz s FQEvent.peek_readable = some t → t.f = s.f ∧ t.pktq = s.pktq) := by
  refine ⟨?_, ?_, ?_, ?_⟩
  · intro ha
    simp [frame_queue_peek_writable, frame_queue_peek_readable, ha]
  · intro ha
    constructor
    · unfold frame_queue_peek_writable
      simp only [ha, and_true]
      split <;> simp
    · unfold frame_queue_peek_readable
      simp only [ha, and_true]
      split <;> simp
  · intro t ht
    simp only [fqStep] at ht
    split at ht <;> (simp only [Option.some.injEq] at ht; subst ht; exact ⟨rfl, rfl⟩)
  · intro t ht
    simp only [fqStep] at ht
    split at ht <;> (simp only [Option.some.injEq] at ht; subst ht; exact ⟨rfl, rfl⟩)

/-- Witness for C13: the full queue `fqFull3` once its Packet Queue is aborted. -/
theorem abort_seen_by_frame_queue_witness :
    frame_queue_peek_writable fqFull3.f (packet_queue_abort fqFull3.pktq) = PeekOutcome.null ∧
    frame_queue_peek_readable fqFull3.f (packet_queue_abort fqFull3.pktq) = PeekOutcome.null :=
  (abort_seen_by_frame_queue 104
    { fqFull3 with pktq := packet_queue_abort fqFull3.pktq }).1 rfl

/-! ### Order of frames -/

theorem unreadFrames_push (f : FrameQueue) (w : Int) (h : 0 ≤ f.size - f.rindex_shown) :
    unreadFrames { f with windex := w, size := f.size + 1 }
      = unreadFrames f ++ [slotAt f.queue (wrapIdx (f.rindex + f.size) f.max_size)] := by
  unfold unreadFrames
  simp only
  have hn : (f.size + 1 - f.rindex_shown).toNat = (f.size - f.rindex_shown).toNat + 1 := by
    omega
  have hc : f.rindex + f.rindex_shown + ((f.size - f.rindex_shown).toNat : Int)
      = f.rindex + f.size := by omega
  rw [hn, List.range_succ, List.map_append, List.map_singleton, hc]

theorem unreadFrames_head (f : FrameQueue) (h : 0 < f.size - f.rindex_shown) :
    unreadFrames f
      = slotAt f.queue (wrapIdx (f.rindex + f.rindex_shown) f.max_size) ::
          (List.range ((f.size - f.rindex_shown).toNat - 1)).map
            (fun (j : Nat) => slotAt f.queue
              (wrapIdx (f.rindex + f.rindex_shown + ((j : Int) + 1)) f.max_size)) := by
  unfold unreadFrames
  obtain ⟨m, hm⟩ : ∃ m, (f.size - f.rindex_shown).toNat = m + 1 :=
    ⟨(f.size - f.rindex_shown).toNat - 1, by omega⟩
  rw [hm, List.range_succ_eq_map, List.map_cons, List.map_map]
  simp only [Nat.add_sub_cancel, Nat.cast_zero, add_zero]
  congr 1

theorem unreadFrames_queue_congr (f : FrameQueue) (q : List Frame)
    (h : ∀ j : Nat, (j : Int) < f.size - f.rindex_shown →
      slotAt q (wrapIdx (f.rindex + f.rindex_shown + (j : Int)) f.max_size)
        = slotAt f.queue (wrapIdx (f.rindex + f.rindex_shown + (j : Int)) f.max_size)) :
    unreadFrames { f with queue := q } = unreadFrames f := by
  unfold unreadFrames
  simp only
  apply List.map_congr_left
  intro j hj
  rw [List.mem_range] at hj
  exact h j (by omega)

theorem fqTraceInv_start (cap : Nat) (N keep : Int) (hN : 1 ≤ N) :
    FQTraceInv N (fqTraceStart cap N keep) := by
  refine ⟨fqInv_start cap N keep hN, ?_, ?_⟩
  · intro i hi
    simp [fqTraceStart, fqStart] at hi
  · simp [fqTraceStart, fqStart, frame_queue_init, unreadFrames]

theorem fqTraceInv_step (sz N : Int) (t u : FQTrace) (e : FQEvent)
    (h : FQTraceInv N t) (hst : fqTraceStep sz t e = some u) : FQTraceInv N u := by
  obtain ⟨hinv, hrs, hlog⟩ := h
  unfold fqTraceStep at hst
  cases hs : fqStep sz t.sys e with
  | none => rw [hs] at hst; simp at hst
  | some s =>
    rw [hs] at hst
    simp only [Option.some.injEq] at hst
    subst hst
    have hinv2 := fqInv_step sz N t.sys s e hinv hs
    obtain ⟨hm, hsh, h1, h2, h3, h4, h5, h6, h7, hw, hr⟩ := hinv
    refine ⟨hinv2, ?_, ?_⟩
    · -- the slot held by the consumer
      cases e with
      | peek_writable =>
          simp only [fqStep] at hs
          split at hs <;> (simp only [Option.some.injEq] at hs; subst hs; exact hrs)
      | write fr =>
          simp only [fqStep] at hs
          split at hs
          · simp only [Option.some.injEq] at hs; subst hs; exact hrs
          · simp at hs
      | push =>
          simp only [fqStep] at hs
          split at hs
          · simp only [Option.some.injEq] at hs; subst hs; exact hrs
          · simp at hs
      | peek_readable =>
          simp only [fqStep] at hs
          split at hs
          · rename_i i hpr
            simp only [Option.some.injEq] at hs
            subst hs
            intro j hj
            simp only [Option.some.injEq] at hj
            subst hj
            unfold frame_queue_peek_readable at hpr
            split at hpr
            · simp at hpr
            · split at hpr
              · simp at hpr
              · simp only [PeekOutcome.slot.injEq] at hpr
                rw [← hpr, hm]
                unfold wrapIdx
                exact tmod_wrap _ _ (by rcases hsh with h | h <;> omega)
                  (by rcases hsh with h | h <;> omega)
          · simp only [Option.some.injEq] at hs; subst hs; exact hrs
      | next =>
          simp only [fqStep] at hs
          split at hs
          · simp only [Option.some.injEq] at hs
            subst hs
            intro j hj
            simp at hj
          · simp at hs
      | pktq op =>
          simp only [fqStep, Option.some.injEq] at hs
          subst hs
          exact hrs
    · -- the logs
      cases e with
      | peek_writable =>
          simp only [fqStep] at hs
          split at hs <;> (simp only [Option.some.injEq] at hs; subst hs; exact hlog)
      | write fr =>
          simp only [fqStep] at hs
          split at hs
          · rename_i i hi
            simp only [Option.some.injEq] at hs
            subst hs
            obtain ⟨hiw, hlt⟩ := hw i hi
            simp only
            rw [unreadFrames_queue_congr, hlog]
            intro j hj
            apply slotAt_slotModify_ne
            rw [hiw, hm]
            unfold wrapIdx
            split <;> rcases hsh with h | h <;> omega
          · simp at hs
      | push =>
          simp only [fqStep] at hs
          split at hs
          · rename_i i hi
            simp only [Option.some.injEq] at hs
            subst hs
            obtain ⟨hiw, hlt⟩ := hw i hi
            simp only [hi, frame_queue_push]
            rw [unreadFrames_push _ _ (by omega), hlog, List.append_assoc]
            congr 3
            rw [hiw, hm]
            congr 1
            unfold wrapIdx
            split <;> omega
          · simp at hs
      | peek_readable =>
          simp only [fqStep] at hs
          split at hs <;> (simp only [Option.some.injEq] at hs; subst hs; exact hlog)
      | next =>
          simp only [fqStep] at hs
          split at hs
          · rename_i i hi
            simp only [Option.some.injEq] at hs
            subst hs
            have hpos := hr (by rw [hi]; rfl)
            have hiv := hrs i hi
            simp only [hi]
            rw [hlog, unreadFrames_head _ hpos, List.append_assoc, List.singleton_append,
              hiv, hm]
            congr 2
            unfold frame_queue_next
            split
            · rename_i hc
              unfold unreadFrames
              simp only [hc.2, hm]
              have hn : (t.sys.f.size - 1).toNat = (t.sys.f.size - 0).toNat - 1 := by omega
              rw [hn]
              apply List.map_congr_left
              intro j _
              congr 2
              omega
            · unfold unreadFrames
              simp only [hm]
              have hn : (t.sys.f.size - 1 - t.sys.f.rindex_shown).toNat
                  = (t.sys.f.size - t.sys.f.rindex_shown).toNat - 1 := by omega
              rw [hn]
              apply List.map_congr_left
              intro j hj
              rw [List.mem_range] at hj
              have hidx : wrapIdx ((if t.sys.f.rindex + 1 = N then 0 else t.sys.f.rindex + 1)
                    + t.sys.f.rindex_shown + (j : Int)) N
                  = wrapIdx (t.sys.f.rindex + t.sys.f.rindex_shown + ((j : Int) + 1)) N := by
                unfold wrapIdx
                split <;> split <;> split <;> rcases hsh with h | h <;> omega
              rw [hidx]
              symm
              apply slotAt_slotModify_ne
              unfold wrapIdx
              split <;> rcases hsh with h | h <;> omega
          · simp at hs
      | pktq op =>
          simp only [fqStep, Option.some.injEq] at hs
          subst hs
          exact hlog

theorem fqTraceInv_run (sz N : Int) (evs : List FQEvent) (t u : FQTrace)
    (h : FQTraceInv N t) (hst : fqTraceRun sz t evs = some u) : FQTraceInv N u := by
  induction evs generalizing t with
  | nil =>
      simp only [fqTraceRun, Option.some.injEq] at hst
      subst hst
      exact h
  | cons e es ih =>
      simp only [fqTraceRun] at hst
      split at hst
      · rename_i v hv
        exact ih v (fqTraceInv_step sz N t v e h hv) hst
      · simp at hst

theorem fqStep_queue_length (sz : Int) (s t : FQSys) (e : FQEvent)
    (h : fqStep sz s e = some t) : t.f.queue.length = s.f.queue.length := by
  cases e with
  | peek_writable =>
      simp only [fqStep] at h
      split at h <;> (simp only [Option.some.injEq] at h; subst h; rfl)
  | write fr =>
      simp only [fqStep] at h
      split at h
      · simp only [Option.some.injEq] at h; subst h
        exact length_slotModify _ _ _
      · simp at h
  | push =>
      simp only [fqStep] at h
      split at h
      · simp only [Option.some.injEq] at h; subst h; rfl
      · simp at h
  | peek_readable =>
      simp only [fqStep] at h
      split at h <;> (simp only [Option.some.injEq] at h; subst h; rfl)
  | next =>
      simp only [fqStep] at h
      split at h
      · simp only [Option.some.injEq] at h; subst h
        simp only [frame_queue_next]
        split
        · rfl
        · exact length_slotModify _ _ _
      · simp at h
  | pktq op =>
      simp only [fqStep, Option.some.injEq] at h
      subst h
      rfl

theorem fqTraceStep_sys (sz : Int) (t u : FQTrace) (e : FQEvent)
    (h : fqTraceStep sz t e = some u) : fqStep sz t.sys e = some u.sys := by
  unfold fqTraceStep at h
  split at h
  · simp at h
  · rename_i s hs
    simp only [Option.some.injEq] at h
    subst h
    exact hs

theorem fqTraceRun_queue_length (sz : Int) (evs : List FQEvent) (t u : FQTrace)
    (h : fqTraceRun sz t evs = some u) : u.sys.f.queue.length = t.sys.f.queue.length := by
  induction evs generalizing t with
  | nil =>
      simp only [fqTraceRun, Option.some.injEq] at h
      subst h
      rfl
  | cons e es ih =>
      simp only [fqTraceRun] at h
      split at h
      · rename_i v hv
        rw [ih v h]
        exact fqStep_queue_length sz t.sys v.sys e (fqTraceStep_sys sz t v e hv)
      · simp at h

/-- C11. Frames leave the Frame Queue in the order they were pushed: on a queue with
`1 ≤ max_size = N ≤` array length, keep-last or not, along any interleaving in which the producer
writes and pushes only a slot it got from `frame_queue_peek_writable` and the consumer releases
only a slot it got from `frame_queue_peek_readable`, the content of the k-th slot the consumer
read is the content of the k-th slot the producer pushed; the frames pushed and not yet read are
`frame_queue_nb_remaining` many; and a frame written into the held slot and pushed is the next
entry of the push log. -/
theorem frames_in_decode_order (sz : Int) (cap : Nat) (N keep : Int)
    (hN : 1 ≤ N) (hcap : N ≤ cap) (evs : List FQEvent) (t : FQTrace)
    (hrun : fqTraceRun sz (fqTraceStart cap N keep) evs = some t) :
    t.read = t.pushed.take t.read.length ∧
    (∀ k, k < t.read.length → t.read[k]? = t.pushed[k]?) ∧
    t.pushed.length = t.read.length + (frame_queue_nb_remaining t.sys.f).toNat ∧
    (∀ fr u, fqTraceRun sz t [FQEvent.write fr, FQEvent.push] = some u →
      u.pushed = t.pushed ++ [fr]) := by
  obtain ⟨hinv, _, hlog⟩ :=
    fqTraceInv_run sz N evs _ t (fqTraceInv_start cap N keep hN) hrun
  have hlen : t.sys.f.queue.length = cap := by
    rw [fqTraceRun_queue_length sz evs _ t hrun]
    simp [fqTraceStart, fqStart, frame_queue_init]
  obtain ⟨hm, hsh, h1, h2, h3, h4, h5, h6, h7, hw, hr⟩ := hinv
  refine ⟨?_, ?_, ?_, ?_⟩
  · rw [hlog, List.take_left]
  · intro k hk
    rw [hlog, List.getElem?_append_left hk]
  · rw [hlog, List.length_append]
    simp [unreadFrames, frame_queue_nb_remaining]
  · intro fr u hu
    simp only [fqTraceRun, fqTraceStep, fqStep] at hu
    cases hws : t.sys.wslot with
    | none => simp [hws] at hu
    | some i =>
        obtain ⟨hiw, _⟩ := hw i hws
        simp only [hws, Option.some.injEq] at hu
        subst hu
        simp only
        rw [slotAt_slotModify_self _ _ _ (by omega) (by omega)]

/-- Witness for C11: three frames through a keep-last queue of two slots, the third written
into the slot the first one left. -/
theorem frames_in_decode_order_witness :
    threeFramesEnd.read = threeFramesEnd.pushed.take threeFramesEnd.read.length ∧
    threeFramesEnd.pushed = [mkFrame 1, mkFrame 2, mkFrame 3] ∧
    threeFramesEnd.read = [mkFrame 1, mkFrame 2, mkFrame 3] :=
  ⟨(frames_in_decode_order 104 16 2 1 (by decide) (by decide) threeFrames threeFramesEnd
      (by decide)).1, by decide, by decide⟩

/-! ## Theorems: Decoder -/

/-- The model of `av_rescale_q` maps a timestamp to itself when both time bases are `1/R`,
`R > 0`. -/
theorem av_rescale_q_same (a R : Int) (hR : 0 < R) :
    av_rescale_q a { num := 1, den := R } { num := 1, den := R } = a := by
  unfold av_rescale_q
  simp only [one_mul]
  have h0 : R / 2 / R = 0 := Int.ediv_eq_zero_of_lt (by omega) (by omega)
  have hmul : ∀ x : Int, (x * R + R / 2) / R = x := by
    intro x
    rw [add_comm, Int.add_mul_ediv_right _ _ (by omega), h0, zero_add]
  rw [if_neg (by omega)]
  split
  · exact hmul a
  · rw [hmul (-a)]
    omega

theorem decode_post_next_pts (ret : Int) (g : Bool) (d : Decoder) :
    (decode_post ret g d).next_pts = d.next_pts ∧
    (decode_post ret g d).next_pts_tb = d.next_pts_tb ∧
    (decode_post ret g d).pkt_serial = d.pkt_serial ∧
    (decode_post ret g d).codec_context = d.codec_context := by
  unfold decode_post
  split
  · exact ⟨rfl, rfl, rfl, rfl⟩
  · dsimp only
    split
    · exact ⟨rfl, rfl, rfl, rfl⟩
    · split <;> exact ⟨rfl, rfl, rfl, rfl⟩

theorem decStep_decode (lib : TimeLib) (sz : Int) (c : DecCall) (o : DecodeOut)
    (hpc : c.pc = DecPc.decode) :
    (decStep lib sz c o).frame = (decode_switch lib c o).2.frame ∧
    (decStep lib sz c o).calls = (decode_switch lib c o).2.calls ∧
    (decStep lib sz c o).q = (decode_switch lib c o).2.q ∧
    (decStep lib sz c o).got_frame = (decode_switch lib c o).2.got_frame ∧
    (decStep lib sz c o).time = (decode_switch lib c o).2.time ∧
    (decStep lib sz c o).md = (decode_switch lib c o).2.md ∧
    (decStep lib sz c o).d
      = (if (decode_switch lib c o).2.pc = DecPc.fault then (decode_switch lib c o).2.d
         else decode_post (decode_switch lib c o).1 (decode_switch lib c o).2.got_frame
                (decode_switch lib c o).2.d) := by
  unfold decStep
  simp only [hpc]
  split
  · exact ⟨rfl, rfl, rfl, rfl, rfl, rfl, rfl⟩
  · split <;> exact ⟨rfl, rfl, rfl, rfl, rfl, rfl, rfl⟩

theorem decode_switch_audio (lib : TimeLib) (c : DecCall) (o : DecodeOut)
    (haudio : c.d.codec_context.codec_type = AVMediaType.audio)
    (hgot : o.got_frame = true) :
    (decode_switch lib c o).2.frame = (decode_audio_pts lib c.d o.frame).1 ∧
    (decode_switch lib c o).2.d = (decode_audio_pts lib c.d o.frame).2 := by
  unfold decode_switch
  simp only [haudio, hgot, if_true]
  split <;> exact ⟨rfl, rfl⟩

theorem decStep_audio_pts (lib : TimeLib) (sz : Int) (c : DecCall) (o : DecodeOut)
    (hpc : c.pc = DecPc.decode)
    (haudio : c.d.codec_context.codec_type = AVMediaType.audio)
    (hgot : o.got_frame = true) :
    (decStep lib sz c o).frame = (decode_audio_pts lib c.d o.frame).1 ∧
    (decStep lib sz c o).d.next_pts = (decode_audio_pts lib c.d o.frame).2.next_pts ∧
    (decStep lib sz c o).d.next_pts_tb = (decode_audio_pts lib c.d o.frame).2.next_pts_tb := by
  obtain ⟨hf, _, _, _, _, _, hd⟩ := decStep_decode lib sz c o hpc
  obtain ⟨ha, hb⟩ := decode_switch_audio lib c o haudio hgot
  rw [hf, hd, ha, hb]
  refine ⟨rfl, ?_, ?_⟩
  · split
    · rfl
    · exact (decode_post_next_pts _ _ _).1
  · split
    · rfl
    · exact (decode_post_next_pts _ _ _).2.1

/-- C14. Predicted-timestamp extrapolation: when the engine gives an audio frame with sample
rate `R` and `S` samples whose own pts and packet pts are unknown, and the decoder predicts the
known pts `P` in time base `1/R` (rescaling from `1/R` to `1/R` leaves `P` as it is), the frame
gets pts `P` and the prediction becomes `P + S` in time base `1/R`. -/
theorem predicted_pts_extrapolation (lib : TimeLib) (sz : Int) (c : DecCall) (o : DecodeOut)
    (P R S : Int)
    (hpc : c.pc = DecPc.decode)
    (haudio : c.d.codec_context.codec_type = AVMediaType.audio)
    (hgot : o.got_frame = true)
    (hpts : o.frame.pts = AV_NOPTS_VALUE) (hpkt : o.frame.pkt_pts = AV_NOPTS_VALUE)
    (hR : o.frame.sample_rate = R) (hS : o.frame.nb_samples = S)
    (hP : c.d.next_pts = P) (hknown : P ≠ AV_NOPTS_VALUE)
    (htb : c.d.next_pts_tb = { num := 1, den := R })
    (hid : lib.av_rescale_q P { num := 1, den := R } { num := 1, den := R } = P) :
    (decStep lib sz c o).frame.pts = P ∧
    (decStep lib sz c o).d.next_pts = P + S ∧
    (decStep lib sz c o).d.next_pts_tb = { num := 1, den := R } := by
  obtain ⟨h1, h2, h3⟩ := decStep_audio_pts lib sz c o hpc haudio hgot
  rw [h1, h2, h3]
  unfold decode_audio_pts
  simp [hpts, hpkt, hP, htb, hR, hS, hknown, hid]

/-- Witness for C14: prediction 88200 at 44100 Hz and a frame of 1024 samples give pts 88200 and
the next prediction 89224. -/
theorem predicted_pts_extrapolation_witness :
    (decStep libav 104 audioCall { ret := 32, got_frame := true, frame := untimedFrame }).frame.pts
      = 88200 ∧
    (decStep libav 104 audioCall { ret := 32, got_frame := true, frame := untimedFrame }).d.next_pts
      = 88200 + 1024 ∧
    (decStep libav 104 audioCall
        { ret := 32, got_frame := true, frame := untimedFrame }).d.next_pts_tb
      = { num := 1, den := 44100 } :=
  predicted_pts_extrapolation libav 104 audioCall
    { ret := 32, got_frame := true, frame := untimedFrame } 88200 44100 1024
    rfl rfl rfl rfl rfl rfl rfl rfl (by decide) rfl (av_rescale_q_same 88200 44100 (by decide))

/-- C15. Audio timestamp priority: for a decoded audio frame, with `tb = 1/sample_rate`, the pts
becomes the frame's own pts rescaled from the codec time base to `tb` if that pts is known; else
the packet pts rescaled from the packet time base if known; else the predicted `next_pts` rescaled
from `next_pts_tb` if known; with all three unknown the pts stays unknown and `next_pts`,
`next_pts_tb` stay as they are.  Whenever the resulting pts is known, `next_pts` becomes
pts + `nb_samples` in time base `tb`.  The decode step of an audio decoder stores exactly this
frame and prediction. -/
theorem audio_pts_priority (lib : TimeLib) (sz : Int) (c : DecCall) (o : DecodeOut)
    (hpc : c.pc = DecPc.decode)
    (haudio : c.d.codec_context.codec_type = AVMediaType.audio)
    (hgot : o.got_frame = true) :
    (o.frame.pts ≠ AV_NOPTS_VALUE →
      (decStep lib sz c o).frame.pts
        = lib.av_rescale_q o.frame.pts c.d.codec_context.time_base
            { num := 1, den := o.frame.sample_rate }) ∧
    (o.frame.pts = AV_NOPTS_VALUE → o.frame.pkt_pts ≠ AV_NOPTS_VALUE →
      (decStep lib sz c o).frame.pts
        = lib.av_rescale_q o.frame.pkt_pts c.d.codec_context.pkt_timebase
            { num := 1, den := o.frame.sample_rate }) ∧
    (o.frame.pts = AV_NOPTS_VALUE → o.frame.pkt_pts = AV_NOPTS_VALUE →
      c.d.next_pts ≠ AV_NOPTS_VALUE →
      (decStep lib sz c o).frame.pts
        = lib.av_rescale_q c.d.next_pts c.d.next_pts_tb
            { num := 1, den := o.frame.sample_rate }) ∧
    (o.frame.pts = AV_NOPTS_VALUE → o.frame.pkt_pts = AV_NOPTS_VALUE →
      c.d.next_pts = AV_NOPTS_VALUE →
      (decStep lib sz c o).frame.pts = AV_NOPTS_VALUE ∧
      (decStep lib sz c o).d.next_pts = c.d.next_pts ∧
      (decStep lib sz c o).d.next_pts_tb = c.d.next_pts_tb) ∧
    ((decStep lib sz c o).frame.pts ≠ AV_NOPTS_VALUE →
      (decStep lib sz c o).d.next_pts = (decStep lib sz c o).frame.pts + o.frame.nb_samples ∧
      (decStep lib sz c o).d.next_pts_tb = { num := 1, den := o.frame.sample_rate }) ∧
    ((decStep lib sz c o).frame.pts = AV_NOPTS_VALUE →
      (decStep lib sz c o).d.next_pts = c.d.next_pts ∧
      (decStep lib sz c o).d.next_pts_tb = c.d.next_pts_tb) := by
  obtain ⟨h1, h2, h3⟩ := decStep_audio_pts lib sz c o hpc haudio hgot
  rw [h1, h2, h3]
  unfold decode_audio_pts
  refine ⟨?_, ?_, ?_, ?_, ?_, ?_⟩
  · intro ha
    simp [ha]
  · intro ha hb
    simp [ha, hb]
  · intro ha hb hc
    simp [ha, hb, hc]
  · intro ha hb hc
    simp [ha, hb, hc]
  · intro hk
    simp only at hk ⊢
    rw [if_pos hk]
    refine ⟨?_, rfl⟩
    simp only
    congr 1
    split
    · rfl
    · split
      · rfl
      · split <;> rfl
  · intro hk
    simp only at hk ⊢
    rw [if_neg (by simpa using hk)]
    simp

/-- Witness for C15: the frame and its packet carry no pts, so the prediction is used. -/
theorem audio_pts_priority_witness :
    (decStep libav 104 audioCall { ret := 32, got_frame := true, frame := untimedFrame }).frame.pts
      = libav.av_rescale_q audioCall.d.next_pts audioCall.d.next_pts_tb
          { num := 1, den := untimedFrame.sample_rate } :=
  (audio_pts_priority libav 104 audioCall
    { ret := 32, got_frame := true, frame := untimedFrame } rfl rfl rfl).2.2.1 rfl rfl
    (by decide)

/-- C16. Flush sentinel handling: when `packet_queue_get` hands the decoder the flush sentinel,
the step flushes the decode engine, sets `finished` to 0, resets `next_pts` / `next_pts_tb` to
`start_pts` / `start_pts_tb`, and stays in the fetch loop (its next action is another
`packet_queue_get`): it does not return and the sentinel is not passed to a decode call. -/
theorem flush_sentinel_handling (lib : TimeLib) (sz : Int) (c : DecCall) (o : DecodeOut)
    (n : MyAVPacketList) (q1 : PacketQueue)
    (hpc : c.pc = DecPc.fetch)
    (hget : packet_queue_get sz c.q true = (GetOutcome.ret 1 (some n), q1))
    (hflush : n.pkt.data = flush_pkt.data) :
    (decStep lib sz c o).pc = DecPc.fetch ∧
    (decStep lib sz c o).calls = c.calls ++ [EngineCall.flush] ∧
    (decStep lib sz c o).d
      = { c.d with pkt_serial := n.serial, finished := 0, next_pts := c.d.start_pts,
                   next_pts_tb := c.d.start_pts_tb } ∧
    (decStep lib sz c o).q = q1 ∧
    (decStep lib sz c o).frame = c.frame ∧
    (decStep lib sz c o).got_frame = c.got_frame := by
  unfold decStep
  simp [hpc, hget, hflush]

/-- Witness for C16: the video decoder meets the flush marker of `packet_queue_start`. -/
theorem flush_sentinel_handling_witness :
    (decStep libav 104
        { decoder_call videoDecoder eosQueue plainMedia videoFrame with pc := DecPc.fetch }
        noFrame).pc = DecPc.fetch ∧
    (decStep libav 104
        { decoder_call videoDecoder eosQueue plainMedia videoFrame with pc := DecPc.fetch }
        noFrame).calls = [] ++ [EngineCall.flush] :=
  ⟨(flush_sentinel_handling libav 104
      { decoder_call videoDecoder eosQueue plainMedia videoFrame with pc := DecPc.fetch }
      noFrame { pkt := flush_pkt, serial := 1 }
      (packet_queue_get 104 eosQueue true).2 rfl (by decide) rfl).1,
   (flush_sentinel_handling libav 104
      { decoder_call videoDecoder eosQueue plainMedia videoFrame with pc := DecPc.fetch }
      noFrame { pkt := flush_pkt, serial := 1 }
      (packet_queue_get 104 eosQueue true).2 rfl (by decide) rfl).2.1⟩

/-! ### Epochs in the decoder -/

theorem dataPtr_add_ne_flush (p : DataPtr) (n : Int) (h : p ≠ DataPtr.flush_addr) :
    p.add n ≠ DataPtr.flush_addr := by
  cases p with
  | null => simp [DataPtr.add]
  | flush_addr => exact absurd rfl h
  | buf a => simp [DataPtr.add]

theorem decode_audio_pts_d (lib : TimeLib) (d : Decoder) (f : AVFrame) :
    (decode_audio_pts lib d f).2.pkt_temp = d.pkt_temp ∧
    (decode_audio_pts lib d f).2.packet_pending = d.packet_pending ∧
    (decode_audio_pts lib d f).2.pkt_serial = d.pkt_serial ∧
    (decode_audio_pts lib d f).2.finished = d.finished ∧
    (decode_audio_pts lib d f).2.codec_context = d.codec_context := by
  unfold decode_audio_pts
  simp only
  split_ifs <;> exact ⟨rfl, rfl, rfl, rfl, rfl⟩

theorem decode_switch_facts (lib : TimeLib) (c : DecCall) (o : DecodeOut) :
    (decode_switch lib c o).2.d.pkt_temp = c.d.pkt_temp ∧
    (decode_switch lib c o).2.d.packet_pending = c.d.packet_pending ∧
    (decode_switch lib c o).2.d.pkt_serial = c.d.pkt_serial ∧
    (decode_switch lib c o).2.d.finished = c.d.finished ∧
    (decode_switch lib c o).2.d.codec_context = c.d.codec_context ∧
    (decode_switch lib c o).2.q = c.q ∧
    ((decode_switch lib c o).2.calls = c.calls ∨
      (decode_switch lib c o).2.calls
        = c.calls ++ [EngineCall.decode c.d.pkt_temp c.d.pkt_serial c.q.serial]) ∧
    ((decode_switch lib c o).2.pc = c.pc ∨ (decode_switch lib c o).2.pc = DecPc.fault) := by
  unfold decode_switch
  split
  · split
    · split <;> exact ⟨rfl, rfl, rfl, rfl, rfl, rfl, Or.inr rfl, by simp⟩
    · exact ⟨rfl, rfl, rfl, rfl, rfl, rfl, Or.inr rfl, Or.inl rfl⟩
  · obtain ⟨a1, a2, a3, a4, a5⟩ := decode_audio_pts_d lib c.d o.frame
    split
    · split <;> exact ⟨a1, a2, a3, a4, a5, rfl, Or.inr rfl, by simp⟩
    · exact ⟨rfl, rfl, rfl, rfl, rfl, rfl, Or.inr rfl, Or.inl rfl⟩
  · exact ⟨rfl, rfl, rfl, rfl, rfl, rfl, Or.inr rfl, Or.inl rfl⟩
  · exact ⟨rfl, rfl, rfl, rfl, rfl, rfl, Or.inl rfl, Or.inl rfl⟩

theorem decode_post_data (ret : Int) (g : Bool) (d : Decoder)
    (h : d.pkt_temp.data ≠ DataPtr.flush_addr) :
    (decode_post ret g d).pkt_temp.data ≠ DataPtr.flush_addr := by
  unfold decode_post
  split
  · exact h
  · dsimp only
    split
    · exact dataPtr_add_ne_flush _ _ h
    · split <;> exact h

theorem decode_post_pending (ret : Int) (g : Bool) (d : Decoder)
    (h : (decode_post ret g d).packet_pending = true) : d.packet_pending = true := by
  unfold decode_post at h
  dsimp only at h
  split_ifs at h <;> simp_all

theorem decStep_fetch_some (lib : TimeLib) (sz : Int) (c : DecCall) (o : DecodeOut)
    (n : MyAVPacketList) (q1 : PacketQueue) (code : Int)
    (hpc : c.pc = DecPc.fetch)
    (hget : packet_queue_get sz c.q true = (GetOutcome.ret code (some n), q1))
    (hcode : ¬ code < 0) :
    decStep lib sz c o
      = if n.pkt.data = flush_pkt.data then
          { c with pc := DecPc.fetch, q := q1,
                   d := { c.d with pkt_serial := n.serial, finished := 0,
                                   next_pts := c.d.start_pts, next_pts_tb := c.d.start_pts_tb },
                   calls := c.calls ++ [EngineCall.flush] }
        else if q1.serial ≠ n.serial then
          { c with pc := DecPc.fetch, q := q1, d := { c.d with pkt_serial := n.serial } }
        else
          { c with pc := DecPc.decode, q := q1,
                   d := { c.d with pkt_serial := n.serial, pkt := n.pkt, pkt_temp := n.pkt,
                                   packet_pending := true } } := by
  unfold decStep
  simp only [hpc, hget, if_neg hcode]
  by_cases hfl : n.pkt.data = flush_pkt.data
  · simp [hfl]
  · by_cases hse : q1.serial = n.serial
    · simp [hfl, hse]
    · simp [hfl, hse]

theorem keepsSerial_serial (sz : Int) (q : PacketQueue) (op : PQOp)
    (h : op.keepsSerial = true) : (pqStep sz q op).serial = q.serial := by
  rw [pqStep_serial_eq]
  cases op with
  | put p a => cases p <;> simp_all [PQOp.keepsSerial, pqFlushInserted, PacketRef.isFlush]
  | put_nullpacket i a => simp [pqFlushInserted]
  | get b => simp [pqFlushInserted]
  | flush => simp [pqFlushInserted]
  | start a => simp [PQOp.keepsSerial] at h
  | abort => simp [pqFlushInserted]

theorem decInv_step (lib : TimeLib) (sz : Int) (c : DecCall) (o : DecodeOut)
    (h : DecInv c) : DecInv (decStep lib sz c o) := by
  obtain ⟨h1, h2, h3⟩ := h
  cases hpc : c.pc with
  | top =>
      unfold decStep
      simp only [hpc]
      split
      · exact ⟨h1, by simp, h3⟩
      · split
        · exact ⟨h1, by simp, h3⟩
        · rename_i ha hb
          refine ⟨h1, ?_, h3⟩
          intro _
          simp only [Bool.or_eq_true, Bool.not_eq_true', decide_eq_true_eq, not_or,
            Bool.not_eq_false, not_not] at hb
          exact ⟨hb.1, hb.2.symm⟩
  | fetch =>
      cases hget : packet_queue_get sz c.q true with
      | mk out q1 =>
        cases out with
        | waits =>
            have : decStep lib sz c o = c := by
              unfold decStep
              simp only [hpc, hget]
            rw [this]
            exact ⟨h1, h2, h3⟩
        | ret code node =>
            by_cases hcode : code < 0
            · have : decStep lib sz c o = { c with pc := DecPc.done (-1), q := q1 } := by
                unfold decStep
                simp only [hpc, hget, if_pos hcode]
              rw [this]
              exact ⟨h1, by simp, h3⟩
            · cases node with
              | none =>
                  have : decStep lib sz c o = { c with pc := DecPc.fault, q := q1 } := by
                    unfold decStep
                    simp only [hpc, hget, if_neg hcode]
                  rw [this]
                  exact ⟨h1, by simp, h3⟩
              | some n =>
                  rw [decStep_fetch_some lib sz c o n q1 code hpc hget hcode]
                  split_ifs with hfl hse
                  · refine ⟨h1, by simp, ?_⟩
                    intro e he
                    rw [List.mem_append, List.mem_singleton] at he
                    rcases he with he | he
                    · exact h3 e he
                    · subst he; trivial
                  · exact ⟨h1, by simp, h3⟩
                  · refine ⟨fun _ => hfl, fun _ => ⟨rfl, ?_⟩, h3⟩
                    simp only [ne_eq, not_not] at hse
                    exact hse.symm
  | decode =>
      obtain ⟨hpend, hser⟩ := h2 hpc
      have hdata := h1 hpend
      obtain ⟨f1, f2, f3, _, _, f6, f7, f8⟩ := decode_switch_facts lib c o
      obtain ⟨_, e2, _, _, _, _, e7⟩ := decStep_decode lib sz c o hpc
      have hcalls : ∀ e ∈ (decode_switch lib c o).2.calls, e.fresh := by
        rcases f7 with f7 | f7
        · rw [f7]; exact h3
        · rw [f7]
          intro e he
          rw [List.mem_append, List.mem_singleton] at he
          rcases he with he | he
          · exact h3 e he
          · subst he
            exact ⟨hdata, hser⟩
      refine ⟨?_, ?_, ?_⟩
      · rw [e7]
        split
        · rw [f1, f2]; exact h1
        · intro hp
          apply decode_post_data
          rw [f1]
          exact hdata
      · intro hd
        exfalso
        unfold decStep at hd
        simp only [hpc] at hd
        split at hd
        · rename_i hf
          rw [hf] at hd
          exact absurd hd (by simp)
        · split at hd <;> simp at hd
      · rw [e2]
        exact hcalls
  | fault =>
      unfold decStep
      simp only [hpc]
      exact ⟨h1, h2, h3⟩
  | done r =>
      unfold decStep
      simp only [hpc]
      exact ⟨h1, h2, h3⟩

theorem decInv_event (lib : TimeLib) (sz : Int) (c : DecCall) (e : DecEvent)
    (h : DecInv c) (he : e.keepsSerial = true) : DecInv (decEvent lib sz c e) := by
  cases e with
  | step o => exact decInv_step lib sz c o h
  | env op =>
      obtain ⟨h1, h2, h3⟩ := h
      refine ⟨h1, ?_, h3⟩
      intro hpc
      obtain ⟨hp, hs⟩ := h2 hpc
      refine ⟨hp, ?_⟩
      simp only [decEvent]
      rw [keepsSerial_serial sz c.q op he]
      exact hs

theorem decInv_run (lib : TimeLib) (sz : Int) (evs : List DecEvent) (c : DecCall)
    (h : DecInv c) (he : ∀ e ∈ evs, e.keepsSerial = true) :
    DecInv (decRun lib sz c evs) := by
  induction evs generalizing c with
  | nil => exact h
  | cons e es ih =>
      exact ih _ (decInv_event lib sz c e h (he e (List.mem_cons_self _ _)))
        (fun x hx => he x (List.mem_cons_of_mem _ hx))

theorem decInv_call (d : Decoder) (q : PacketQueue) (md : MediaDecode) (frame : AVFrame)
    (hd : d.packet_pending = true → d.pkt_temp.data ≠ flush_pkt.data) :
    DecInv (decoder_call d q md frame) :=
  ⟨hd, fun h => by simp [decoder_call] at h, fun e he => by simp [decoder_call] at he⟩

/-- C17. Stale-epoch packets are never decoded.  Along a call of `decoder_decode_frame` during
which no other thread opens a new epoch (no put of the flush marker, no `packet_queue_start`),
every decode call of the engine gets a packet that is not the flush sentinel and whose serial is
the serial of the Packet Queue at that moment, and a packet left pending at the end is not the
sentinel.  At the top of an iteration a pending remainder whose `pkt_serial` differs from the
queue serial is abandoned (the call goes to the fetch loop without an engine call), and the fetch
loop discards a packet whose serial differs from the queue serial (it fetches again, with no
decode call and the pending packet untouched). -/
theorem stale_epoch_never_decoded (lib : TimeLib) (sz : Int) (d : Decoder) (q : PacketQueue)
    (md : MediaDecode) (frame : AVFrame) (evs : List DecEvent) (c : DecCall) (o : DecodeOut)
    (hd : d.packet_pending = true → d.pkt_temp.data ≠ flush_pkt.data)
    (henv : ∀ e ∈ evs, e.keepsSerial = true) :
    (∀ e ∈ (decRun lib sz (decoder_call d q md frame) evs).calls, e.fresh) ∧
    ((decRun lib sz (decoder_call d q md frame) evs).d.packet_pending = true →
      (decRun lib sz (decoder_call d q md frame) evs).d.pkt_temp.data ≠ flush_pkt.data) ∧
    (c.pc = DecPc.top → c.q.abort_request = false → c.q.serial ≠ c.d.pkt_serial →
      (decStep lib sz c o).pc = DecPc.fetch ∧ (decStep lib sz c o).calls = c.calls) ∧
    (c.pc = DecPc.fetch → ∀ n q1,
      packet_queue_get sz c.q true = (GetOutcome.ret 1 (some n), q1) →
      q1.serial ≠ n.serial →
      (decStep lib sz c o).pc = DecPc.fetch ∧
      (decStep lib sz c o).d.pkt_temp = c.d.pkt_temp ∧
      (decStep lib sz c o).d.packet_pending = c.d.packet_pending ∧
      ((decStep lib sz c o).calls = c.calls ∨
        (decStep lib sz c o).calls = c.calls ++ [EngineCall.flush])) := by
  have hinv := decInv_run lib sz evs _ (decInv_call d q md frame hd) henv
  refine ⟨hinv.2.2, hinv.1, ?_, ?_⟩
  · intro hpc ha hs
    unfold decStep
    simp [hpc, ha, hs]
  · intro hpc n q1 hget hs
    rw [decStep_fetch_some lib sz c o n q1 1 hpc hget (by omega)]
    split_ifs
    · exact ⟨rfl, rfl, rfl, Or.inr rfl⟩
    · exact ⟨rfl, rfl, rfl, Or.inl rfl⟩

/-- Witness for C17: on `staleQueue` the decoder flushes twice, skips the packet of serial 1 and
hands only the packet of serial 2 to the engine. -/
theorem stale_epoch_never_decoded_witness :
    (decRun libav 104 (decoder_call videoDecoder staleQueue plainMedia videoFrame)
        staleSteps).calls
      = [EngineCall.flush, EngineCall.flush, EngineCall.decode (dataPacket 40) 2 2] ∧
    (∀ e ∈ (decRun libav 104 (decoder_call videoDecoder staleQueue plainMedia videoFrame)
        staleSteps).calls, e.fresh) :=
  ⟨by decide,
   (stale_epoch_never_decoded libav 104 videoDecoder staleQueue plainMedia videoFrame staleSteps
      (decoder_call videoDecoder staleQueue plainMedia videoFrame) oneFrame
      (by decide) (by decide)).1⟩

theorem decode_switch_eos (lib : TimeLib) (c : DecCall) (o : DecodeOut)
    (hty : c.d.codec_context.codec_type ≠ AVMediaType.other)
    (hgot : o.got_frame = false) :
    decode_switch lib c o
      = (o.ret,
          { c with got_frame := false,
                   frame := (if c.d.codec_context.codec_type = AVMediaType.subtitle
                             then c.frame else o.frame),
                   calls := c.calls
                     ++ [EngineCall.decode c.d.pkt_temp c.d.pkt_serial c.q.serial] }) := by
  unfold decode_switch
  cases hct : c.d.codec_context.codec_type with
  | video => simp [hgot]
  | audio => simp [hgot]
  | subtitle => simp [hgot]
  | other => exact absurd hct hty

/-- C18, as stated, fails: under a precision seek to 5000 ms, with no frame decoded in this call
(time 0), the engine succeeds on the null packet without a frame; `finished` is set and
`packet_pending` cleared, but the call does not return: it goes back to the top of the loop, and
when a further packet of the same epoch arrives it calls the engine again. -/
theorem eos_counterexample :
    eosCall.pc = DecPc.decode ∧ eosCall.d.pkt_temp.data = DataPtr.null ∧
    eosCall.d.pkt_serial = 1 ∧
    (decStep libav 104 eosCall noFrame).d.finished = 1 ∧
    (decStep libav 104 eosCall noFrame).d.packet_pending = false ∧
    (decStep libav 104 eosCall noFrame).pc = DecPc.top ∧
    (decRun libav 104 (decStep libav 104 eosCall noFrame) eosMore).calls
      = [EngineCall.flush, EngineCall.decode (null_packet 0) 1 1,
         EngineCall.decode (dataPacket 80) 1 1] := by
  decide

/-- C18, amended.  When the engine succeeds (`ret ≥ 0`) on a packet without data and gives no
frame, the decoder sets `finished` to `pkt_serial` and clears `packet_pending`.  If `pkt_serial`
is not 0 and it is not the case that `precision_seek` is on with the time of this call below
`start_time`, the call makes no further decode attempt and returns 0.  If `precision_seek` is on
and the time of this call is below `start_time`, the call does not return and starts another
iteration. -/
theorem eos_detection (lib : TimeLib) (sz : Int) (c : DecCall) (o : DecodeOut)
    (hpc : c.pc = DecPc.decode)
    (hty : c.d.codec_context.codec_type ≠ AVMediaType.other)
    (hret : 0 ≤ o.ret)
    (hnull : c.d.pkt_temp.data = DataPtr.null)
    (hgot : o.got_frame = false) :
    (decStep lib sz c o).d.finished = c.d.pkt_serial ∧
    (decStep lib sz c o).d.packet_pending = false ∧
    (decStep lib sz c o).got_frame = false ∧
    (decStep lib sz c o).calls
      = c.calls ++ [EngineCall.decode c.d.pkt_temp c.d.pkt_serial c.q.serial] ∧
    (c.d.pkt_serial ≠ 0 → ¬ (c.md.precision_seek = true ∧ c.time < c.md.start_time) →
      (decStep lib sz c o).pc = DecPc.done 0) ∧
    (c.md.precision_seek = true → c.time < c.md.start_time →
      (decStep lib sz c o).pc = DecPc.top) := by
  have hsw := decode_switch_eos lib c o hty hgot
  have hpost : decode_post o.ret false c.d
      = { c.d with pkt_temp := { c.d.pkt_temp with dts := AV_NOPTS_VALUE,
                                                   pts := AV_NOPTS_VALUE },
                   packet_pending := false, finished := c.d.pkt_serial } := by
    unfold decode_post
    rw [if_neg (by omega)]
    simp [hnull]
  unfold decStep
  simp only [hpc, hsw, hpost]
  rw [if_neg (by simp [hpc])]
  refine ⟨?_, ?_, ?_, ?_, ?_, ?_⟩
  · split <;> rfl
  · split <;> rfl
  · split <;> rfl
  · split <;> rfl
  · intro hs hp
    rw [if_neg]
    · simp
    · simp only [decode_continue, Bool.not_false, Bool.true_and, Bool.or_eq_true,
        decide_eq_true_eq, Bool.and_eq_true, not_or, not_and]
      refine ⟨hs, ?_⟩
      intro hlt hps
      exact hp ⟨hps, hlt⟩
  · intro hps hlt
    rw [if_pos]
    simp [decode_continue, hps, hlt]

/-- Witness for C18 amended: without precision seek the call returns 0 after the null packet. -/
theorem eos_detection_witness :
    (decStep libav 104 eosPlainCall noFrame).d.finished = eosPlainCall.d.pkt_serial ∧
    (decStep libav 104 eosPlainCall noFrame).pc = DecPc.done 0 :=
  ⟨(eos_detection libav 104 eosPlainCall noFrame rfl (by decide) (by decide) rfl rfl).1,
   (eos_detection libav 104 eosPlainCall noFrame rfl (by decide) (by decide) rfl rfl).2.2.2.2.1
      (by decide) (by decide)⟩

theorem decode_switch_ret (lib : TimeLib) (c : DecCall) (o : DecodeOut) (h : o.ret < 0) :
    (decode_switch lib c o).1 < 0 := by
  unfold decode_switch
  split
  · split
    · split <;> exact h
    · exact h
  · split
    · split <;> exact h
    · exact h
  · exact h
  · simp

theorem decAbortSeen_abort (sz : Int) (c : DecCall) (h : decAbortSeen sz c = true) :
    c.q.abort_request = true := by
  unfold decAbortSeen at h
  split at h
  · exact h
  · unfold packet_queue_get at h
    by_cases ha : c.q.abort_request = true
    · exact ha
    · exfalso
      simp only [ha] at h
      cases hp : c.q.pkts with
      | nil => simp [hp] at h
      | cons n rest => simp [hp] at h
  · simp at h

/-- C19. Decode errors do not end the call with an error.  A decode step in which the engine
returns a negative value clears `packet_pending` and leads to the top of the loop or to a return
of 0 or 1.  A step returns a negative value exactly when it observes the abort of the Packet Queue
(`abort_request` set at the top of an iteration, or `packet_queue_get` returning a negative
value); the value is then -1 and `abort_request` is set. -/
theorem decode_error_not_fatal (lib : TimeLib) (sz : Int) (c : DecCall) (o : DecodeOut) :
    (c.pc = DecPc.decode → o.ret < 0 → (decStep lib sz c o).pc ≠ DecPc.fault →
      (decStep lib sz c o).d.packet_pending = false ∧
      ((decStep lib sz c o).pc = DecPc.top ∨ (decStep lib sz c o).pc = DecPc.done 0 ∨
        (decStep lib sz c o).pc = DecPc.done 1)) ∧
    ((c.pc = DecPc.top ∨ c.pc = DecPc.fetch ∨ c.pc = DecPc.decode) →
      ∀ r, (decStep lib sz c o).pc = DecPc.done r → (r < 0 ↔ decAbortSeen sz c = true)) ∧
    (decAbortSeen sz c = true →
      (decStep lib sz c o).pc = DecPc.done (-1) ∧ c.q.abort_request = true) := by
  refine ⟨?_, ?_, ?_⟩
  · intro hpc hret hnf
    have hneg := decode_switch_ret lib c o hret
    unfold decStep at hnf ⊢
    simp only [hpc] at hnf ⊢
    split
    · rename_i hf
      rw [if_pos hf] at hnf
      exact absurd hf hnf
    · have hp : (decode_post (decode_switch lib c o).1 (decode_switch lib c o).2.got_frame
          (decode_switch lib c o).2.d).packet_pending = false := by
        unfold decode_post
        rw [if_pos hneg]
      split
      · exact ⟨hp, Or.inl rfl⟩
      · refine ⟨hp, Or.inr ?_⟩
        simp only
        cases (decode_switch lib c o).2.got_frame <;> simp
  · intro hpc r hr
    rcases hpc with hpc | hpc | hpc
    · unfold decStep at hr
      simp only [hpc] at hr
      unfold decAbortSeen
      simp only [hpc]
      split at hr
      · rename_i ha
        simp only [DecPc.done.injEq] at hr
        subst hr
        simp [ha]
      · split at hr <;> simp at hr
    · unfold decAbortSeen
      simp only [hpc]
      cases hget : packet_queue_get sz c.q true with
      | mk out q1 =>
        cases out with
        | waits =>
            unfold decStep at hr
            simp only [hpc, hget] at hr
            simp at hr
        | ret code node =>
            by_cases hcode : code < 0
            · unfold decStep at hr
              simp only [hpc, hget, if_pos hcode, DecPc.done.injEq] at hr
              subst hr
              simp [hcode]
            · cases node with
              | none =>
                  unfold decStep at hr
                  simp only [hpc, hget, if_neg hcode] at hr
                  simp at hr
              | some n =>
                  rw [decStep_fetch_some lib sz c o n q1 code hpc hget hcode] at hr
                  split_ifs at hr
    · unfold decStep at hr
      simp only [hpc] at hr
      have hab : decAbortSeen sz c = false := by
        unfold decAbortSeen
        simp only [hpc]
      rw [hab]
      split at hr
      · rename_i hf
        rw [hf] at hr
        simp at hr
      · split at hr
        · simp at hr
        · simp only [DecPc.done.injEq] at hr
          subst hr
          cases (decode_switch lib c o).2.got_frame <;> simp
  · intro hab
    refine ⟨?_, decAbortSeen_abort sz c hab⟩
    have ha := decAbortSeen_abort sz c hab
    unfold decAbortSeen at hab
    split at hab
    · rename_i hpc
      unfold decStep
      simp [hpc, ha]
    · rename_i hpc
      unfold decStep
      simp [hpc, packet_queue_get, ha]
    · simp at hab

/-- Witness for C19: the engine rejects the data packet; the packet is dropped and the call goes
on with the next iteration. -/
theorem decode_error_not_fatal_witness :
    (decStep libav 104 dataCall badPacket).d.packet_pending = false ∧
    ((decStep libav 104 dataCall badPacket).pc = DecPc.top ∨
      (decStep libav 104 dataCall badPacket).pc = DecPc.done 0 ∨
      (decStep libav 104 dataCall badPacket).pc = DecPc.done 1) :=
  (decode_error_not_fatal libav 104 dataCall badPacket).1 (by decide) (by decide) (by decide)

/-! ## Theorems: Read Loop -/

/-- C20, as stated, fails: with sixteen packets of one MiB in the video queue the combined size
exceeds `MAX_QUEUE_SIZE` while the open, not aborted video and audio streams hold at most
`MIN_FRAMES` packets, and the iteration idles instead of reading a packet. -/
theorem backpressure_counterexample :
    heavyMedia.audio_packet_queue.size + heavyMedia.video_packet_queue.size
        + heavyMedia.subtitle_packet_queue.size > MAX_QUEUE_SIZE ∧
    heavyMedia.video_stream ≠ none ∧
    heavyMedia.video_packet_queue.abort_request = false ∧
    heavyMedia.video_packet_queue.nb_packets = 17 ∧
    heavyMedia.video_packet_queue.nb_packets ≤ MIN_FRAMES ∧
    heavyMedia.audio_stream ≠ none ∧
    heavyMedia.audio_packet_queue.abort_request = false ∧
    heavyMedia.audio_packet_queue.nb_packets ≤ MIN_FRAMES ∧
    read_thread_gate heavyMedia = QueueGate.idle := by
  decide

/-- C20, amended.  The Read Loop idles and restarts (reads no packet) whenever the combined byte
size of the three Packet Queues exceeds `MAX_QUEUE_SIZE`, whatever the packet counts.  It idles
only if that size exceeds `MAX_QUEUE_SIZE` or every stream satisfies: `nb_packets > MIN_FRAMES`,
or the stream is absent, or its queue is aborted, or (video) the stream is an attached picture.
With the size within the ceiling it idles when the audio queue has more than `MIN_FRAMES` packets
or is aborted, the video queue has more than `MIN_FRAMES` packets or is aborted or the video
stream is an attached picture, and the subtitle queue has more than `MIN_FRAMES` packets or the
subtitle stream is absent or its queue is aborted. -/
theorem backpressure (md : MediaDecode) :
    (md.audio_packet_queue.size + md.video_packet_queue.size + md.subtitle_packet_queue.size
        > MAX_QUEUE_SIZE → read_thread_gate md = QueueGate.idle) ∧
    (read_thread_gate md = QueueGate.idle →
      md.audio_packet_queue.size + md.video_packet_queue.size + md.subtitle_packet_queue.size
        > MAX_QUEUE_SIZE ∨
      ((md.audio_packet_queue.nb_packets > MIN_FRAMES ∨ md.audio_stream = none ∨
          md.audio_packet_queue.abort_request = true) ∧
       (md.video_packet_queue.nb_packets > MIN_FRAMES ∨ md.video_stream = none ∨
          md.video_packet_queue.abort_request = true ∨
          ∃ st, md.video_stream = some st ∧
            st.disposition &&& AV_DISPOSITION_ATTACHED_PIC ≠ 0) ∧
       (md.subtitle_packet_queue.nb_packets > MIN_FRAMES ∨ md.subtitle_stream_index < 0 ∨
          md.subtitle_packet_queue.abort_request = true))) ∧
    (md.audio_packet_queue.size + md.video_packet_queue.size + md.subtitle_packet_queue.size
        ≤ MAX_QUEUE_SIZE →
      (md.audio_packet_queue.nb_packets > MIN_FRAMES ∨
        md.audio_packet_queue.abort_request = true) →
      (md.video_packet_queue.nb_packets > MIN_FRAMES ∨
        md.video_packet_queue.abort_request = true ∨
        ∃ st, md.video_stream = some st ∧
          st.disposition &&& AV_DISPOSITION_ATTACHED_PIC ≠ 0) →
      (md.subtitle_packet_queue.nb_packets > MIN_FRAMES ∨ md.subtitle_stream_index < 0 ∨
        md.subtitle_packet_queue.abort_request = true) →
      read_thread_gate md = QueueGate.idle) := by
  refine ⟨?_, ?_, ?_⟩
  · intro h
    unfold read_thread_gate
    rw [if_pos h]
  · intro h
    unfold read_thread_gate at h
    split at h
    · rename_i hs
      exact Or.inl hs
    · right
      split at h
      · simp at h
      · rename_i ha
        simp only [stream_ptr_lt_zero, Bool.false_eq_true, false_or, not_not] at ha
        have hA : md.audio_packet_queue.nb_packets > MIN_FRAMES ∨ md.audio_stream = none ∨
            md.audio_packet_queue.abort_request = true := by
          rcases ha with ha | ha
          · exact Or.inl ha
          · exact Or.inr (Or.inr ha)
        dsimp only at h
        split at h
        · rename_i hv
          simp only [stream_ptr_lt_zero, Bool.false_eq_true, false_or] at hv
          split at h
          · rename_i hsub
            refine ⟨hA, ?_, by simpa using hsub⟩
            rcases hv with hv | hv
            · exact Or.inl hv
            · exact Or.inr (Or.inr (Or.inl hv))
          · simp at h
        · split at h
          · simp at h
          · rename_i st hst
            split at h
            · rename_i hpic
              split at h
              · rename_i hsub
                exact ⟨hA, Or.inr (Or.inr (Or.inr ⟨st, hst, hpic⟩)), by simpa using hsub⟩
              · simp at h
            · simp at h
  · intro hs ha hv hsub
    unfold read_thread_gate
    rw [if_neg (by omega)]
    rw [if_neg (by
      simp only [stream_ptr_lt_zero, Bool.false_eq_true, false_or, not_not]
      exact ha)]
    dsimp only
    have hsb : decide (md.subtitle_packet_queue.nb_packets > MIN_FRAMES ∨
        md.subtitle_stream_index < 0 ∨ md.subtitle_packet_queue.abort_request = true) = true :=
      decide_eq_true hsub
    rw [hsb]
    simp only [if_true]
    rcases hv with hv | hv | ⟨st, hst, hpic⟩
    · rw [if_pos (Or.inl hv)]
    · rw [if_pos (Or.inr (Or.inr hv))]
    · split
      · rfl
      · rw [hst]
        simp only
        rw [if_pos hpic]

/-- Witness for C20 amended: `heavyMedia` is over the ceiling, so the loop idles. -/
theorem backpressure_witness : read_thread_gate heavyMedia = QueueGate.idle :=
  (backpressure heavyMedia).1 (by decide)


/-! ## Theorems: Message Queue -/

theorem mqPostAll_msgs (ps : List MQPost) (q : MessageQueue) (h : q.abort_request_ = false) :
    (mqPostAll q ps).msgs = q.msgs ++ ps.map MQPost.stored ∧
    (mqPostAll q ps).abort_request_ = false := by
  induction ps generalizing q with
  | nil => simp [mqPostAll, h]
  | cons p ps ih =>
      have hp : (mqPost q p).msgs = q.msgs ++ [p.stored] ∧ (mqPost q p).abort_request_ = false := by
        cases p <;>
          simp [mqPost, Handler.PostMessage, MessageQueue.EnqueueMessage, MQPost.stored, h]
      have := ih (mqPost q p) hp.2
      simp only [mqPostAll, List.foldl_cons] at this ⊢
      rw [this.1, hp.1]
      simp [this.2]

theorem mqDequeueN_all (block : Bool) (l : List Message) (q : MessageQueue)
    (h : q.abort_request_ = false) (hl : q.msgs = l) :
    (mqDequeueN block q l.length).1 = l.map (fun m => DequeueOutcome.ret 1 (some m)) ∧
    (mqDequeueN block q l.length).2.msgs = [] := by
  induction l generalizing q with
  | nil => simp [mqDequeueN, hl]
  | cons m rest ih =>
      have hg : q.DequeueMessage block
          = (DequeueOutcome.ret 1 (some m),
              { q with msgs := rest, packet_size_ := q.packet_size_ - 1 }) := by
        simp [MessageQueue.DequeueMessage, h, hl]
      have := ih { q with msgs := rest, packet_size_ := q.packet_size_ - 1 } h rfl
      simp only [List.length_cons, mqDequeueN, hg, List.map_cons]
      exact ⟨by rw [this.1], this.2⟩

/-- C30. `MessageQueue::DequeueMessage` on an aborted queue returns -1 and leaves the queued
messages in place; on a queue that is not aborted it returns 0 when the queue is empty and `block`
is false, and 1 together with the oldest message, with `Size()` one less, when the queue is not
empty (on an empty queue with `block` set the call waits and the queue stays as it is).  Hence the
messages handed to a queue that is not aborted through `EnqueueMessage` or `Handler::PostMessage`
come out, behind those already queued, in the order they went in, a posted one carrying its
handler.  On an aborted queue `EnqueueMessage` and `PostMessage` return -1 and the queue is
unchanged. -/
theorem message_queue_fifo (q : MessageQueue) (block : Bool) (msg : Message) (node_ok : Bool)
    (this : Nat) (ps : List MQPost) :
    (q.abort_request_ = true → q.DequeueMessage block = (DequeueOutcome.ret (-1) none, q)) ∧
    (q.abort_request_ = false → q.msgs = [] →
      q.DequeueMessage false = (DequeueOutcome.ret 0 none, q) ∧
      q.DequeueMessage true = (DequeueOutcome.waits, q)) ∧
    (q.abort_request_ = false → ∀ m rest, q.msgs = m :: rest →
      q.DequeueMessage block
        = (DequeueOutcome.ret 1 (some m),
            { q with msgs := rest, packet_size_ := q.packet_size_ - 1 }) ∧
      (q.DequeueMessage block).2.Size = q.Size - 1) ∧
    (q.abort_request_ = false →
      (mqDequeueN block (mqPostAll q ps) (q.msgs.length + ps.length)).1
        = (q.msgs ++ ps.map MQPost.stored).map (fun m => DequeueOutcome.ret 1 (some m)) ∧
      (mqDequeueN block (mqPostAll q ps) (q.msgs.length + ps.length)).2.msgs = []) ∧
    (q.abort_request_ = true →
      q.EnqueueMessage msg node_ok = (-1, q) ∧
      Handler.PostMessage this q msg node_ok = (-1, q)) := by
  refine ⟨?_, ?_, ?_, ?_, ?_⟩
  · intro h
    simp [MessageQueue.DequeueMessage, h]
  · intro h he
    simp [MessageQueue.DequeueMessage, h, he]
  · intro h m rest he
    simp [MessageQueue.DequeueMessage, MessageQueue.Size, h, he]
  · intro h
    have hp := mqPostAll_msgs ps q h
    have hg := mqDequeueN_all block _ (mqPostAll q ps) hp.2 rfl
    rw [hp.1, List.length_append, List.length_map] at hg
    exact hg
  · intro h
    simp [MessageQueue.EnqueueMessage, Handler.PostMessage, h]

/-- Witness for C30: two messages, the second posted through the handler at address 7, come out
of a fresh queue in that order. -/
theorem message_queue_fifo_witness :
    (mqDequeueN true
        (mqPostAll MessageQueue.Init
          [MQPost.enqueue (Message.ofArgs 1 0 0), MQPost.post 7 (Message.ofArgs 2 0 0)]) 2).1
      = [DequeueOutcome.ret 1 (some (Message.ofArgs 1 0 0)),
         DequeueOutcome.ret 1 (some { Message.ofArgs 2 0 0 with handler_ := some 7 })] :=
  ((message_queue_fifo MessageQueue.Init true (Message.ofArgs 0 0 0) true 7
      [MQPost.enqueue (Message.ofArgs 1 0 0), MQPost.post 7 (Message.ofArgs 2 0 0)]).2.2.2.1
    rfl).1.trans (by decide)


/-! ## Theorems: seek requests -/

theorem nat_and_two_ne_zero (n : Nat) : n &&& 2 ≠ 0 ↔ n.testBit 1 = true := by
  have h := Nat.and_two_pow n 1
  simp only [pow_one] at h
  rw [h]
  cases n.testBit 1 <;> simp

theorem nat_ldiff_two_ne_zero (m : Nat) : Nat.ldiff 2 m ≠ 0 ↔ m.testBit 1 = false := by
  constructor
  · intro h
    by_contra hm
    apply h
    apply Nat.eq_of_testBit_eq
    intro k
    rw [Nat.testBit_ldiff, Nat.zero_testBit]
    by_cases hk : k = 1
    · subst hk
      simp at hm
      simp [hm]
    · have h2 : Nat.testBit 2 k = false := by
        have := @Nat.testBit_two_pow_of_ne 1 k (by omega)
        simpa using this
      simp [h2]
  · intro hm h
    have h2 := Nat.testBit_ldiff 2 m 1
    rw [h, hm, Nat.zero_testBit] at h2
    revert h2
    decide

/-- The C test `flags & 2` looks at bit 1 of the two's complement representation. -/
theorem int_land_two_ne_zero (y : Int) : Int.land y 2 ≠ 0 ↔ y.testBit 1 = true := by
  cases y with
  | ofNat n =>
      show ((n &&& 2 : Nat) : Int) ≠ 0 ↔ n.testBit 1 = true
      rw [← nat_and_two_ne_zero]
      simp
  | negSucc m =>
      show ((Nat.ldiff 2 m : Nat) : Int) ≠ 0 ↔ (!m.testBit 1) = true
      have := nat_ldiff_two_ne_zero m
      simp only [Bool.not_eq_true', ne_eq, Int.natCast_eq_zero] at this ⊢
      exact this

theorem int_two_testBit (k : Nat) : (2 : Int).testBit k = decide (k = 1) := by
  show Nat.testBit 2 k = decide (k = 1)
  by_cases hk : k = 1
  · subst hk
    decide
  · have := @Nat.testBit_two_pow_of_ne 1 k (by omega)
    simp only [pow_one] at this
    rw [this]
    simp [hk]

/-- C22. While a seek is pending, `stream_seek` changes nothing, whatever its arguments.  With no
seek pending it stores `pos` in `seek_pos` and `rel` in `seek_rel`, leaves `seek_flags` with the
bit `AVSEEK_FLAG_BYTE` set exactly when `seek_by_bytes` is not zero and with every other bit as
it was, sets `seek_req` to 1 and touches no other field.  `av_seek(time)` is
`stream_seek(time, 0, 0)`. -/
theorem seek_idempotent (s : ReadState) (pos rel seek_by_bytes time : Int) :
    (s.seek_req ≠ 0 → stream_seek s pos rel seek_by_bytes = s) ∧
    (s.seek_req = 0 →
      (stream_seek s pos rel seek_by_bytes).seek_pos = pos ∧
      (stream_seek s pos rel seek_by_bytes).seek_rel = rel ∧
      (Int.land (stream_seek s pos rel seek_by_bytes).seek_flags AVSEEK_FLAG_BYTE ≠ 0
        ↔ seek_by_bytes ≠ 0) ∧
      (∀ k : Nat, k ≠ 1 →
        (stream_seek s pos rel seek_by_bytes).seek_flags.testBit k = s.seek_flags.testBit k) ∧
      (stream_seek s pos rel seek_by_bytes).seek_req = 1 ∧
      stream_seek s pos rel seek_by_bytes
        = { s with seek_pos := pos, seek_rel := rel, seek_req := 1,
                   seek_flags := (stream_seek s pos rel seek_by_bytes).seek_flags }) ∧
    av_seek s time = stream_seek s time 0 0 := by
  refine ⟨?_, ?_, rfl⟩
  · intro h
    unfold stream_seek
    rw [if_neg h]
  · intro h
    unfold stream_seek
    rw [if_pos h]
    refine ⟨rfl, rfl, ?_, ?_, rfl, rfl⟩
    · show Int.land (if seek_by_bytes ≠ 0 then _ else _) 2 ≠ 0 ↔ _
      rw [int_land_two_ne_zero]
      by_cases hb : seek_by_bytes = 0
      · simp [hb, AVSEEK_FLAG_BYTE, Int.testBit_land, Int.testBit_lnot, int_two_testBit]
      · simp [hb, AVSEEK_FLAG_BYTE, Int.testBit_lor, int_two_testBit]
    · intro k hk
      show (if seek_by_bytes ≠ 0 then _ else _ : Int).testBit k = _
      by_cases hb : seek_by_bytes = 0
      · simp [hb, AVSEEK_FLAG_BYTE, Int.testBit_land, Int.testBit_lnot, int_two_testBit, hk]
      · simp [hb, AVSEEK_FLAG_BYTE, Int.testBit_lor, Int.testBit_land, Int.testBit_lnot,
          int_two_testBit, hk]

/-- Witness for C22: a seek to 5000 ms on a context with no seek pending is recorded, and a
second request while it is pending changes nothing. -/
theorem seek_idempotent_witness :
    (av_seek playing 5000).seek_pos = 5000 ∧ (av_seek playing 5000).seek_req = 1 ∧
    stream_seek (av_seek playing 5000) 9000 1 1 = av_seek playing 5000 :=
  ⟨((seek_idempotent playing 5000 0 0 5000).2.1 (by decide)).1,
   ((seek_idempotent playing 5000 0 0 5000).2.1 (by decide)).2.2.2.2.1,
   (seek_idempotent (av_seek playing 5000) 9000 1 1 0).1
     (by decide)⟩


/-! ## Theorems: the exit of the decode loop -/

theorem get_negative_abort (sz : Int) (q q1 : PacketQueue) (block : Bool) (code : Int)
    (node : Option MyAVPacketList)
    (hget : packet_queue_get sz q block = (GetOutcome.ret code node, q1)) (hcode : code < 0) :
    code = -1 ∧ q.abort_request = true := by
  unfold packet_queue_get at hget
  by_cases ha : q.abort_request = true
  · simp only [ha, if_true, Prod.mk.injEq, GetOutcome.ret.injEq] at hget
    exact ⟨hget.1.1.symm, ha⟩
  · exfalso
    simp only [ha] at hget
    cases hp : q.pkts with
    | nil =>
        rw [hp] at hget
        cases block <;> simp at hget
        omega
    | cons n rest =>
        rw [hp] at hget
        simp at hget
        omega

/-- C28. A step of `decoder_decode_frame` from the decode engine that does not fault ends either
at the top of the loop or at a `return`.  It goes back to the top, without returning, exactly
while (no frame was produced and `finished` is 0) or (the packet time `time` is below
`start_time` and `precision_seek` is on).  When it returns, the value is the got-frame flag (1 or
0), a frame was produced or `finished` is not 0, and `precision_seek` is off or `time` is at
least `start_time`.  Every other return of the call is the abort: it comes from the top of an
iteration or from `packet_queue_get`, has the value -1, and the queue is aborted. -/
theorem decode_loop_exit (lib : TimeLib) (sz : Int) (c : DecCall) (o : DecodeOut) :
    (c.pc = DecPc.decode → (decStep lib sz c o).pc ≠ DecPc.fault →
      ((decStep lib sz c o).pc = DecPc.top ∨
        (decStep lib sz c o).pc = DecPc.done (if (decStep lib sz c o).got_frame then 1 else 0)) ∧
      ((decStep lib sz c o).pc = DecPc.top ↔
        (((decStep lib sz c o).got_frame = false ∧ (decStep lib sz c o).d.finished = 0) ∨
         ((decStep lib sz c o).time < (decStep lib sz c o).md.start_time ∧
          (decStep lib sz c o).md.precision_seek = true))) ∧
      (∀ r, (decStep lib sz c o).pc = DecPc.done r →
        r = (if (decStep lib sz c o).got_frame then 1 else 0) ∧
        ((decStep lib sz c o).got_frame = true ∨ (decStep lib sz c o).d.finished ≠ 0) ∧
        ((decStep lib sz c o).md.precision_seek = false ∨
          (decStep lib sz c o).md.start_time ≤ (decStep lib sz c o).time))) ∧
    ((c.pc = DecPc.top ∨ c.pc = DecPc.fetch) →
      ∀ r, (decStep lib sz c o).pc = DecPc.done r → r = -1 ∧ c.q.abort_request = true) := by
  constructor
  · intro hpc hnf
    unfold decStep at hnf ⊢
    simp only [hpc] at hnf ⊢
    by_cases hf : (decode_switch lib c o).2.pc = DecPc.fault
    · rw [if_pos hf] at hnf
      exact absurd hf hnf
    · simp only [if_neg hf]
      by_cases hc : decode_continue (decode_switch lib c o).2.got_frame
          (decode_post (decode_switch lib c o).1 (decode_switch lib c o).2.got_frame
            (decode_switch lib c o).2.d) (decode_switch lib c o).2.time
          (decode_switch lib c o).2.md = true
      · simp only [hc, if_true]
        have hc2 := hc
        unfold decode_continue at hc2
        simp only [Bool.or_eq_true, Bool.and_eq_true, Bool.not_eq_true', decide_eq_true_eq]
          at hc2
        refine ⟨Or.inl trivial, ⟨fun _ => hc2, fun _ => trivial⟩, ?_⟩
        intro r hr
        simp at hr
      · simp only [hc, Bool.false_eq_true, if_false]
        have hc2 := hc
        unfold decode_continue at hc2
        simp only [Bool.or_eq_true, Bool.and_eq_true, Bool.not_eq_true', decide_eq_true_eq,
          not_or, not_and] at hc2
        refine ⟨Or.inr trivial, ⟨fun h => by simp at h, fun h => ?_⟩, ?_⟩
        · exfalso
          rcases h with ⟨h1, h2⟩ | ⟨h1, h2⟩
          · exact hc2.1 h1 h2
          · exact hc2.2 h1 h2
        · intro r hr
          simp only [DecPc.done.injEq] at hr
          refine ⟨hr.symm, ?_, ?_⟩
          · rcases Bool.eq_false_or_eq_true (decode_switch lib c o).2.got_frame with hg | hg
            · left
              exact hg
            · right
              exact hc2.1 hg
          · rcases Bool.eq_false_or_eq_true (decode_switch lib c o).2.md.precision_seek
              with hp | hp
            · right
              by_contra hlt
              exact hc2.2 (by omega) hp
            · left
              exact hp
  · intro hpc r hr
    rcases hpc with hpc | hpc
    · unfold decStep at hr
      simp only [hpc] at hr
      split_ifs at hr with h1 h2
      · simp only [DecPc.done.injEq] at hr
        exact ⟨hr.symm, h1⟩
    · unfold decStep at hr
      simp only [hpc] at hr
      split at hr
      · rw [hpc] at hr
        simp at hr
      · rename_i code node q1 hget
        split_ifs at hr with h1
        · simp only [DecPc.done.injEq] at hr
          have := get_negative_abort sz c.q q1 true code node hget h1
          exact ⟨hr.symm, this.2⟩
        · split at hr
          · simp at hr
          · split_ifs at hr

/-- Witness for C28: on the null packet at the end of the stream the step returns 0 with
`finished` set; under a precision seek whose target is not reached it goes back to the top. -/
theorem decode_loop_exit_witness :
    (decStep libav 104 eosPlainCall noFrame).pc = DecPc.done 0 ∧
    (decStep libav 104 eosPlainCall noFrame).d.finished ≠ 0 ∧
    (decStep libav 104 eosCall noFrame).pc = DecPc.top :=
  ⟨(((decode_loop_exit libav 104 eosPlainCall noFrame).1 (by decide) (by decide)).1.resolve_left
      (by decide)).trans (by decide),
   (((decode_loop_exit libav 104 eosPlainCall noFrame).1 (by decide) (by decide)).2.2 0
      (by decide)).2.1.resolve_left (by decide),
   ((decode_loop_exit libav 104 eosCall noFrame).1 (by decide) (by decide)).2.1.mpr
      (Or.inr (by decide))⟩


/-! ## Theorems: Audio thread -/

/-- C27, as stated, fails.  A stereo frame that differs from the declared source in its sample
rate only (48000 Hz against 44100 Hz) does not reconfigure the graph, and the declared source
keeps the old rate.  A mono frame in the planar format `S16P` against a declared mono source in
`S16` differs in its sample format and does not reconfigure either. -/
theorem audio_reconfigure_counterexample :
    ({ untimedFrame with sample_rate := 48000 } : AVFrame).sample_rate ≠ stereoSrc.freq ∧
    (audio_thread_reconfigure sampleFmts stereoSrc 1
        { untimedFrame with sample_rate := 48000 } 1).reconfigure = 0 ∧
    (audio_thread_reconfigure sampleFmts stereoSrc 1
        { untimedFrame with sample_rate := 48000 } 1).configured = false ∧
    (audio_thread_reconfigure sampleFmts stereoSrc 1
        { untimedFrame with sample_rate := 48000 } 1).audio_filter_src.freq = 44100 ∧
    ({ untimedFrame with format := 6, channels := 1, channel_layout := 4 } : AVFrame).format
      ≠ monoSrc.fmt ∧
    (audio_thread_reconfigure sampleFmts monoSrc 1
        { untimedFrame with format := 6, channels := 1, channel_layout := 4 } 1).reconfigure = 0 ∧
    (audio_thread_reconfigure sampleFmts monoSrc 1
        { untimedFrame with format := 6, channels := 1, channel_layout := 4 } 1).configured
      = false := by
  decide

/-- C27, amended.  For a decoded audio frame `audio_thread` reconfigures the filter graph, and
sets the declared source to the frame's format, checked channel layout, channel count and sample
rate, whenever the channel count of the frame differs from the declared one, or the sample
formats differ and not both are mono, or both are mono and the packed forms of the sample formats
differ.  It does not reconfigure, and leaves the declared source as it is, when channel count,
sample rate and channel layout are equal and the sample formats are equal (for two mono sources:
equal in packed form). -/
theorem audio_reconfigure_trigger (lib : SampleLib) (src : AudioParams) (last_serial : Int)
    (frame : AVFrame) (pkt_serial : Int) :
    (src.channels ≠ frame.channels →
      (audio_thread_reconfigure lib src last_serial frame pkt_serial).reconfigure ≠ 0) ∧
    (src.fmt ≠ frame.format → ¬ (src.channels = 1 ∧ frame.channels = 1) →
      (audio_thread_reconfigure lib src last_serial frame pkt_serial).reconfigure ≠ 0) ∧
    (src.channels = 1 → frame.channels = 1 →
      lib.av_get_packed_sample_fmt src.fmt ≠ lib.av_get_packed_sample_fmt frame.format →
      (audio_thread_reconfigure lib src last_serial frame pkt_serial).reconfigure ≠ 0) ∧
    ((audio_thread_reconfigure lib src last_serial frame pkt_serial).reconfigure ≠ 0 →
      (audio_thread_reconfigure lib src last_serial frame pkt_serial).configured = true ∧
      (audio_thread_reconfigure lib src last_serial frame pkt_serial).audio_filter_src
        = { fmt := frame.format,
            channel_layout := get_valid_channel_layout lib frame.channel_layout frame.channels,
            channels := frame.channels, freq := frame.sample_rate } ∧
      (audio_thread_reconfigure lib src last_serial frame pkt_serial).last_serial = pkt_serial) ∧
    (src.channels = frame.channels → src.freq = frame.sample_rate →
      src.channel_layout = get_valid_channel_layout lib frame.channel_layout frame.channels →
      (src.fmt = frame.format ∨
        (src.channels = 1 ∧
          lib.av_get_packed_sample_fmt src.fmt = lib.av_get_packed_sample_fmt frame.format)) →
      (audio_thread_reconfigure lib src last_serial frame pkt_serial).reconfigure = 0 ∧
      (audio_thread_reconfigure lib src last_serial frame pkt_serial).configured = false ∧
      (audio_thread_reconfigure lib src last_serial frame pkt_serial).audio_filter_src = src ∧
      (audio_thread_reconfigure lib src last_serial frame pkt_serial).last_serial
        = last_serial) := by
  have hcmp : ∀ v : Int, cmp_audio_fmts lib src.fmt src.channels frame.format frame.channels = v →
      (v ≠ 0 → (audio_thread_reconfigure lib src last_serial frame pkt_serial)
        = { reconfigure := v,
            audio_filter_src :=
              { fmt := frame.format,
                channel_layout :=
                  get_valid_channel_layout lib frame.channel_layout frame.channels,
                channels := frame.channels, freq := frame.sample_rate },
            last_serial := pkt_serial, configured := true }) ∧
      (v = 0 → (audio_thread_reconfigure lib src last_serial frame pkt_serial)
        = { reconfigure := 0, audio_filter_src := src, last_serial := last_serial,
            configured := false }) := by
    intro v hv
    constructor
    · intro hne
      unfold audio_thread_reconfigure
      simp only [hv]
      rw [if_pos hne]
    · intro hz
      unfold audio_thread_reconfigure
      simp only [hv, hz]
      rfl
  have hrec : (audio_thread_reconfigure lib src last_serial frame pkt_serial).reconfigure
      = cmp_audio_fmts lib src.fmt src.channels frame.format frame.channels := by
    unfold audio_thread_reconfigure
    dsimp only
    split <;> rfl
  refine ⟨?_, ?_, ?_, ?_, ?_⟩
  · intro hch
    rw [hrec]
    unfold cmp_audio_fmts
    rw [if_neg (fun h => hch (h.1.trans h.2.symm)), if_pos (Or.inl hch)]
    decide
  · intro hfmt hmono
    rw [hrec]
    unfold cmp_audio_fmts
    rw [if_neg hmono, if_pos (Or.inr hfmt)]
    decide
  · intro h1 h2 hp
    rw [hrec]
    unfold cmp_audio_fmts
    rw [if_pos ⟨h1, h2⟩, if_pos hp]
    decide
  · intro hne
    rw [hrec] at hne
    rw [((hcmp _ rfl).1 hne)]
    exact ⟨rfl, rfl, rfl⟩
  · intro hch _ _ hfmt
    have hz : cmp_audio_fmts lib src.fmt src.channels frame.format frame.channels = 0 := by
      unfold cmp_audio_fmts
      rcases hfmt with hfmt | ⟨h1, hp⟩
      · split
        · rw [hfmt, if_neg (fun h => h rfl)]
        · rw [if_neg (by rintro (h | h); exact h hch; exact h hfmt)]
      · rw [if_pos ⟨h1, hch ▸ h1⟩, if_neg (fun h => h hp)]
    rw [((hcmp _ rfl).2 hz)]
    exact ⟨rfl, rfl, rfl, rfl⟩

/-- Witness for C27 amended: a mono frame against the declared stereo source reconfigures the
graph, and the declared source takes over the frame's parameters. -/
theorem audio_reconfigure_trigger_witness :
    (audio_thread_reconfigure sampleFmts stereoSrc 1
        { untimedFrame with channels := 1, channel_layout := 4 } 2).reconfigure ≠ 0 ∧
    (audio_thread_reconfigure sampleFmts stereoSrc 1
        { untimedFrame with channels := 1, channel_layout := 4 } 2).audio_filter_src
      = { fmt := 8, channel_layout := 4, channels := 1, freq := 44100 } :=
  ⟨(audio_reconfigure_trigger sampleFmts stereoSrc 1
      { untimedFrame with channels := 1, channel_layout := 4 } 2).1 (by decide),
   ((audio_reconfigure_trigger sampleFmts stereoSrc 1
      { untimedFrame with channels := 1, channel_layout := 4 } 2).2.2.2.1
        ((audio_reconfigure_trigger sampleFmts stereoSrc 1
          { untimedFrame with channels := 1, channel_layout := 4 } 2).1 (by decide))).2.1.trans
     (by decide)⟩


/-! ## Theorems: one iteration of the Read Loop -/

theorem put_other_effect (sz : Int) (q : PacketQueue) (pkt : AVPacket) (ok : Bool) :
    PutEffect sz pkt ok q (packet_queue_put sz q (PacketRef.other pkt) ok).2 := by
  unfold PutEffect PQAppended packet_queue_put packet_queue_put_private
  cases ha : q.abort_request <;> cases ok <;> simp [PacketRef.isFlush, PacketRef.deref]

theorem eof_put_effect (sz : Int) (q : PacketQueue) (stream_index : Int) (ok : Bool) :
    EofEffect sz stream_index ok q (eof_put sz q stream_index ok) := by
  unfold EofEffect eof_put
  by_cases h : stream_index < 0
  · rw [if_pos h, if_neg (by omega)]
  · rw [if_neg h, if_pos (by omega)]
    exact put_other_effect sz q (null_packet stream_index) ok

theorem seek_flush_effect (sz : Int) (q : PacketQueue) (stream_index : Int) (ok : Bool)
    (seek_ret : Int) (h : 0 ≤ seek_ret) :
    SeekEffect sz seek_ret stream_index ok q (seek_flush sz q stream_index ok) := by
  unfold SeekEffect seek_flush
  by_cases hi : stream_index < 0
  · have h2 : ¬ stream_index ≥ 0 := by omega
    rw [if_pos (Or.inr hi), if_neg h2]
  · have h1 : ¬ (seek_ret < 0 ∨ stream_index < 0) := by omega
    have h2 : stream_index ≥ 0 := by omega
    simp only [if_neg h1, if_pos h2]
    unfold packet_queue_put packet_queue_put_private packet_queue_flush
    cases ha : q.abort_request <;> cases ok <;>
      simp [PacketRef.isFlush, PacketRef.deref]

theorem seek_effect_skip (sz : Int) (q : PacketQueue) (stream_index : Int) (ok : Bool)
    (seek_ret : Int) (h : seek_ret < 0) :
    SeekEffect sz seek_ret stream_index ok q q := by
  unfold SeekEffect
  rw [if_pos (Or.inl h)]

/-- C25. When `av_read_frame` fails with `AVERROR_EOF` (or `avio_feof` holds) and `eof` is 0, the
loop makes one put of a null packet (no data, size 0) on the queue of each stream whose index is
not negative, touches no queue of an absent stream, and sets `eof` to 1; a put appends exactly
that one packet unless the queue is aborted or `av_malloc` fails.  When `av_read_frame` fails
and `eof` is not 0, nothing changes: no packet is put on any queue.  A successful read sets
`eof` to 0. -/
theorem eof_null_packets (env : ReadEnv) (s : ReadState) :
    (env.av_read_frame < 0 → (env.av_read_frame = AVERROR_EOF ∨ env.avio_feof = true) →
      s.eof = 0 →
      (read_step env s).state.eof = 1 ∧
      (read_step env s).events = [ReadEvent.av_read_frame] ∧
      EofEffect env.sz s.md.video_stream_index (env.alloc_ok PutSite.eof_video)
        s.md.video_packet_queue (read_step env s).state.md.video_packet_queue ∧
      EofEffect env.sz s.md.audio_stream_index (env.alloc_ok PutSite.eof_audio)
        s.md.audio_packet_queue (read_step env s).state.md.audio_packet_queue ∧
      EofEffect env.sz s.md.subtitle_stream_index (env.alloc_ok PutSite.eof_subtitle)
        s.md.subtitle_packet_queue (read_step env s).state.md.subtitle_packet_queue) ∧
    (∀ i, (null_packet i).data = DataPtr.null ∧ (null_packet i).size = 0 ∧
      (null_packet i).stream_index = i) ∧
    (env.av_read_frame < 0 → s.eof ≠ 0 →
      (read_step env s).state = s ∧ (read_step env s).events = [ReadEvent.av_read_frame]) ∧
    (0 ≤ env.av_read_frame → (read_step env s).state.eof = 0) := by
  refine ⟨?_, fun i => ⟨rfl, rfl, rfl⟩, ?_, ?_⟩
  · intro hret heos heof
    have hs : (read_step env s).state = eof_step env s ∧
        (read_step env s).events = [ReadEvent.av_read_frame] := by
      unfold read_step
      simp only [if_pos hret, and_self]
    have he : eof_step env s
        = { s with
            md := { s.md with
              video_packet_queue :=
                eof_put env.sz s.md.video_packet_queue s.md.video_stream_index
                  (env.alloc_ok PutSite.eof_video),
              audio_packet_queue :=
                eof_put env.sz s.md.audio_packet_queue s.md.audio_stream_index
                  (env.alloc_ok PutSite.eof_audio),
              subtitle_packet_queue :=
                eof_put env.sz s.md.subtitle_packet_queue s.md.subtitle_stream_index
                  (env.alloc_ok PutSite.eof_subtitle) },
            eof := 1 } := by
      unfold eof_step
      exact if_pos ⟨heos, heof⟩
    rw [hs.1, hs.2, he]
    exact ⟨rfl, rfl, eof_put_effect _ _ _ _, eof_put_effect _ _ _ _, eof_put_effect _ _ _ _⟩
  · intro hret heof
    have hs : (read_step env s).state = eof_step env s ∧
        (read_step env s).events = [ReadEvent.av_read_frame] := by
      unfold read_step
      simp only [if_pos hret, and_self]
    have he : eof_step env s = s := by
      unfold eof_step
      exact if_neg (fun h => heof h.2)
    rw [hs.1, hs.2, he]
    exact ⟨rfl, rfl⟩
  · intro hret
    have hn : ¬ env.av_read_frame < 0 := by omega
    unfold read_step
    simp only [if_neg hn]
    unfold route_step
    dsimp only
    split <;> rfl

/-- Witness for C25: at the end of the stream of the two-stream source `playing` the video and
the audio queue get one null packet each, the subtitle queue stays empty, and `eof` is set. -/
theorem eof_null_packets_witness :
    (read_step eofEnv playing).state.eof = 1 ∧
    EofEffect 104 0 true playing.md.video_packet_queue
      (read_step eofEnv playing).state.md.video_packet_queue ∧
    (read_step eofEnv playing).state.md.video_packet_queue.nb_packets = 3 :=
  ⟨((eof_null_packets eofEnv playing).1 (by decide) (Or.inl rfl) (by decide)).1,
   ((eof_null_packets eofEnv playing).1 (by decide) (Or.inl rfl) (by decide)).2.2.1,
   by decide⟩


theorem seek_call_flags : Int.land 0 (Int.lnot AVSEEK_FLAG_BYTE) = 0 := by
  show ((Nat.ldiff 0 2 : Nat) : Int) = 0
  have h : Nat.ldiff 0 2 = 0 :=
    Nat.eq_of_testBit_eq (fun k => by rw [Nat.testBit_ldiff, Nat.zero_testBit]; simp)
  rw [h]
  rfl

theorem pause_step_events (env : ReadEnv) (s : ReadState) :
    ∀ e ∈ (pause_step env s).1, e = ReadEvent.av_read_pause ∨ e = ReadEvent.av_read_play := by
  intro e he
  unfold pause_step at he
  split_ifs at he <;> simp at he
  · exact Or.inl he
  · exact Or.inr he

theorem pause_step_fields (env : ReadEnv) (s : ReadState) :
    (pause_step env s).2.md = s.md ∧
    (pause_step env s).2.paused = s.paused ∧
    (pause_step env s).2.seek_req = s.seek_req ∧
    (pause_step env s).2.seek_pos = s.seek_pos ∧
    (pause_step env s).2.seek_rel = s.seek_rel ∧
    (pause_step env s).2.seek_flags = s.seek_flags ∧
    (pause_step env s).2.seek_event = s.seek_event ∧
    (pause_step env s).2.queue_attachments_req = s.queue_attachments_req ∧
    (pause_step env s).2.audio_decode = s.audio_decode ∧
    (pause_step env s).2.video_decode = s.video_decode ∧
    (pause_step env s).2.video_frame_queue = s.video_frame_queue ∧
    (pause_step env s).2.state_event = s.state_event := by
  unfold pause_step
  split_ifs <;> exact ⟨rfl, rfl, rfl, rfl, rfl, rfl, rfl, rfl, rfl, rfl, rfl, rfl⟩

theorem seek_step_events (env : ReadEnv) (s : ReadState) (h : s.seek_req ≠ 0) :
    (seek_step env s).1
      = ReadEvent.avformat_seek_file
          (if s.seek_rel > 0 then s.seek_pos * 1000 - s.seek_rel + 2 else INT64_MIN)
          (s.seek_pos * 1000)
          (if s.seek_rel < 0 then s.seek_pos * 1000 - s.seek_rel - 2 else INT64_MAX) 0
        :: (if s.seek_event = true then [ReadEvent.on_seek_event s.seek_flags] else []) := by
  have h1000 : AV_TIME_BASE / 1000 = 1000 := by decide
  unfold seek_step
  simp only [if_pos h, seek_call_flags, h1000]

theorem seek_step_events_congr (env : ReadEnv) (s s1 : ReadState)
    (h1 : s1.seek_req = s.seek_req) (h2 : s1.seek_pos = s.seek_pos)
    (h3 : s1.seek_rel = s.seek_rel) (h4 : s1.seek_flags = s.seek_flags)
    (h5 : s1.seek_event = s.seek_event) :
    (seek_step env s1).1 = (seek_step env s).1 := by
  unfold seek_step
  simp only [h1, h2, h3, h4, h5]
  split_ifs <;> rfl

theorem complete_state_events (s : ReadState) (answer : Int) :
    (complete_state s answer).1 = [] ∨
      (complete_state s answer).1 = [ReadEvent.on_complete_event] := by
  unfold complete_state
  split
  · exact Or.inr rfl
  · exact Or.inl rfl

theorem attach_step_events (env : ReadEnv) (s : ReadState) :
    ∀ e ∈ (attach_step env s).1, e = ReadEvent.read_thread_failed := by
  have h : (attach_step env s).1 = [] ∨ (attach_step env s).1 = [ReadEvent.read_thread_failed] := by
    unfold attach_step
    by_cases hq : s.queue_attachments_req ≠ 0
    · rw [if_pos hq]
      cases hv : s.md.video_stream with
      | none => exact Or.inl rfl
      | some st =>
          dsimp only
          by_cases hp : st.disposition &&& AV_DISPOSITION_ATTACHED_PIC ≠ 0
          · rw [if_pos hp]
            by_cases hc : env.av_copy_packet < 0
            · right
              simp only [if_pos hc]
            · left
              simp only [if_neg hc]
          · rw [if_neg hp]
            exact Or.inl rfl
    · rw [if_neg hq]
      exact Or.inl rfl
  intro e he
  rcases h with h | h <;> rw [h] at he <;> simp at he
  exact he

theorem route_step_events (env : ReadEnv) (s : ReadState) :
    ∀ e ∈ (route_step env s).events,
      (∃ t, e = ReadEvent.packet_queue_put t) ∨ e = ReadEvent.av_packet_unref := by
  intro e he
  unfold route_step at he
  dsimp only at he
  split at he <;> simp at he
  · exact Or.inl ⟨_, he⟩
  · exact Or.inl ⟨_, he⟩
  · exact Or.inl ⟨_, he⟩
  · exact Or.inr he

theorem read_step_events (env : ReadEnv) (s : ReadState) :
    ∀ e ∈ (read_step env s).events,
      e = ReadEvent.av_read_frame ∨ (∃ t, e = ReadEvent.packet_queue_put t) ∨
        e = ReadEvent.av_packet_unref := by
  intro e he
  by_cases hr : env.av_read_frame < 0
  · have h : (read_step env s).events = [ReadEvent.av_read_frame] := by
      unfold read_step
      simp only [if_pos hr]
    rw [h] at he
    simp at he
    exact Or.inl he
  · have h : (read_step env s).events
        = ReadEvent.av_read_frame :: (route_step env { s with eof := 0 }).events := by
      unfold read_step
      simp only [if_neg hr]
    rw [h, List.mem_cons] at he
    rcases he with he | he
    · exact Or.inl he
    · exact Or.inr (route_step_events env _ e he)

theorem completion_step_events (env : ReadEnv) (s : ReadState) :
    (completion_step env s).events = [] ∨
      (completion_step env s).events = [ReadEvent.on_complete_event] := by
  unfold completion_step
  split_ifs
  · exact complete_state_events _ _
  · exact Or.inl rfl

theorem finish_step_events (env : ReadEnv) (s : ReadState) :
    (finish_step env s).events = [] ∨
      (finish_step env s).events = [ReadEvent.on_complete_event] := by
  unfold finish_step
  split_ifs
  · exact complete_state_events _ _
  · exact Or.inl rfl

theorem rest_events (env : ReadEnv) (s : ReadState) :
    ∀ e ∈ (read_thread_rest env s).events,
      e = ReadEvent.read_thread_failed ∨ e = ReadEvent.on_complete_event ∨
      e = ReadEvent.av_read_frame ∨ (∃ t, e = ReadEvent.packet_queue_put t) ∨
      e = ReadEvent.av_packet_unref := by
  intro e he
  have ha := attach_step_events env s
  have hc := completion_step_events env (attach_step env s).2
  have hf := finish_step_events env (completion_step env (attach_step env s).2).state
  have hr := read_step_events env
    (finish_step env (completion_step env (attach_step env s).2).state).state
  have hce : ∀ e ∈ (completion_step env (attach_step env s).2).events,
      e = ReadEvent.on_complete_event := by
    intro e he
    rcases hc with hc | hc <;> rw [hc] at he <;> simp at he
    exact he
  have hfe : ∀ e ∈ (finish_step env (completion_step env (attach_step env s).2).state).events,
      e = ReadEvent.on_complete_event := by
    intro e he
    rcases hf with hf | hf <;> rw [hf] at he <;> simp at he
    exact he
  unfold read_thread_rest at he
  dsimp only at he
  split at he
  · exact Or.inl (ha e he)
  · exact Or.inl (ha e he)
  · split_ifs at he
    · simp only [List.mem_append] at he
      rcases he with he | he
      · exact Or.inl (ha e he)
      · exact Or.inr (Or.inl (hce e he))
    · simp only [List.mem_append] at he
      rcases he with (he | he) | he
      · exact Or.inl (ha e he)
      · exact Or.inr (Or.inl (hce e he))
      · exact Or.inr (Or.inl (hfe e he))
    · simp only [List.mem_append] at he
      rcases he with ((he | he) | he) | he
      · exact Or.inl (ha e he)
      · exact Or.inr (Or.inl (hce e he))
      · exact Or.inr (Or.inl (hfe e he))
      · exact Or.inr (Or.inr (hr e he))

/-- C21, as stated, fails.  With a seek pending on the two-stream source `playing`: when
`avformat_seek_file` fails, no queue is flushed and none gets a flush marker (the audio queue
keeps its two packets, the serial of the video queue stays); when it succeeds, the queue of the
absent subtitle stream gets no flush marker and keeps its serial. -/
theorem seek_counterexample :
    seekPending.seek_req ≠ 0 ∧
    (seek_step failedSeekEnv seekPending).2.md.audio_packet_queue
      = seekPending.md.audio_packet_queue ∧
    (seek_step failedSeekEnv seekPending).2.md.audio_packet_queue.nb_packets = 2 ∧
    (seek_step failedSeekEnv seekPending).2.md.video_packet_queue.serial
      = seekPending.md.video_packet_queue.serial ∧
    (seek_step quietEnv seekPending).2.md.subtitle_packet_queue.pkts = [] ∧
    (seek_step quietEnv seekPending).2.md.subtitle_packet_queue.serial
      = seekPending.md.subtitle_packet_queue.serial := by
  decide

/-- C21, amended.  In an iteration that starts with `seek_req` set, the seek step calls
`avformat_seek_file` with target `seek_pos * 1000`.  If the call succeeds, the Packet Queue of
each stream whose index is not negative is flushed and, unless it is aborted or `av_malloc`
fails, then holds exactly one node, the flush marker, under the previous serial plus one, which
is the new serial of the queue; the queue of an absent stream and, after a failed call, all three
queues stay as they are.  In every case `seek_req` is cleared, `queue_attachments_req` is set and
`eof` is reset to 0.  If `seek_event` is set, `on_seek_event` is called with `seek_flags`, once
in the iteration: before it the iteration only follows a change of `paused`, and every call of
`av_read_frame` and every put of a packet read comes after it. -/
theorem seek_applied (env : ReadEnv) (s : ReadState) (h : s.seek_req ≠ 0) :
    SeekEffect env.sz env.avformat_seek_file s.md.audio_stream_index
      (env.alloc_ok PutSite.seek_audio) s.md.audio_packet_queue
      (seek_step env s).2.md.audio_packet_queue ∧
    SeekEffect env.sz env.avformat_seek_file s.md.video_stream_index
      (env.alloc_ok PutSite.seek_video) s.md.video_packet_queue
      (seek_step env s).2.md.video_packet_queue ∧
    SeekEffect env.sz env.avformat_seek_file s.md.subtitle_stream_index
      (env.alloc_ok PutSite.seek_subtitle) s.md.subtitle_packet_queue
      (seek_step env s).2.md.subtitle_packet_queue ∧
    (seek_step env s).2.seek_req = 0 ∧
    (seek_step env s).2.queue_attachments_req = 1 ∧
    (seek_step env s).2.eof = 0 ∧
    (seek_step env s).1
      = ReadEvent.avformat_seek_file
          (if s.seek_rel > 0 then s.seek_pos * 1000 - s.seek_rel + 2 else INT64_MIN)
          (s.seek_pos * 1000)
          (if s.seek_rel < 0 then s.seek_pos * 1000 - s.seek_rel - 2 else INT64_MAX) 0
        :: (if s.seek_event = true then [ReadEvent.on_seek_event s.seek_flags] else []) ∧
    (∃ pre post,
      (read_thread_body env s).events = pre ++ (seek_step env s).1 ++ post ∧
      (∀ e ∈ pre, e = ReadEvent.av_read_pause ∨ e = ReadEvent.av_read_play) ∧
      (∀ e ∈ post, ∀ flags, e ≠ ReadEvent.on_seek_event flags)) ∧
    (s.seek_event = true →
      (read_thread_body env s).events.count (ReadEvent.on_seek_event s.seek_flags) = 1) := by
  have hev := seek_step_events env s h
  obtain ⟨p1, p2, p3, p4, p5, p6, p7, _⟩ := pause_step_fields env s
  have hcongr := seek_step_events_congr env s (pause_step env s).2 p3 p4 p5 p6 p7
  have hbody : (read_thread_body env s).events
      = (pause_step env s).1 ++ (seek_step env s).1
          ++ (read_thread_rest env (seek_step env (pause_step env s).2).2).events := by
    rw [← hcongr]
    rfl
  have hpost : ∀ e ∈ (read_thread_rest env (seek_step env (pause_step env s).2).2).events,
      ∀ flags, e ≠ ReadEvent.on_seek_event flags := by
    intro e he flags hfl
    have := rest_events env _ e he
    rw [hfl] at this
    simp at this
  have hstate : (seek_step env s).2
      = { s with
          md := if env.avformat_seek_file < 0 then s.md
            else
              { s.md with
                audio_packet_queue :=
                  seek_flush env.sz s.md.audio_packet_queue s.md.audio_stream_index
                    (env.alloc_ok PutSite.seek_audio),
                video_packet_queue :=
                  seek_flush env.sz s.md.video_packet_queue s.md.video_stream_index
                    (env.alloc_ok PutSite.seek_video),
                subtitle_packet_queue :=
                  seek_flush env.sz s.md.subtitle_packet_queue s.md.subtitle_stream_index
                    (env.alloc_ok PutSite.seek_subtitle) },
          seek_req := 0, queue_attachments_req := 1, eof := 0 } := by
    unfold seek_step
    simp only [if_pos h]
  have hq : ∀ (idx : Int) (ok : Bool) (q : PacketQueue),
      SeekEffect env.sz env.avformat_seek_file idx ok q
        (if env.avformat_seek_file < 0 then q else seek_flush env.sz q idx ok) := by
    intro idx ok q
    by_cases hr : env.avformat_seek_file < 0
    · rw [if_pos hr]
      exact seek_effect_skip _ _ _ _ _ hr
    · rw [if_neg hr]
      exact seek_flush_effect _ _ _ _ _ (by omega)
  refine ⟨?_, ?_, ?_, ?_, ?_, ?_, hev, ⟨(pause_step env s).1, _, hbody,
    pause_step_events env s, hpost⟩, ?_⟩
  · have := hq s.md.audio_stream_index (env.alloc_ok PutSite.seek_audio) s.md.audio_packet_queue
    rw [hstate]
    by_cases hr : env.avformat_seek_file < 0
    · simp only [if_pos hr] at this ⊢
      exact this
    · simp only [if_neg hr] at this ⊢
      exact this
  · have := hq s.md.video_stream_index (env.alloc_ok PutSite.seek_video) s.md.video_packet_queue
    rw [hstate]
    by_cases hr : env.avformat_seek_file < 0
    · simp only [if_pos hr] at this ⊢
      exact this
    · simp only [if_neg hr] at this ⊢
      exact this
  · have := hq s.md.subtitle_stream_index (env.alloc_ok PutSite.seek_subtitle)
      s.md.subtitle_packet_queue
    rw [hstate]
    by_cases hr : env.avformat_seek_file < 0
    · simp only [if_pos hr] at this ⊢
      exact this
    · simp only [if_neg hr] at this ⊢
      exact this
  · rw [hstate]
  · rw [hstate]
  · rw [hstate]
  · intro hse
    rw [hbody, hev, if_pos hse, List.count_append, List.count_append]
    have h1 : List.count (ReadEvent.on_seek_event s.seek_flags) (pause_step env s).1 = 0 := by
      apply List.count_eq_zero_of_not_mem
      intro hm
      have := pause_step_events env s _ hm
      simp at this
    have h2 : List.count (ReadEvent.on_seek_event s.seek_flags)
        (read_thread_rest env (seek_step env (pause_step env s).2).2).events = 0 := by
      apply List.count_eq_zero_of_not_mem
      intro hm
      exact hpost _ hm _ rfl
    rw [h1, h2]
    simp [List.count_cons]

/-- Witness for C21 amended: a seek to 5000 ms on `playing` succeeds; the video queue then holds
the flush marker alone under serial 2, `seek_req` is cleared and the callback is called once. -/
theorem seek_applied_witness :
    seekPending.seek_req ≠ 0 ∧
    SeekEffect 104 0 0 true seekPending.md.video_packet_queue
      (seek_step quietEnv seekPending).2.md.video_packet_queue ∧
    (seek_step quietEnv seekPending).2.md.video_packet_queue.pkts
      = [{ pkt := flush_pkt, serial := 2 }] ∧
    (seek_step quietEnv seekPending).2.seek_req = 0 ∧
    (read_thread_body quietEnv seekPending).events.count
      (ReadEvent.on_seek_event seekPending.seek_flags) = 1 :=
  ⟨by decide,
   (seek_applied quietEnv seekPending (by decide)).2.1,
   by decide,
   (seek_applied quietEnv seekPending (by decide)).2.2.2.1,
   (seek_applied quietEnv seekPending (by decide)).2.2.2.2.2.2.2.2 (by decide)⟩


/-! ### The completion check -/

/-- C23 does not hold of the code.  In `audioBusy` an audio and a video stream are open and
playback is not paused; the video decoder has finished in the current epoch of its queue and no
video frame is left, while the audio decoder has not finished and two packets wait in the audio
queue.  The completion check calls `on_complete_event` all the same. -/
theorem completion_ignores_audio :
    audioBusy.paused = 0 ∧
    audioBusy.md.audio_stream ≠ none ∧
    0 ≤ audioBusy.md.audio_stream_index ∧
    audioBusy.md.audio_packet_queue.nb_packets = 2 ∧
    audioBusy.audio_decode.finished ≠ audioBusy.md.audio_packet_queue.serial ∧
    audioBusy.video_decode.finished = audioBusy.md.video_packet_queue.serial ∧
    frame_queue_nb_remaining audioBusy.video_frame_queue = 0 ∧
    (completion_step quietEnv audioBusy).events = [ReadEvent.on_complete_event] ∧
    (read_thread_body quietEnv audioBusy).events
      = [ReadEvent.on_complete_event, ReadEvent.av_read_frame,
         ReadEvent.packet_queue_put AVMediaType.video] := by
  decide

/-- C24 does not hold of the code.  In `endOfPlayLate` both decoders have finished in the
current epoch of their queues, no frame is left and playback is not paused, and the video decoder
has set `finish` because the last frame lay beyond `end_time`: the iteration calls
`on_complete_event` twice, once from the completion check and once from the end-time check.  In
`afterCompletion`, the context left by the iteration that fired on `endOfPlay`, no decoder has set
`finished` again and no seek is pending, and `finish` is set: the iteration calls
`on_complete_event` again.  A decode step sets `finish` for a frame beyond `end_time` and leaves
`finished` at 0. -/
theorem completion_repeats :
    endOfPlayLate.md.audio_stream ≠ none ∧
    endOfPlayLate.md.video_stream ≠ none ∧
    endOfPlayLate.paused = 0 ∧
    endOfPlayLate.audio_decode.finished = endOfPlayLate.md.audio_packet_queue.serial ∧
    endOfPlayLate.video_decode.finished = endOfPlayLate.md.video_packet_queue.serial ∧
    frame_queue_nb_remaining endOfPlayLate.video_frame_queue = 0 ∧
    (read_thread_body eofEnv endOfPlayLate).events.count ReadEvent.on_complete_event = 2 ∧
    (read_thread_body eofEnv endOfPlay).events.count ReadEvent.on_complete_event = 1 ∧
    afterCompletion.audio_decode.finished = 0 ∧
    afterCompletion.video_decode.finished = 0 ∧
    afterCompletion.seek_req = 0 ∧
    0 < afterCompletion.md.audio_packet_queue.serial ∧
    0 < afterCompletion.md.video_packet_queue.serial ∧
    ReadEvent.on_complete_event ∈ (read_thread_body eofEnv afterCompletion).events ∧
    (decStep libav 104 lateCall oneFrame).md.finish = true ∧
    (decStep libav 104 lateCall oneFrame).d.finished = 0 := by
  decide

/-! ## Theorems: waking parked threads -/

theorem resume_aborted (sz : Int) (q : PacketQueue) (f : FrameQueue) (t : Thread)
    (h : q.abort_request = true) : resume sz q f t = (t.aborted, q) := by
  cases t with
  | returned c r => rfl
  | parked c =>
      cases c with
      | packet_queue_get =>
          simp [resume, packet_queue_get, h, Thread.aborted, BlockingCall.abort_result]
      | frame_queue_peek_writable =>
          simp [resume, frame_queue_peek_writable, h, Thread.aborted,
            BlockingCall.abort_result]
      | frame_queue_peek_readable =>
          simp [resume, frame_queue_peek_readable, h, Thread.aborted,
            BlockingCall.abort_result]

theorem aborted_aborted (t : Thread) : t.aborted.aborted = t.aborted := by
  cases t <;> rfl

theorem aborted_not_parked (t : Thread) (cv : CondVar) :
    t.aborted.parkedOn cv = false ∧ t.aborted.isParked = false := by
  cases t <;> exact ⟨rfl, rfl⟩

theorem parkedOn_isParked (t : Thread) (cv : CondVar) (h : t.parkedOn cv = true) :
    t.isParked = true := by
  cases t with
  | parked c => rfl
  | returned c r => simp [Thread.parkedOn] at h

theorem isParked_cases (t : Thread) (h : t.isParked = true) :
    t.parkedOn CondVar.q_cond = true ∨ t.parkedOn CondVar.f_cond = true := by
  cases t with
  | parked c => cases c <;> simp [Thread.parkedOn, BlockingCall.cond]
  | returned c r => simp [Thread.isParked] at h

theorem wakeAll_aborted (sz : Int) (woken : List Nat) (s : WaitSys)
    (h : s.q.abort_request = true) :
    (wakeAll sz s woken).q = s.q ∧ (wakeAll sz s woken).f = s.f ∧
    ∀ j : Nat, (wakeAll sz s woken).threads[j]?
      = (s.threads[j]?).map (fun t => if j ∈ woken then t.aborted else t) := by
  induction woken generalizing s with
  | nil =>
      refine ⟨rfl, rfl, ?_⟩
      intro j
      simp [wakeAll]
  | cons i rest ih =>
      have hw : wake sz s i = { s with threads :=
          match s.threads[i]? with
          | some t => s.threads.set i t.aborted
          | none => s.threads } := by
        unfold wake
        cases ht : s.threads[i]? with
        | none => rfl
        | some t =>
            simp only [resume_aborted sz s.q s.f t h]
      have hstep : wakeAll sz s (i :: rest) = wakeAll sz (wake sz s i) rest := rfl
      rw [hstep, hw]
      obtain ⟨i1, i2, i3⟩ := ih { s with threads :=
          match s.threads[i]? with
          | some t => s.threads.set i t.aborted
          | none => s.threads } h
      refine ⟨i1, i2, ?_⟩
      intro j
      rw [i3 j]
      dsimp only
      cases ht : s.threads[i]? with
      | none =>
          dsimp only
          by_cases hji : j = i
          · subst hji
            rw [ht]
            rfl
          · cases hj : s.threads[j]? with
            | none => rfl
            | some tj =>
                simp only [Option.map_some', List.mem_cons, hji, false_or]
      | some t =>
          dsimp only
          by_cases hji : j = i
          · subst hji
            have hlt : j < s.threads.length := by
              by_contra hge
              have := List.getElem?_eq_none (l := s.threads) (n := j) (by omega)
              rw [this] at ht
              cases ht
            rw [List.getElem?_set, if_pos rfl, if_pos hlt, ht]
            simp only [Option.map_some', List.mem_cons, true_or, if_true, aborted_aborted,
              ite_self]
          · rw [List.getElem?_set_ne (fun hij => hji hij.symm)]
            cases hj : s.threads[j]? with
            | none => rfl
            | some tj =>
                simp only [Option.map_some', List.mem_cons, hji, false_or]

theorem countP_unique {α : Type} (p : α → Bool) (l : List α) (h : l.countP p ≤ 1) :
    ∀ (i j : Nat) (a b : α), l[i]? = some a → l[j]? = some b → p a = true → p b = true →
      i = j := by
  induction l with
  | nil =>
      intro i j a b hi
      simp at hi
  | cons x xs ih =>
      rw [List.countP_cons] at h
      intro i j a b hi hj ha hb
      cases i with
      | zero =>
          cases j with
          | zero => rfl
          | succ j =>
              exfalso
              simp only [List.getElem?_cons_zero, Option.some.injEq] at hi
              rw [List.getElem?_cons_succ] at hj
              have hx : p x = true := by rw [hi]; exact ha
              have hpos : 0 < xs.countP p :=
                List.countP_pos_iff.mpr ⟨b, List.getElem?_mem hj, hb⟩
              rw [if_pos hx] at h
              omega
      | succ i =>
          cases j with
          | zero =>
              exfalso
              simp only [List.getElem?_cons_zero, Option.some.injEq] at hj
              rw [List.getElem?_cons_succ] at hi
              have hx : p x = true := by rw [hj]; exact hb
              have hpos : 0 < xs.countP p :=
                List.countP_pos_iff.mpr ⟨a, List.getElem?_mem hi, ha⟩
              rw [if_pos hx] at h
              omega
          | succ j =>
              rw [List.getElem?_cons_succ] at hi hj
              have := ih (by omega) i j a b hi hj ha hb
              omega

theorem signalLegal_exists (cv : CondVar) (threads : List Thread) (woken : List Nat)
    (h : signalLegal cv threads woken = true) (t : Thread) (ht : t ∈ threads)
    (hp : t.parkedOn cv = true) :
    ∃ i ∈ woken, ∃ ti, threads[i]? = some ti ∧ ti.parkedOn cv = true := by
  unfold signalLegal at h
  have hany : threads.any (Thread.parkedOn cv) = true := List.any_eq_true.mpr ⟨t, ht, hp⟩
  rw [hany] at h
  simp only [Bool.not_true, Bool.false_or, List.any_eq_true] at h
  obtain ⟨i, hi, hm⟩ := h
  refine ⟨i, hi, ?_⟩
  cases hti : threads[i]? with
  | none => rw [hti] at hm; simp at hm
  | some ti =>
      rw [hti] at hm
      exact ⟨ti, rfl, hm⟩

/-- After `packet_queue_abort` and the wake of `woken`: every thread slot holds the old thread,
or what it is after having seen the abort if it was woken. -/
theorem abort_wake_threads (sz : Int) (s : WaitSys) (woken : List Nat) :
    (packet_queue_abort_wake sz s woken).q = packet_queue_abort s.q ∧
    (packet_queue_abort_wake sz s woken).f = s.f ∧
    ∀ j : Nat, (packet_queue_abort_wake sz s woken).threads[j]?
      = (s.threads[j]?).map (fun t => if j ∈ woken then t.aborted else t) :=
  wakeAll_aborted sz woken { s with q := packet_queue_abort s.q } rfl

theorem abort_wake_parked (sz : Int) (s : WaitSys) (woken : List Nat) (j : Nat) (t : Thread)
    (hj : (packet_queue_abort_wake sz s woken).threads[j]? = some t)
    (hp : t.isParked = true) : s.threads[j]? = some t ∧ j ∉ woken := by
  rw [(abort_wake_threads sz s woken).2.2 j] at hj
  cases h0 : s.threads[j]? with
  | none => rw [h0] at hj; simp at hj
  | some t0 =>
      rw [h0] at hj
      simp only [Option.map_some', Option.some.injEq] at hj
      by_cases hw : j ∈ woken
      · rw [if_pos hw] at hj
        rw [← hj, (aborted_not_parked t0 CondVar.q_cond).2] at hp
        cases hp
      · rw [if_neg hw] at hj
        rw [hj]
        exact ⟨rfl, hw⟩

/-- C26, as stated, fails.  With two threads parked in `packet_queue_get`, the one
`pthread_cond_signal` of `packet_queue_abort` may wake the first only: it returns -1 and the
second stays parked although `abort_request` is set.  With the decoder thread parked in
`packet_queue_get` and the renderer in `frame_queue_peek_readable`, `packet_queue_abort` wakes
the decoder thread, and the renderer, which waits on the condition variable of the Frame Queue,
stays parked. -/
theorem abort_wake_counterexample :
    signalLegal CondVar.q_cond twoGetters.threads [0] = true ∧
    (packet_queue_abort_wake 104 twoGetters [0]).q.abort_request = true ∧
    (packet_queue_abort_wake 104 twoGetters [0]).threads
      = [Thread.returned BlockingCall.packet_queue_get (CallResult.get (-1) none),
         Thread.parked BlockingCall.packet_queue_get] ∧
    signalLegal CondVar.q_cond decoderAndRenderer.threads [0] = true ∧
    (packet_queue_abort_wake 104 decoderAndRenderer [0]).threads
      = [Thread.returned BlockingCall.packet_queue_get (CallResult.get (-1) none),
         Thread.parked BlockingCall.frame_queue_peek_readable] := by
  decide

/-- C26, amended.  `packet_queue_abort` sets `abort_request` and signals `q->cond` once.  Every
parked thread that wakes up then returns the abort result: -1 from `packet_queue_get`, `NULL`
from `frame_queue_peek_writable` and `frame_queue_peek_readable`.  If at most one thread is
parked on `q->cond`, no thread is parked in `packet_queue_get` after the call.  The peeks wait on
`f->cond`, which `decoder_abort` signals next through `frame_queue_signal`: if at most one thread
is parked on each of the two condition variables, no thread is left parked after the two calls,
and each thread that was parked has returned the abort result. -/
theorem abort_wakes (sz : Int) (s : WaitSys) (woken1 woken2 : List Nat)
    (h1 : signalLegal CondVar.q_cond s.threads woken1 = true)
    (h2 : signalLegal CondVar.f_cond (packet_queue_abort_wake sz s woken1).threads woken2
      = true) :
    (packet_queue_abort_wake sz s woken1).q = packet_queue_abort s.q ∧
    (∀ (i : Nat) (c : BlockingCall), i ∈ woken1 → s.threads[i]? = some (Thread.parked c) →
      (packet_queue_abort_wake sz s woken1).threads[i]?
        = some (Thread.returned c c.abort_result)) ∧
    (s.threads.countP (Thread.parkedOn CondVar.q_cond) ≤ 1 →
      ∀ t ∈ (packet_queue_abort_wake sz s woken1).threads,
        t.parkedOn CondVar.q_cond = false) ∧
    (s.threads.countP (Thread.parkedOn CondVar.q_cond) ≤ 1 →
      s.threads.countP (Thread.parkedOn CondVar.f_cond) ≤ 1 →
      (∀ t ∈ (decoder_abort_wake sz s woken1 woken2).threads, t.isParked = false) ∧
      (∀ (i : Nat) (c : BlockingCall), s.threads[i]? = some (Thread.parked c) →
        (decoder_abort_wake sz s woken1 woken2).threads[i]?
          = some (Thread.returned c c.abort_result))) := by
  obtain ⟨a1, a2, a3⟩ := abort_wake_threads sz s woken1
  have hq1 : ∀ cv, s.threads.countP (Thread.parkedOn cv) ≤ 1 →
      signalLegal cv s.threads woken1 = true →
      ∀ t ∈ (packet_queue_abort_wake sz s woken1).threads, t.parkedOn cv = false := by
    intro cv hc hl t ht
    by_contra hp
    have hp : t.parkedOn cv = true := by
      cases hb : t.parkedOn cv
      · exact absurd hb hp
      · rfl
    obtain ⟨j, hj⟩ := List.mem_iff_getElem?.mp ht
    obtain ⟨hs, hnw⟩ := abort_wake_parked sz s woken1 j t hj (parkedOn_isParked t cv hp)
    obtain ⟨i, hi, ti, hti, hpi⟩ :=
      signalLegal_exists cv s.threads woken1 hl t (List.getElem?_mem hs) hp
    have := countP_unique _ _ hc i j ti t hti hs hpi hp
    rw [this] at hi
    exact hnw hi
  have habort : (packet_queue_abort_wake sz s woken1).q.abort_request = true := by
    rw [a1]
    rfl
  obtain ⟨b1, b2, b3⟩ := wakeAll_aborted sz woken2 (packet_queue_abort_wake sz s woken1) habort
  have hb3 : ∀ j : Nat, (decoder_abort_wake sz s woken1 woken2).threads[j]?
      = ((packet_queue_abort_wake sz s woken1).threads[j]?).map
          (fun t => if j ∈ woken2 then t.aborted else t) := b3
  refine ⟨a1, ?_, ?_, ?_⟩
  · intro i c hi hs
    rw [a3 i, hs]
    simp only [Option.map_some', if_pos hi]
    rfl
  · intro hc
    exact hq1 CondVar.q_cond hc h1
  · intro hcq hcf
    have hnone : ∀ t ∈ (decoder_abort_wake sz s woken1 woken2).threads,
        t.isParked = false := by
      intro t ht
      by_contra hp
      have hp : t.isParked = true := by
        cases hb : t.isParked
        · exact absurd hb hp
        · rfl
      obtain ⟨j, hj⟩ := List.mem_iff_getElem?.mp ht
      rw [hb3 j] at hj
      cases h0 : (packet_queue_abort_wake sz s woken1).threads[j]? with
      | none => rw [h0] at hj; simp at hj
      | some t0 =>
          rw [h0] at hj
          simp only [Option.map_some', Option.some.injEq] at hj
          by_cases hw : j ∈ woken2
          · rw [if_pos hw] at hj
            rw [← hj, (aborted_not_parked t0 CondVar.q_cond).2] at hp
            cases hp
          · rw [if_neg hw] at hj
            subst hj
            have hmem : t0 ∈ (packet_queue_abort_wake sz s woken1).threads :=
              List.getElem?_mem h0
            have hnq := hq1 CondVar.q_cond hcq h1 t0 hmem
            have hf : t0.parkedOn CondVar.f_cond = true := by
              rcases isParked_cases t0 hp with h | h
              · rw [hnq] at h
                cases h
              · exact h
            obtain ⟨i, hi, ti, hti, hpi⟩ := signalLegal_exists CondVar.f_cond _ woken2 h2 t0
              hmem hf
            obtain ⟨hs0, _⟩ := abort_wake_parked sz s woken1 j t0 h0 hp
            obtain ⟨hsi, _⟩ := abort_wake_parked sz s woken1 i ti hti
              (parkedOn_isParked ti _ hpi)
            have := countP_unique _ _ hcf i j ti t0 hsi hs0 hpi hf
            rw [this] at hi
            exact hw hi
    refine ⟨hnone, ?_⟩
    intro i c hs
    have hlen : ∃ t, (decoder_abort_wake sz s woken1 woken2).threads[i]? = some t := by
      rw [hb3 i, a3 i, hs]
      simp
    obtain ⟨t, ht⟩ := hlen
    have htn := hnone t (List.getElem?_mem ht)
    rw [ht]
    rw [hb3 i, a3 i, hs] at ht
    simp only [Option.map_some', Option.some.injEq] at ht
    by_cases hw1 : i ∈ woken1
    · rw [if_pos hw1] at ht
      have : t = Thread.returned c c.abort_result := by
        rw [← ht]
        simp [Thread.aborted]
      rw [this]
    · rw [if_neg hw1] at ht
      by_cases hw2 : i ∈ woken2
      · rw [if_pos hw2] at ht
        rw [← ht]
        rfl
      · rw [if_neg hw2] at ht
        rw [← ht] at htn
        simp [Thread.isParked] at htn

/-- Witness for C26 amended: with the decoder thread parked in `packet_queue_get` and the renderer
in `frame_queue_peek_readable`, the two signals of `decoder_abort` leave no thread parked. -/
theorem abort_wakes_witness :
    signalLegal CondVar.q_cond decoderAndRenderer.threads [0] = true ∧
    signalLegal CondVar.f_cond (packet_queue_abort_wake 104 decoderAndRenderer [0]).threads [1]
      = true ∧
    (∀ t ∈ (decoder_abort_wake 104 decoderAndRenderer [0] [1]).threads, t.isParked = false) ∧
    (decoder_abort_wake 104 decoderAndRenderer [0] [1]).threads
      = [Thread.returned BlockingCall.packet_queue_get (CallResult.get (-1) none),
         Thread.returned BlockingCall.frame_queue_peek_readable CallResult.peek_null] :=
  ⟨by decide, by decide,
   ((abort_wakes 104 decoderAndRenderer [0] [1] (by decide) (by decide)).2.2.2 (by decide)
      (by decide)).1,
   by decide⟩

end Trinity
